import Mathlib

/-!
# Tunnel SLAM graph back end (`src/src/graph.cpp`)

A shallow embedding of the estimation cycle of `class Graph`: the sensor
handlers, `runOnce` and the private steps it calls (`_incrementPosition`,
`_processIMU`, `_cloud2Map`, `_transformToGlobalMap`, `_performIsam`), the
covariance reordering of `_publishTransformed`, and the batch smoothing of
`_smoothPoses`.

Conventions of the embedding.
* `double` and `float` values are exact rationals; rounding, infinities and
  NaN are not represented, except that a PCL point carries a flag telling
  whether its coordinates are finite.
* Functions of gtsam, PCL, OpenCV, tf and libm whose code is not part of the
  repository are fields of `Ext`; the program is a function of them.
* A step that would throw an exception which `graph.cpp` does not catch, or
  read a container out of range, yields `none`. The read `framePoses[cloudnr]`
  of `_smoothPoses` past the end of the vector is left to `Ext.readPastEnd`,
  which says whether the program stops there or reads on, and with what.
* The mutex serialises handlers and cycles, so a run is a list of events. A
  round of `_smoothPoses` is taken as one step between two events.
-/

namespace TunnelSlam

/-! ## Geometry -/

abbrev Vector3 := Fin 3 → ℚ
abbrev Vector6 := Fin 6 → ℚ
abbrev Matrix3 := Matrix (Fin 3) (Fin 3) ℚ
abbrev Matrix6 := Matrix (Fin 6) (Fin 6) ℚ
abbrev Matrix36 := Matrix (Fin 3) (Fin 6) ℚ

/-- The type `gtsam::Pose3`: a rotation matrix and a translation. -/
structure Pose3 where
  R : Matrix3
  t : Vector3

/-- The operator `Pose3 * Pose3`. -/
def Pose3.compose (a b : Pose3) : Pose3 :=
  { R := a.R * b.R, t := a.R.mulVec b.t + a.t }

/-- The method `Pose3::inverse`. -/
def Pose3.inverse (a : Pose3) : Pose3 :=
  { R := a.R.transpose, t := -(a.R.transpose.mulVec a.t) }

/-- The method `Pose3::between`: `a.between b = a⁻¹ * b`. -/
def Pose3.between (a b : Pose3) : Pose3 := a.inverse.compose b

/-- The operator `Pose3 * Point3` (`transformFrom`). -/
def Pose3.transformFrom (a : Pose3) (p : Vector3) : Vector3 := a.R.mulVec p + a.t

def Pose3.x (a : Pose3) : ℚ := a.t 0
def Pose3.y (a : Pose3) : ℚ := a.t 1
def Pose3.z (a : Pose3) : ℚ := a.t 2

/-- The type `gtsam::NavState`: pose and velocity. -/
structure NavState where
  pose : Pose3
  v : Vector3

/-- The function `gtsam::skewSymmetric(wx, wy, wz)`. -/
def skewSymmetric (wx wy wz : ℚ) : Matrix3 :=
  !![0, -wz, wy; wz, 0, -wx; -wy, wx, 0]

/-- First three entries of a 6-vector (`head<3>()`). -/
def head3 (v : Vector6) : Vector3 := fun i => v ⟨i.val, by omega⟩

/-- Last three entries of a 6-vector (`tail<3>()`). -/
def tail3 (v : Vector6) : Vector3 := fun i => v ⟨i.val + 3, by omega⟩

/-- Squared Euclidean length of a 3-vector. -/
def normSq3 (v : Vector3) : ℚ := v 0 * v 0 + v 1 * v 1 + v 2 * v 2

/-! ## Point clouds -/

/-- The type `pcl::PointXYZ`. -/
structure PointXYZ where
  x : ℚ
  y : ℚ
  z : ℚ
deriving DecidableEq

/-- The type `pcl::PointNormal`, reduced to its coordinates. `finite` is what
`pcl::isFinite` answers for the point. -/
structure PointNormal where
  x : ℚ
  y : ℚ
  z : ℚ
  finite : Bool
deriving DecidableEq

/-- The type `PointXYZRPY` of the key pose cloud. -/
structure PointXYZRPY where
  x : ℚ
  y : ℚ
  z : ℚ
  roll : ℚ
  pitch : ℚ
  yaw : ℚ
deriving DecidableEq

abbrev Cloud := List PointNormal

def PointNormal.toVector3 (p : PointNormal) : Vector3 := ![p.x, p.y, p.z]

/-- One point of `pcl::transformPointCloud(in, out, pose.matrix())`: a finite
point is mapped by the rigid transform, a non-finite one stays non-finite. -/
def transformPoint (T : Pose3) (p : PointNormal) : PointNormal :=
  if p.finite then
    let q := T.transformFrom p.toVector3
    { x := q 0, y := q 1, z := q 2, finite := true }
  else p

/-- The function `pcl::transformPointCloud`. -/
def transformPointCloud (c : Cloud) (T : Pose3) : Cloud := c.map (transformPoint T)

/-- The type `pcl::Correspondence`. -/
structure Correspondence where
  index_query : Nat
  index_match : Nat
  distance : ℚ
deriving DecidableEq

/-! ## Factor graph -/

/-- The gtsam symbols `X(i)`, `V(i)`, `B(i)`, `L(i)`. -/
inductive Key where
  | X (i : Nat)
  | V (i : Nat)
  | B (i : Nat)
  | L (i : Nat)
deriving DecidableEq

/-- The accumulator `gtsam::PreintegratedCombinedMeasurements`: the bias it
was last reset with and the `integrateMeasurement(acc, gyro, dt)` calls made
since. -/
structure PreintegratedCombinedMeasurements where
  bias : Vector6
  integrated : List (Vector3 × Vector3 × ℚ)

/-- The call `integrateMeasurement(acc, gyro, dt)`. gtsam throws
`std::runtime_error` when `dt <= 0`, and `graph.cpp` does not catch it:
`none`. Otherwise the call is recorded with its arguments. -/
def PreintegratedCombinedMeasurements.integrateMeasurement
    (p : PreintegratedCombinedMeasurements) (acc gyro : Vector3) (dt : ℚ) :
    Option PreintegratedCombinedMeasurements :=
  if dt ≤ 0 then none
  else some { p with integrated := p.integrated ++ [(acc, gyro, dt)] }

def PreintegratedCombinedMeasurements.resetIntegrationAndSetBias
    (_p : PreintegratedCombinedMeasurements) (b : Vector6) :
    PreintegratedCombinedMeasurements :=
  { bias := b, integrated := [] }

/-- The noise models built in the constructor. -/
inductive Noise where
  | priorNoise | odometryNoise | imuVelocityNoise | imuBiasNoise | structureNoise
deriving DecidableEq

/-- A value of a `gtsam::Values` container. -/
inductive Value where
  | pose (p : Pose3)
  | velocity (v : Vector3)
  | bias (b : Vector6)
  | point (p : Vector3)

/-- The factors `graph.cpp` builds. -/
inductive Factor where
  | priorPose (k : Key) (p : Pose3) (n : Noise)
  | priorVelocity (k : Key) (v : Vector3) (n : Noise)
  | priorBias (k : Key) (b : Vector6) (n : Noise)
  | between (k1 k2 : Key) (rel : Pose3) (n : Noise)
  | combinedImu (x0 v0 x1 v1 b0 b1 : Key) (pim : PreintegratedCombinedMeasurements)
  | bearingRange (x l : Key) (bearing : Vector3) (range : ℚ) (n : Noise)

/-- Keys a factor constrains. -/
def Factor.keys : Factor → List Key
  | .priorPose k _ _ => [k]
  | .priorVelocity k _ _ => [k]
  | .priorBias k _ _ => [k]
  | .between k1 k2 _ _ => [k1, k2]
  | .combinedImu x0 v0 x1 v1 b0 b1 _ => [x0, v0, x1, v1, b0, b1]
  | .bearingRange x l _ _ _ => [x, l]

/-- The container `gtsam::Values`, in insertion order. -/
abbrev Values := List (Key × Value)

def Values.exists (vs : Values) (k : Key) : Bool := vs.any (fun kv => decide (kv.1 = k))

/-- The method `Values::insert`; `none` is `ValuesKeyAlreadyExists`. -/
def Values.insert (vs : Values) (k : Key) (v : Value) : Option Values :=
  if Values.exists vs k then none else some (vs ++ [(k, v)])

/-- The call `at<Pose3>(k)`; `none` is the exception for a missing key or a
value of another type. -/
def Values.atPose (vs : Values) (k : Key) : Option Pose3 :=
  match vs.find? (fun kv => decide (kv.1 = k)) with
  | some (_, .pose p) => some p
  | _ => none

def Values.atVelocity (vs : Values) (k : Key) : Option Vector3 :=
  match vs.find? (fun kv => decide (kv.1 = k)) with
  | some (_, .velocity v) => some v
  | _ => none

def Values.atBias (vs : Values) (k : Key) : Option Vector6 :=
  match vs.find? (fun kv => decide (kv.1 = k)) with
  | some (_, .bias b) => some b
  | _ => none

/-- The solver `gtsam::ISAM2`: the factors it holds and the variables it has
values for (its linearisation point). -/
structure ISAM2 where
  factors : List Factor
  theta : Values

/-- The call `isam->update(newFactors, newTheta)`. gtsam rejects a new value
whose key the solver already has, and cannot linearise a factor over a key
that has no value; both end the call with an exception (`none`). -/
def ISAM2.update (s : ISAM2) (newFactors : List Factor) (newTheta : Values) : Option ISAM2 :=
  if newTheta.any (fun kv => Values.exists s.theta kv.1) then none
  else if newFactors.any (fun f => f.keys.any (fun k => !Values.exists (s.theta ++ newTheta) k))
  then none
  else some { factors := s.factors ++ newFactors, theta := s.theta ++ newTheta }

/-! ## Library functions -/

/-- Functions of the libraries `graph.cpp` links against. -/
structure Ext where
  /-- The function `sqrt` of libm, also behind `gtsam::norm3` and `cv::norm`. -/
  sqrt : ℚ → ℚ
  /-- The function `gtsam::Rot3::RzRyRx`. -/
  RzRyRx : Vector3 → Matrix3
  /-- The function `gtsam::Pose3::Expmap`. -/
  Expmap : Vector6 → Pose3
  /-- The function `gtsam::Pose3::Logmap`. -/
  Logmap : Pose3 → Vector6
  /-- The methods `Rot3::roll`, `pitch`, `yaw`. -/
  rpy : Matrix3 → Vector3
  /-- The call `tf::Matrix3x3(tf::Quaternion(x, y, z, w)).getRPY`. -/
  getRPY : ℚ → ℚ → ℚ → ℚ → Vector3
  /-- The method `PreintegratedCombinedMeasurements::predict`. -/
  predict : PreintegratedCombinedMeasurements → NavState → Vector6 → NavState
  /-- The block `preintMeasCov().block<6,6>(0, 0)`. -/
  preintMeasCov : PreintegratedCombinedMeasurements → Matrix6
  /-- The function `gtsam::inverse_square_root`. -/
  inverse_square_root : Matrix6 → Matrix6
  /-- The function `cv::eigen`: eigenvalues and the matrix whose rows are the
  eigenvectors. -/
  eigen : Matrix3 → Vector3 × Matrix3
  /-- The function `cv::invert` with `DECOMP_SVD`. -/
  invert : Matrix3 → Matrix3
  /-- The function `cv::solve` with `DECOMP_QR`. -/
  solve : Matrix6 → Vector6 → Vector6
  /-- The method `CorrespondenceEstimation::determineReciprocalCorrespondences`
  for a source and a target cloud. -/
  determineReciprocalCorrespondences : Cloud → Cloud → List Correspondence
  /-- The method `CorrespondenceRejectorTrimmed::getCorrespondences` for an
  overlap ratio. -/
  trimmedCorrespondences : ℚ → List Correspondence → List Correspondence
  /-- The voxel of the octree, at a resolution, a point falls in. -/
  voxel : ℚ → PointNormal → ℤ × ℤ × ℤ
  /-- The order in which the octree lists the indices of its new leaves. -/
  leafOrder : List Nat → List Nat
  /-- The method `CorrespondenceRejectorSampleConsensus::getCorrespondences`
  for a source cloud, a target cloud and the correspondences to filter. -/
  ransacCorrespondences : Cloud → Cloud → List Correspondence → List Correspondence
  /-- What `operator[]` of a `std::vector<gtsam::Pose3>` gives for an index
  past its end, which C++ leaves undefined: `none` when the program stops
  there, a pose when it reads on. -/
  readPastEnd : List Pose3 → Nat → Option Pose3
  /-- The estimate the solver computes for a variable. -/
  estPose : ISAM2 → Key → Pose3 → Pose3
  estVelocity : ISAM2 → Key → Vector3 → Vector3
  estBias : ISAM2 → Key → Vector6 → Vector6
  estPoint : ISAM2 → Key → Vector3 → Vector3

/-- The estimate of one variable: of the type of the value inserted. -/
def ISAM2.estimateOf (ext : Ext) (s : ISAM2) (kv : Key × Value) : Key × Value :=
  (kv.1, match kv.2 with
    | .pose p => Value.pose (ext.estPose s kv.1 p)
    | .velocity v => Value.velocity (ext.estVelocity s kv.1 v)
    | .bias b => Value.bias (ext.estBias s kv.1 b)
    | .point p => Value.point (ext.estPoint s kv.1 p))

/-- The call `isam->calculateEstimate()`: one value per variable of the
solver, computed by the library. -/
def ISAM2.calculateEstimate (ext : Ext) (s : ISAM2) : Values :=
  s.theta.map (ISAM2.estimateOf ext s)

/-! ## State of `class Graph` -/

/-- The members of `class Graph` the estimation cycle reads or writes. -/
structure Graph where
  newLaserOdometry : Bool
  newMap : Bool
  newGroundPlane : Bool
  newImu : Bool
  updateImu : Bool
  dt : ℚ
  timeOdometry : ℚ
  timeMap : ℚ
  timePrevPreintegratedImu : ℚ
  disp : Vector6
  displacement : Pose3
  currentPoseInWorld : Pose3
  lastPoseInWorld : Pose3
  currentPosPoint : PointXYZ
  previousPosPoint : PointXYZ
  cloudKeyPositions : List PointXYZ
  cloudKeyPoses : List PointXYZRPY
  cloudKeyFrames : List Cloud
  cloudsInQueue : Nat
  currentFeatureCloud : Cloud
  currentGroundPlaneCloud : Cloud
  cloudMapFull : Cloud
  /-- Points handed to the spatial index `octreeMap`. -/
  octreeMap : Cloud
  _graph : List Factor
  initialEstimate : Values
  isam : ISAM2
  isamCurrentEstimate : Values
  imuMeasurements : List (ℚ × Vector6)
  preintegrated : PreintegratedCombinedMeasurements
  prevImuState : NavState
  predImuState : NavState
  prevImuBias : Vector6
  voxelRes : ℚ
  maxIterSmoothing : Nat
  fxTol : ℚ
  stepTol : ℚ
  /-- The landmark keys created by `_smoothPoses`, each with its map index. -/
  mapKeys : List (Key × Nat)

/-! ## Messages and handlers -/

/-- The fields of `nav_msgs::Odometry` the handler reads. -/
structure Odometry where
  stamp : ℚ
  position : Vector3
  qx : ℚ
  qy : ℚ
  qz : ℚ
  qw : ℚ

/-- A `sensor_msgs::PointCloud2` after `pcl::fromROSMsg`. -/
structure PointCloud2 where
  stamp : ℚ
  points : Cloud

/-- The fields of `sensor_msgs::Imu` the handler reads. -/
structure Imu where
  stamp : ℚ
  linear_acceleration : Vector3
  angular_velocity : Vector3

def Graph.odometryHandler (ext : Ext) (g : Graph) (odomMsg : Odometry) : Graph :=
  let rpy := ext.getRPY odomMsg.qx odomMsg.qy odomMsg.qz odomMsg.qw
  { g with
    dt := odomMsg.stamp - g.timeOdometry
    timeOdometry := odomMsg.stamp
    disp := ![rpy 0, rpy 1, rpy 2, odomMsg.position 0, odomMsg.position 1, odomMsg.position 2]
    newLaserOdometry := true }

def Graph.mapHandler (g : Graph) (pointCloud2Msg : PointCloud2) : Graph :=
  { g with
    timeMap := pointCloud2Msg.stamp
    currentFeatureCloud := pointCloud2Msg.points
    newMap := true }

def Graph.groundPlaneHandler (g : Graph) (pointCloud2Msg : PointCloud2) : Graph :=
  { g with
    currentGroundPlaneCloud := pointCloud2Msg.points
    timeMap := pointCloud2Msg.stamp
    newGroundPlane := true }

def Graph.imuHandler (g : Graph) (imuMsg : Imu) : Graph :=
  let measurement : Vector6 :=
    ![imuMsg.linear_acceleration 0, -imuMsg.linear_acceleration 1, -imuMsg.linear_acceleration 2,
      imuMsg.angular_velocity 0, -imuMsg.angular_velocity 1, -imuMsg.angular_velocity 2]
  { g with
    imuMeasurements := g.imuMeasurements ++ [(imuMsg.stamp, measurement)]
    newImu := true }

/-! ## Dead reckoning and inertial preintegration -/

def Graph._incrementPosition (ext : Ext) (g : Graph) : Graph :=
  let rotVec : Vector3 := ![g.disp 0, g.disp 1, g.disp 2]
  let trans : Vector3 := ![g.disp 3, g.disp 4, g.disp 5]
  let oriLocal := ext.RzRyRx rotVec
  let displacement : Pose3 := { R := oriLocal, t := trans }
  let currentPoseInWorld := g.currentPoseInWorld.compose displacement
  { g with
    displacement := displacement
    currentPoseInWorld := currentPoseInWorld
    currentPosPoint :=
      { x := currentPoseInWorld.x, y := currentPoseInWorld.y, z := currentPoseInWorld.z } }

def Graph._initializePreintegration (g : Graph) : Option Graph := do
  let priorVelocity : Vector3 := 0
  let priorBias : Vector6 := 0
  let graph1 := g._graph ++ [Factor.priorVelocity (Key.V 0) priorVelocity Noise.imuVelocityNoise]
  let graph2 := graph1 ++ [Factor.priorBias (Key.B 0) priorBias Noise.imuBiasNoise]
  let est1 ← Values.insert g.initialEstimate (Key.V 0) (Value.velocity priorVelocity)
  let est2 ← Values.insert est1 (Key.B 0) (Value.bias priorBias)
  let prevImuState : NavState := { pose := g.currentPoseInWorld, v := priorVelocity }
  pure { g with
    _graph := graph2
    initialEstimate := est2
    prevImuState := prevImuState
    predImuState := prevImuState
    updateImu := true }

/-- The loop of `_preintegrateImuMeasurements`, entered at its test with loop
variable `i`; `measurements` is the queue size read before the loop. Returns
the queue, `timePrevPreintegratedImu` and the accumulator at loop exit;
`none` is a read of `imuMeasurements[i]` outside the queue, or the exception
of `integrateMeasurement`. Each pass that
does not leave the loop pops the front of the queue, so the recursion is on
the queue. -/
def preintegrateLoop (measurements : Int) (timeOdometry : ℚ) (i : Int) :
    List (ℚ × Vector6) → ℚ → PreintegratedCombinedMeasurements →
    Option (List (ℚ × Vector6) × ℚ × PreintegratedCombinedMeasurements)
  | [], timePrevPreintegratedImu, preintegrated =>
    if i < measurements then none
    else some ([], timePrevPreintegratedImu, preintegrated)
  | front :: rest, timePrevPreintegratedImu, preintegrated =>
    if i < measurements then
      match (if 0 ≤ i then (front :: rest)[i.toNat]? else none) with
      | none => none
      | some measurementWithStamp =>
        if measurementWithStamp.1 ≤ timeOdometry then
          let dt := measurementWithStamp.1 - timePrevPreintegratedImu
          match preintegrated.integrateMeasurement
            (head3 measurementWithStamp.2) (tail3 measurementWithStamp.2) dt with
          | none => none
          | some preintegrated1 =>
            preintegrateLoop measurements timeOdometry (i - 1 + 1) rest
              measurementWithStamp.1 preintegrated1
        else some (front :: rest, timePrevPreintegratedImu, preintegrated)
    else some (front :: rest, timePrevPreintegratedImu, preintegrated)

def Graph._preintegrateImuMeasurements (ext : Ext) (g : Graph) : Option Graph := do
  let measurements : Int := g.imuMeasurements.length
  let r ← preintegrateLoop measurements g.timeOdometry 0 g.imuMeasurements
    g.timePrevPreintegratedImu g.preintegrated
  pure { g with
    imuMeasurements := r.1
    timePrevPreintegratedImu := r.2.1
    preintegrated := r.2.2
    predImuState := ext.predict r.2.2 g.prevImuState g.prevImuBias
    newImu := false
    updateImu := true }

def Graph._processIMU (ext : Ext) (g : Graph) : Option Graph :=
  if g.cloudKeyPositions.isEmpty && g.newImu then do
    let g1 ← g._initializePreintegration
    pure { g1 with newImu := false }
  else if g.newImu then do
    let g1 ← g._preintegrateImuMeasurements ext
    pure { g1 with
      currentPosPoint :=
        { x := g1.predImuState.pose.x, y := g1.predImuState.pose.y, z := g1.predImuState.pose.z } }
  else some g

/-! ## Frame-to-map registration (`_cloud2Map`) -/

/-- The function `matrix_square_root` of `graph.cpp`. -/
def matrix_square_root (ext : Ext) (A : Matrix3) : Matrix3 :=
  let EU := ext.eigen A
  let V : Matrix3 := EU.2.transpose
  let Vi : Matrix3 := V.transpose
  let E : Vector3 := fun i => ext.sqrt (EU.1 i)
  V * Matrix.diagonal E * Vi

/-- The vector `Sigmas` of the constructor. -/
def Sigmas : Vector6 := ![5 / 100, 5 / 100, 1 / 1000, 1 / 10, 1 / 10, 3 / 10]

/-- The matrix `odometryNoise->covariance()`, `odometryNoise` being
`Diagonal::Variances(Sigmas)`. -/
def odometryNoiseCovariance : Matrix6 := Matrix.diagonal Sigmas

/-- The Jacobian block `J_hij_TwLi`: columns 0..2 hold `tmp`, columns 3..5
the rotation. -/
def J_hij_TwLi (R_wLi : Matrix3) (p_Lij : Vector3) : Matrix36 :=
  let tmp : Matrix3 := -(R_wLi * skewSymmetric (p_Lij 0) (p_Lij 1) (p_Lij 2))
  Matrix.of (fun i j =>
    if h : j.val < 3 then tmp i ⟨j.val, h⟩ else R_wLi i ⟨j.val - 3, by omega⟩)

/-- What one pass of the correspondence loop produces: the two points stored
in `worldPoints[j]` and `localPoints[j]`, and the rows written into `matA`
and `matB`. -/
structure Block where
  q_wj : Vector3
  p_Lij : Vector3
  Ai : Matrix36
  bi : Vector3
  /-- The local `b_ij`: the residual before whitening. -/
  b_ij : Vector3

/-- Body of the correspondence loop of `_cloud2Map` after the three `at`
reads. -/
def correspondenceBlock (ext : Ext) (R_wLi : Matrix3)
    (pointInWorld pointInLocalFrame matchedPointMap : PointNormal) : Block :=
  let q_wj := matchedPointMap.toVector3
  let p_wj := pointInWorld.toVector3
  let p_Lij := pointInLocalFrame.toVector3
  let J := J_hij_TwLi R_wLi p_Lij
  let e : Vector3 := p_wj - q_wj
  let b_ij : Vector3 := ![-(e 0), -(e 1), -(e 2)]
  let whitener : Matrix3 := J * odometryNoiseCovariance * J.transpose
  let whitenerInv := ext.invert whitener
  let whitenerSqrtInv := matrix_square_root ext whitenerInv
  { q_wj := q_wj, p_Lij := p_Lij, Ai := whitenerSqrtInv * J, bi := whitenerSqrtInv.mulVec b_ij,
    b_ij := b_ij }

/-- The correspondence loop of `_cloud2Map`; `none` is an `at` read out of
range. -/
def buildBlocks (ext : Ext) (R_wLi : Matrix3) (frameInWorld framePoints cloudMapFull : Cloud) :
    List Correspondence → Option (List Block)
  | [] => some []
  | c :: cs => do
    let pointInWorld ← frameInWorld[c.index_query]?
    let pointInLocalFrame ← framePoints[c.index_query]?
    let matchedPointMap ← cloudMapFull[c.index_match]?
    let rest ← buildBlocks ext R_wLi frameInWorld framePoints cloudMapFull cs
    pure (correspondenceBlock ext R_wLi pointInWorld pointInLocalFrame matchedPointMap :: rest)

/-- Rows of `matA`: three per correspondence, then the six prior rows when
`updateImu` holds (`cv::setIdentity`). -/
def matARows (blocks : List Block) (updateImu : Bool) : List Vector6 :=
  blocks.flatMap (fun b => [b.Ai 0, b.Ai 1, b.Ai 2]) ++
    (if updateImu then (List.finRange 6).map (fun i => (1 : Matrix6) i) else [])

/-- Entries of `matB`: three per correspondence, then the whitened prior. -/
def matBRows (ext : Ext) (blocks : List Block) (g : Graph) (currentPoseInWorld : Pose3) :
    List ℚ :=
  blocks.flatMap (fun b => [b.bi 0, b.bi 1, b.bi 2]) ++
    (if g.updateImu then
      let prior : Vector6 := -(ext.Logmap (g.predImuState.pose.inverse.compose currentPoseInWorld))
      let cov := ext.preintMeasCov g.preintegrated
      let whitener := ext.inverse_square_root cov
      let whitenedPrior := whitener.mulVec prior
      (List.finRange 6).map whitenedPrior
    else [])

/-- The product `matAt * matA`. -/
def matAtA (matA : List Vector6) : Matrix6 :=
  Matrix.of (fun i j => (matA.map (fun row => row i * row j)).sum)

/-- The product `matAt * matB`. -/
def matAtB (matA : List Vector6) (matB : List ℚ) : Vector6 :=
  fun i => ((matA.zip matB).map (fun rb => rb.1 i * rb.2)).sum

/-- The sum accumulated in `fxBefore` or `fxAfter` for a pose. -/
def residualCost (ext : Ext) (T : Pose3) (blocks : List Block) : ℚ :=
  blocks.foldl (fun fx b => fx + (ext.sqrt (normSq3 (T.transformFrom b.p_Lij - b.q_wj))) ^ 2) 0

/-- The value `cv::norm(matX)`. -/
def normX (ext : Ext) (matX : Vector6) : ℚ :=
  ext.sqrt (matX 0 * matX 0 + matX 1 * matX 1 + matX 2 * matX 2 + matX 3 * matX 3
    + matX 4 * matX 4 + matX 5 * matX 5)

/-- Values at the end of one pass through the body of the registration loop. -/
structure Iteration where
  /-- The value of `lambda` on entry to the pass. -/
  lambdaBefore : ℚ
  xi : Vector6
  keyPoseBefore : Pose3
  keyPoseAfter : Pose3
  fxBefore : ℚ
  fxAfter : ℚ
  fxResult : ℚ
  currentPoseInWorld : Pose3
  lambda : ℚ

/-- One pass through the body of the loop `for (iter ...)` of `_cloud2Map`,
entered with the given pose and damping factor. With no correspondence and no
inertial prior `ARows` is 0: `matA` is an empty `cv::Mat`, `cv::transpose`
leaves `matAt` empty, and the product `matAt * matA` of line 678 is refused
by OpenCV with an exception that `graph.cpp` does not catch: `none`. -/
def cloud2MapIteration (ext : Ext) (g : Graph) (frameInWorld framePoints : Cloud)
    (overlapCorrespondences : List Correspondence) (currentPoseInWorld : Pose3) (lambda : ℚ) :
    Option Iteration := do
  let R_wLi := currentPoseInWorld.R
  let blocks ← buildBlocks ext R_wLi frameInWorld framePoints g.cloudMapFull overlapCorrespondences
  let matA := matARows blocks g.updateImu
  if matA.isEmpty then none
  else
    let matB := matBRows ext blocks g currentPoseInWorld
    let AtA := matAtA matA
    let matAtAdiag : Matrix6 := Matrix.diagonal (fun i => AtA i i)
    let AtB := matAtB matA matB
    let matX := ext.solve (AtA + lambda • matAtAdiag) AtB
    let keyPoseBefore := currentPoseInWorld
    let xi : Vector6 := ![matX 0, matX 1, matX 2, matX 3, matX 4, matX 5]
    let tau := ext.Expmap xi
    let keyPoseAfter := currentPoseInWorld.compose tau
    let fxBefore := residualCost ext keyPoseBefore blocks
    let fxAfter := residualCost ext keyPoseAfter blocks
    if fxAfter < fxBefore then
      pure { lambdaBefore := lambda, xi := xi, keyPoseBefore := keyPoseBefore,
             keyPoseAfter := keyPoseAfter,
             fxBefore := fxBefore, fxAfter := fxAfter, fxResult := fxAfter,
             currentPoseInWorld := keyPoseAfter, lambda := lambda / 10 }
    else
      pure { lambdaBefore := lambda, xi := xi, keyPoseBefore := keyPoseBefore,
             keyPoseAfter := keyPoseAfter,
             fxBefore := fxBefore, fxAfter := fxAfter, fxResult := fxBefore,
             currentPoseInWorld := currentPoseInWorld, lambda := lambda * 10 }

/-- The loop `for (iter = 0; iter < maxIterSmoothing; iter++)` with the given
number of passes left. Returns the pose at loop exit and the passes made, in
order. -/
def cloud2MapLoop (ext : Ext) (g : Graph) (frameInWorld framePoints : Cloud)
    (overlapCorrespondences : List Correspondence) :
    Nat → Pose3 → ℚ → Option (Pose3 × List Iteration)
  | 0, currentPoseInWorld, _ => some (currentPoseInWorld, [])
  | left + 1, currentPoseInWorld, lambda => do
    let it ← cloud2MapIteration ext g frameInWorld framePoints overlapCorrespondences
      currentPoseInWorld lambda
    if it.fxResult < g.fxTol ∨ normX ext it.xi < g.stepTol then
      pure (it.currentPoseInWorld, [it])
    else do
      let r ← cloud2MapLoop ext g frameInWorld framePoints overlapCorrespondences left
        it.currentPoseInWorld it.lambda
      pure (r.1, it :: r.2)

/-- The cloud `frameInWorld` of `_cloud2Map`. -/
def Graph.frameInWorld (g : Graph) : Cloud :=
  if g.updateImu then transformPointCloud g.currentFeatureCloud g.predImuState.pose
  else transformPointCloud g.currentFeatureCloud g.currentPoseInWorld

/-- The correspondences `_cloud2Map` works with: reciprocal matches of the
transformed scan against the map, trimmed with overlap ratio 0.8. -/
def Graph.overlapCorrespondences (ext : Ext) (g : Graph) : List Correspondence :=
  ext.trimmedCorrespondences (8 / 10)
    (ext.determineReciprocalCorrespondences g.frameInWorld g.cloudMapFull)

/-- The initial value of `lambda` in `_cloud2Map`. -/
def lambdaInit : ℚ := 1 / 10000

/-- The function `_cloud2Map` together with the passes of its loop. -/
def Graph._cloud2MapTrace (ext : Ext) (g : Graph) : Option (Pose3 × List Iteration) :=
  if g.cloudKeyFrames.length < 1 then some (g.currentPoseInWorld, [])
  else
    cloud2MapLoop ext g g.frameInWorld g.currentFeatureCloud (g.overlapCorrespondences ext)
      g.maxIterSmoothing g.currentPoseInWorld lambdaInit

def Graph._cloud2Map (ext : Ext) (g : Graph) : Option Graph :=
  (g._cloud2MapTrace ext).map (fun r => { g with currentPoseInWorld := r.1 })

/-! ## Map consolidation (`_transformToGlobalMap`) -/

/-- The change detection of `pcl::octree::OctreePointCloudChangeDetector`:
after the first cloud is added and the buffers are switched, the second cloud
is added and `getPointIndicesFromNewVoxels` lists the indices of its finite
points lying in voxels that hold no finite point of the first cloud. -/
def getPointIndicesFromNewVoxels (ext : Ext) (voxelRes : ℚ) (first second : Cloud) : List Nat :=
  ext.leafOrder ((List.range second.length).filter (fun i =>
    match second[i]? with
    | some p => p.finite &&
        !(first.any (fun m => m.finite && decide (ext.voxel voxelRes m = ext.voxel voxelRes p)))
    | none => false))

/-- The loop `octreeMap->addPointToCloud(currentInWorld[newPointIdxVector[i]],
cloudMapFull)`, on the pair (index, map cloud); `none` is a read outside
`currentInWorld`. -/
def addPointsToCloud (currentInWorld : Cloud) : List Nat → Cloud × Cloud → Option (Cloud × Cloud)
  | [], st => some st
  | i :: rest, st =>
    match currentInWorld[i]? with
    | none => none
    | some p => addPointsToCloud currentInWorld rest (st.1 ++ [p], st.2 ++ [p])

def Graph._transformToGlobalMap (ext : Ext) (g : Graph) : Option Graph := do
  let currentInWorld := transformPointCloud g.currentFeatureCloud g.currentPoseInWorld
  let newPointIdxVector := getPointIndicesFromNewVoxels ext g.voxelRes g.cloudMapFull currentInWorld
  let r ← addPointsToCloud currentInWorld newPointIdxVector (g.octreeMap, g.cloudMapFull)
  pure { g with octreeMap := r.1, cloudMapFull := r.2 }

/-! ## Keyframe admission and graph update (`_performIsam`) -/

/-- The local `squaredDistance` of `_performIsam`. -/
def Graph.squaredDistance (g : Graph) : ℚ :=
  (g.previousPosPoint.x - g.currentPosPoint.x) * (g.previousPosPoint.x - g.currentPosPoint.x)
  + (g.previousPosPoint.y - g.currentPosPoint.y) * (g.previousPosPoint.y - g.currentPosPoint.y)
  + (g.previousPosPoint.z - g.currentPosPoint.z) * (g.previousPosPoint.z - g.currentPosPoint.z)

/-- The local `saveThisKeyFrame` of `_performIsam` when the early return is
reached. -/
def Graph.saveThisKeyFrame (ext : Ext) (g : Graph) : Bool :=
  if ext.sqrt g.squaredDistance < 3 / 10 then false else true

/-- The function `_fromPose3ToPointXYZRPY`. -/
def _fromPose3ToPointXYZRPY (ext : Ext) (poseIn : Pose3) : PointXYZRPY :=
  { x := poseIn.t 0, y := poseIn.t 1, z := poseIn.t 2,
    roll := ext.rpy poseIn.R 0, pitch := ext.rpy poseIn.R 1, yaw := ext.rpy poseIn.R 2 }

/-- Lines 237 to 270 of `_performIsam`: the factors and initial guesses of an
admitted keyframe are put in the pending buffers. -/
def Graph._performIsamFactors (g : Graph) : Option Graph := do
  let index := g.cloudKeyPositions.length
  if g.cloudKeyPositions.isEmpty then
    let graph1 := g._graph ++ [Factor.priorPose (Key.X index) g.currentPoseInWorld Noise.priorNoise]
    let est1 ← Values.insert g.initialEstimate (Key.X index) (Value.pose g.currentPoseInWorld)
    pure { g with
      previousPosPoint := g.currentPosPoint
      _graph := graph1
      initialEstimate := est1
      lastPoseInWorld := g.currentPoseInWorld }
  else
    let graph1 := g._graph ++ [Factor.between (Key.X (index - 1)) (Key.X index)
      (g.lastPoseInWorld.between g.currentPoseInWorld) Noise.odometryNoise]
    let est1 ← Values.insert g.initialEstimate (Key.X index) (Value.pose g.currentPoseInWorld)
    if g.updateImu then
      let preintImuCombined := g.preintegrated
      let combinedImuFactor := Factor.combinedImu (Key.X (index - 1)) (Key.V (index - 1))
        (Key.X index) (Key.V index) (Key.B (index - 1)) (Key.B index) preintImuCombined
      let graph2 := graph1 ++ [combinedImuFactor]
      let est2 ← Values.insert est1 (Key.V index) (Value.velocity g.predImuState.v)
      let est3 ← Values.insert est2 (Key.B index) (Value.bias g.prevImuBias)
      pure { g with
        previousPosPoint := g.currentPosPoint
        _graph := graph2
        initialEstimate := est3 }
    else
      pure { g with
        previousPosPoint := g.currentPosPoint
        _graph := graph1
        initialEstimate := est1 }

/-- Lines 283 to 291 of `_performIsam`: the block `if (updateImu)` that
follows the solver update, for the keyframe with the given index. -/
def Graph._performIsamImu (g : Graph) (index : Nat) : Option Graph :=
  if g.updateImu then do
    let pose ← Values.atPose g.isamCurrentEstimate (Key.X index)
    let vel ← Values.atVelocity g.isamCurrentEstimate (Key.V index)
    let prevImuBias ← Values.atBias g.isamCurrentEstimate (Key.B index)
    pure { g with
      prevImuState := { pose := pose, v := vel }
      prevImuBias := prevImuBias
      preintegrated := g.preintegrated.resetIntegrationAndSetBias prevImuBias
      updateImu := false }
  else some g

/-- Lines 274 to 310 of `_performIsam`: the pending buffers are handed to the
solver and the keyframe with the given index is appended to the history. -/
def Graph._performIsamUpdate (ext : Ext) (g : Graph) (index : Nat) : Option Graph := do
  let isam1 ← g.isam.update g._graph g.initialEstimate
  let isam2 ← isam1.update [] []
  let isamCurrentEstimate := isam2.calculateEstimate ext
  let g1 : Graph := { g with
    isam := isam2
    _graph := []
    initialEstimate := []
    isamCurrentEstimate := isamCurrentEstimate }
  let g2 ← g1._performIsamImu index
  let currentPoseInWorld ← Values.atPose isamCurrentEstimate (Key.X index)
  let currentPose := _fromPose3ToPointXYZRPY ext currentPoseInWorld
  pure { g2 with
    currentPoseInWorld := currentPoseInWorld
    cloudKeyPositions := g2.cloudKeyPositions ++
      [{ x := currentPoseInWorld.x, y := currentPoseInWorld.y, z := currentPoseInWorld.z }]
    cloudKeyPoses := g2.cloudKeyPoses ++ [currentPose]
    lastPoseInWorld := currentPoseInWorld
    cloudKeyFrames := g2.cloudKeyFrames ++ [g2.currentFeatureCloud]
    cloudsInQueue := g2.cloudsInQueue + 1 }

def Graph._performIsam (ext : Ext) (g : Graph) : Option Graph :=
  if g.saveThisKeyFrame ext = false && !g.cloudKeyPositions.isEmpty then some g
  else do
    let g1 ← g._performIsamFactors
    g1._performIsamUpdate ext g.cloudKeyPositions.length

/-! ## The estimation cycle -/

/-- The guard of `runOnce`. -/
def Graph.cycleRuns (g : Graph) : Bool :=
  g.newLaserOdometry && g.newMap && g.newGroundPlane

/-- Lines 750 to 760 of `runOnce`: an executed cycle up to and including
`_cloud2Map`. The statement `newLaserOdometry, newMap, newGroundPlane =
false;` is a comma expression: it assigns to `newGroundPlane` only. -/
def Graph.cycleRegistration (ext : Ext) (g : Graph) : Option Graph := do
  let g0 : Graph := { g with newGroundPlane := false }
  let g1 := g0._incrementPosition ext
  let g2 ← g1._processIMU ext
  g2._cloud2Map ext

/-- Lines 750 to 762 of `runOnce`: what an executed cycle does before
`_performIsam`. -/
def Graph.cycleFront (ext : Ext) (g : Graph) : Option Graph :=
  (g.cycleRegistration ext).bind (fun g3 => g3._transformToGlobalMap ext)

/-- The function `runOnce`, without the publishing calls. -/
def Graph.runOnce (ext : Ext) (g : Graph) : Option Graph :=
  if g.cycleRuns then (g.cycleFront ext).bind (fun g4 => g4._performIsam ext)
  else some g

/-- What can happen to a `Graph`: a message arrives on one of the four
subscriptions, or `runOnce` is called. -/
inductive Event where
  | odometry (odomMsg : Odometry)
  | featureCloud (pointCloud2Msg : PointCloud2)
  | groundPlane (pointCloud2Msg : PointCloud2)
  | imu (imuMsg : Imu)
  | runOnce

def Graph.step (ext : Ext) (g : Graph) : Event → Option Graph
  | .odometry m => some (g.odometryHandler ext m)
  | .featureCloud m => some (g.mapHandler m)
  | .groundPlane m => some (g.groundPlaneHandler m)
  | .imu m => some (g.imuHandler m)
  | .runOnce => g.runOnce ext

/-- A run: the events are handled one after the other. -/
def Graph.run (ext : Ext) : Graph → List Event → Option Graph
  | g, [] => some g
  | g, e :: es => (g.step ext e).bind (fun g1 => Graph.run ext g1 es)

/-! ## What the constructor establishes -/

/-- The state the constructor leaves: the clouds, the keyframe history, the
pending buffers, the solver and the inertial queue are empty. The members the
constructor does not assign are not constrained. -/
def Graph.constructed (g : Graph) : Prop :=
  g.cloudKeyPositions = [] ∧ g.cloudKeyPoses = [] ∧ g.cloudKeyFrames = [] ∧
  g.currentFeatureCloud = [] ∧ g.currentGroundPlaneCloud = [] ∧ g.cloudMapFull = [] ∧
  g.octreeMap = [] ∧ g._graph = [] ∧ g.initialEstimate = [] ∧
  g.isam = { factors := [], theta := [] } ∧ g.isamCurrentEstimate = [] ∧
  g.imuMeasurements = []

/-- Keys of the pose variables among the entries of a `Values`, in order. -/
def poseKeys (vs : Values) : List Key :=
  (vs.map Prod.fst).filter (fun k => match k with | .X _ => true | _ => false)

/-! ## A concrete instance of the library functions

Each function below agrees with the library on the arguments named in its
comment. Where an evaluation further down reaches other arguments, in the
whitening of a correspondence, what it establishes does not depend on them:
the residuals whitened are zero, or the normal equations stay diagonal. -/

/-- Binary search for the integer square root between `lo` and `hi`. -/
def isqrtAux : Nat → Nat → Nat → Nat → Nat
  | 0, lo, _, _ => lo
  | fuel + 1, lo, hi, n =>
    if hi ≤ lo + 1 then lo
    else
      let mid := (lo + hi) / 2
      if mid * mid ≤ n then isqrtAux fuel mid hi n else isqrtAux fuel lo mid n

/-- Integer square root, rounded down, of a number below `2 ^ 64`. -/
def isqrt (n : Nat) : Nat := isqrtAux 64 0 (n + 1) n

/-- Square root of a rational: exact on squares of rationals. -/
def demoSqrt (q : ℚ) : ℚ := (isqrt q.num.toNat : ℚ) / (isqrt q.den : ℚ)

/-- Pairs point `i` of the source with point `i` of the target: the
reciprocal nearest neighbours when each source point lies nearer to its own
target point than to any other. -/
def demoMatch (source target : Cloud) : List Correspondence :=
  (List.range (min source.length target.length)).filterMap (fun i =>
    match source[i]?, target[i]? with
    | some p, some q =>
      some { index_query := i, index_match := i,
             distance := normSq3 (p.toVector3 - q.toVector3) }
    | _, _ => none)

/-- Keeps the first `⌊ratio * n⌋` of `n` correspondences: the trimmed
rejector on a list already ordered by distance. -/
def demoTrim (ratio : ℚ) (cs : List Correspondence) : List Correspondence :=
  cs.take (⌊ratio * cs.length⌋).toNat

def demoExt : Ext where
  sqrt := demoSqrt
  -- exact at the zero rotation vector
  RzRyRx := fun _ => 1
  -- exact for an increment without rotation
  Expmap := fun xi => { R := 1, t := tail3 xi }
  -- exact for a pose without rotation
  Logmap := fun T => ![0, 0, 0, T.t 0, T.t 1, T.t 2]
  -- exact for the identity rotation
  rpy := fun _ => 0
  -- exact for the identity quaternion
  getRPY := fun _ _ _ _ => 0
  -- exact for samples at rest and zero bias: free fall over the time integrated
  predict := fun pim s _ =>
    let T := (pim.integrated.map (fun m => m.2.2)).sum
    { pose := { R := s.pose.R, t := s.pose.t + ![0, 0, 981 / 200 * T ^ 2] },
      v := s.v + ![0, 0, 981 / 100 * T] }
  preintMeasCov := fun _ => 1
  -- exact at the identity
  inverse_square_root := fun M => M
  -- exact for a diagonal matrix
  eigen := fun A => (fun i => A i i, 1)
  invert := fun A => Matrix.diagonal (fun i => (A i i)⁻¹)
  solve := fun M v => fun i => v i / M i i
  determineReciprocalCorrespondences := demoMatch
  trimmedCorrespondences := demoTrim
  voxel := fun res p => (⌊p.x / res⌋, ⌊p.y / res⌋, ⌊p.z / res⌋)
  leafOrder := fun l => l
  -- exact when every correspondence fits one rigid motion within the threshold
  ransacCorrespondences := fun _ _ cs => cs
  readPastEnd := fun _ _ => none
  -- exact when the initial guesses already satisfy every factor
  estPose := fun _ _ p => p
  estVelocity := fun _ _ v => v
  estBias := fun _ _ b => b
  estPoint := fun _ _ p => p

/-- A freshly constructed `Graph`: empty containers, identity poses, flags
down, unit voxels. -/
def demoInit : Graph where
  newLaserOdometry := false
  newMap := false
  newGroundPlane := false
  newImu := false
  updateImu := false
  dt := 0
  timeOdometry := 0
  timeMap := 0
  timePrevPreintegratedImu := 0
  disp := 0
  displacement := { R := 1, t := 0 }
  currentPoseInWorld := { R := 1, t := 0 }
  lastPoseInWorld := { R := 1, t := 0 }
  currentPosPoint := { x := 0, y := 0, z := 0 }
  previousPosPoint := { x := 0, y := 0, z := 0 }
  cloudKeyPositions := []
  cloudKeyPoses := []
  cloudKeyFrames := []
  cloudsInQueue := 0
  currentFeatureCloud := []
  currentGroundPlaneCloud := []
  cloudMapFull := []
  octreeMap := []
  _graph := []
  initialEstimate := []
  isam := { factors := [], theta := [] }
  isamCurrentEstimate := []
  imuMeasurements := []
  preintegrated := { bias := 0, integrated := [] }
  prevImuState := { pose := { R := 1, t := 0 }, v := 0 }
  predImuState := { pose := { R := 1, t := 0 }, v := 0 }
  prevImuBias := 0
  voxelRes := 1
  maxIterSmoothing := 5
  fxTol := 1 / 1000
  stepTol := 1 / 1000
  mapKeys := []

/-- An odometry message: a displacement along x without rotation. -/
def demoOdometry (stamp dx : ℚ) : Odometry :=
  { stamp := stamp, position := ![dx, 0, 0], qx := 0, qy := 0, qz := 0, qw := 1 }

/-- A cloud message holding finite points. -/
def demoCloud (stamp : ℚ) (pts : List (ℚ × ℚ × ℚ)) : PointCloud2 :=
  { stamp := stamp,
    points := pts.map (fun p => { x := p.1, y := p.2.1, z := p.2.2, finite := true }) }

/-- An inertial sample at rest. -/
def demoImu (stamp : ℚ) : Imu :=
  { stamp := stamp, linear_acceleration := 0, angular_velocity := 0 }

/-- A scan of three points lying in three voxels, as seen from a pose
displaced by `dx` along x. -/
def demoScan (dx : ℚ) : List (ℚ × ℚ × ℚ) :=
  [(1 - dx, 2, 3), (4 - dx, -1, 2), (-2 - dx, 3, 1)]

/-- One complete set of inputs at rest followed by `runOnce`: the first
cycle, which admits keyframe 0 at the origin and puts the scan in the map. -/
def demoFirstCycle : List Event :=
  [Event.odometry (demoOdometry 1 0), Event.featureCloud (demoCloud 1 (demoScan 0)),
   Event.groundPlane (demoCloud 1 []), Event.runOnce]

/-- The state reached, before `_performIsam`, by the cycle that follows the
first one after a displacement of 0.3 along x; its scan shows the three
points of the map without residual. -/
def demoAtThreshold : Option Graph :=
  (Graph.run demoExt demoInit (demoFirstCycle ++
    [Event.odometry (demoOdometry 2 (3 / 10)),
     Event.featureCloud (demoCloud 2 (demoScan (3 / 10))),
     Event.groundPlane (demoCloud 2 [])])).bind (Graph.cycleFront demoExt)

/-- The part of the state the bookkeeping of keyframes rests on. -/
def Graph.core (g : Graph) : List PointXYZ × List PointXYZRPY × List Cloud × ISAM2 × List Key :=
  (g.cloudKeyPositions, g.cloudKeyPoses, g.cloudKeyFrames, g.isam, poseKeys g.initialEstimate)

/-- The bookkeeping the keyframe indices rest on: the pose variables of the
solver are `X(0)`, ..., `X(n-1)` in the order of their creation, `n` being the
common length of the three keyframe containers, and no pose variable waits in
the pending initial guesses. -/
def Graph.keyframeInvariant (g : Graph) : Prop :=
  poseKeys g.isam.theta = (List.range g.cloudKeyPositions.length).map Key.X ∧
  poseKeys g.initialEstimate = [] ∧
  g.cloudKeyPoses.length = g.cloudKeyPositions.length ∧
  g.cloudKeyFrames.length = g.cloudKeyPositions.length

/-- Two cycles: the first admits keyframe 0, the second, after a displacement
of 0.3 along x, keyframe 1. -/
def demoTwoKeyframes : List Event :=
  demoFirstCycle ++
    [Event.odometry (demoOdometry 2 (3 / 10)),
     Event.featureCloud (demoCloud 2 (demoScan (3 / 10))),
     Event.groundPlane (demoCloud 2 []), Event.runOnce]

/-- The passes of the registration loop follow one another: the first is
entered with the given pose and damping factor, each next one with the pose
and damping factor the previous one ended with, and the last one ends with
the pose `final`. -/
def Iteration.consecutive : Pose3 → ℚ → List Iteration → Pose3 → Prop
  | pose, _, [], final => final = pose
  | pose, lambda, it :: rest, final =>
    it.keyPoseBefore = pose ∧ it.lambdaBefore = lambda ∧
      Iteration.consecutive it.currentPoseInWorld it.lambda rest final

/-- A state with one keyframe whose scan and map hold one point each: the
only reciprocal match does not survive trimming at ratio 0.8. -/
def demoOnePoint : Graph :=
  { demoInit with
    cloudKeyPositions := [{ x := 0, y := 0, z := 0 }]
    cloudKeyPoses := [{ x := 0, y := 0, z := 0, roll := 0, pitch := 0, yaw := 0 }]
    cloudKeyFrames := [[{ x := 0, y := 0, z := 0, finite := true }]]
    currentFeatureCloud := [{ x := 0, y := 0, z := 0, finite := true }]
    cloudMapFull := [{ x := 1, y := 0, z := 0, finite := true }] }

/-- A state with one keyframe, a scan of five points and a map holding the
same points moved along x, the first four by 1 and the last by 2: five
reciprocal matches, of which the four nearest survive trimming. -/
def demoFivePoints : Graph :=
  { demoInit with
    cloudKeyPositions := [{ x := 0, y := 0, z := 0 }]
    cloudKeyPoses := [{ x := 0, y := 0, z := 0, roll := 0, pitch := 0, yaw := 0 }]
    cloudKeyFrames := [[]]
    currentFeatureCloud :=
      [{ x := 10, y := 0, z := 0, finite := true }, { x := -10, y := 0, z := 0, finite := true },
       { x := 0, y := 10, z := 0, finite := true }, { x := 0, y := -10, z := 0, finite := true },
       { x := 0, y := 0, z := 10, finite := true }]
    cloudMapFull :=
      [{ x := 11, y := 0, z := 0, finite := true }, { x := -9, y := 0, z := 0, finite := true },
       { x := 1, y := 10, z := 0, finite := true }, { x := 1, y := -10, z := 0, finite := true },
       { x := 2, y := 0, z := 10, finite := true }] }

/-- The inputs the map consolidation reads besides the pose. -/
def Graph.mapInputs (g : Graph) : Cloud × Cloud × Cloud × ℚ :=
  (g.currentFeatureCloud, g.cloudMapFull, g.octreeMap, g.voxelRes)

/-- One odometry message carrying a displacement of 0.3, one feature cloud
and one ground-plane cloud, `runOnce`, then a second ground-plane cloud. -/
def demoStaleOdometry : List Event :=
  [Event.odometry (demoOdometry 1 (3 / 10)),
   Event.featureCloud (demoCloud 1 (demoScan (3 / 10))),
   Event.groundPlane (demoCloud 1 []), Event.runOnce,
   Event.groundPlane (demoCloud 2 [])]

/-- The first cycle followed by a new scan, showing the three points of the
map and a point in another voxel, and a new ground-plane cloud: the inputs of
a second cycle at rest. -/
def demoSecondScan : List Event :=
  demoFirstCycle ++
    [Event.featureCloud (demoCloud 2 (demoScan 0 ++ [(7, 7, 7)])),
     Event.groundPlane (demoCloud 2 [])]

/-- A state with three queued inertial samples, the second stamped before
the first, and an odometry time between the second and the third. -/
def demoOutOfOrder : Graph :=
  { demoInit with
    imuMeasurements := [(2, 0), (1, 0), (5, 0)]
    timeOdometry := 3
    timePrevPreintegratedImu := 0 }

/-- The calls `integrateMeasurement(acc, gyro, dt)` made for a run of
samples integrated one after the other, the previous stamp being `t`. -/
def integratedRun : ℚ → List (ℚ × Vector6) → List (Vector3 × Vector3 × ℚ)
  | _, [] => []
  | t, m :: ms => (head3 m.2, tail3 m.2, m.1 - t) :: integratedRun m.1 ms

/-- The stamp of the last sample of a run, or `t` for an empty run. -/
def lastStamp : ℚ → List (ℚ × Vector6) → ℚ
  | t, [] => t
  | _, m :: ms => lastStamp m.1 ms

/-- The first cycle, run without any inertial sample, followed by two
inertial samples, the second stamped after the next odometry message, and
the inputs of a second cycle. -/
def demoLateImu : List Event :=
  demoFirstCycle ++
    [Event.imu (demoImu (3 / 2)), Event.imu (demoImu 100),
     Event.odometry (demoOdometry 2 0), Event.featureCloud (demoCloud 2 [(0, 0, 0)]),
     Event.groundPlane (demoCloud 2 [])]

/-- A state whose scan holds two finite points of one voxel and a non-finite
point, and whose map holds one point in another voxel. -/
def demoNewVoxel : Graph :=
  { demoInit with
    currentFeatureCloud :=
      [{ x := 5, y := 0, z := 0, finite := true }, { x := 11 / 2, y := 0, z := 0, finite := true },
       { x := 0, y := 0, z := 0, finite := false }]
    cloudMapFull := [{ x := 0, y := 0, z := 0, finite := true }]
    octreeMap := [{ x := 0, y := 0, z := 0, finite := true }] }

/-- The state reached, before `_performIsam`, by a second cycle at rest. -/
def demoAtRest : Option Graph :=
  (Graph.run demoExt demoInit demoSecondScan).bind (Graph.cycleFront demoExt)

/-- The factors `_performIsam` puts in the pending buffer for a keyframe:
a prior on `X(0)` for the first one, else one Between factor over
`X(index-1)`, `X(index)` followed, when `updateImu` holds, by the combined
inertial factor. -/
def Graph.keyframeFactors (g : Graph) : List Factor :=
  let index := g.cloudKeyPositions.length
  if g.cloudKeyPositions.isEmpty then
    [Factor.priorPose (Key.X 0) g.currentPoseInWorld Noise.priorNoise]
  else
    Factor.between (Key.X (index - 1)) (Key.X index)
        (g.lastPoseInWorld.inverse.compose g.currentPoseInWorld) Noise.odometryNoise ::
      (if g.updateImu then
        [Factor.combinedImu (Key.X (index - 1)) (Key.V (index - 1)) (Key.X index) (Key.V index)
          (Key.B (index - 1)) (Key.B index) g.preintegrated]
      else [])

/-- The library functions of `demoExt` with a preintegration covariance of
`1/4` on the diagonal and the inverse square root of a diagonal matrix, which
is 2 on the diagonal for that covariance. -/
def demoExtQuarter : Ext :=
  { demoExt with
    preintMeasCov := fun _ => (1 / 4 : ℚ) • (1 : Matrix6)
    inverse_square_root := fun M => Matrix.diagonal (fun i => (demoSqrt (M i i))⁻¹) }

/-- A state with one keyframe and a pending inertial update. -/
def demoWithPrior : Graph :=
  { demoOnePoint with updateImu := true }

/-- The five-point state with both tolerances at 0 and two passes allowed:
the loop does not stop after its first, accepted pass. -/
def demoFivePointsTwoPasses : Graph :=
  { demoFivePoints with fxTol := 0, stepTol := 0, maxIterSmoothing := 2 }

/-! ## Published covariance (`_publishTransformed`) -/

/-- The entries of the `std::map<int, int>` of `_publishTransformed`. -/
def covarianceOrder : List (Nat × Nat) := [(0, 3), (1, 4), (2, 5), (3, 0), (4, 1), (5, 2)]

/-- The expression `map[k]`: the value stored for `k`, and 0 for a key the
map does not hold. -/
def mapAt (m : List (Nat × Nat)) (k : Nat) : Nat :=
  match m.find? (fun kv => kv.1 == k) with
  | some kv => kv.2
  | none => 0

/-- The loop of `_publishTransformed` that fills `poseWCov.pose.covariance`:
the entries written for `i = 0, ..., 35`, in order. -/
def _publishTransformedCovariance (cov : Matrix6) : List ℚ :=
  (List.range 36).map (fun i =>
    let row := i / 6
    let col := i % 6
    cov (Fin.ofNat (mapAt covarianceOrder row)) (Fin.ofNat (mapAt covarianceOrder col)))

/-- A symmetric covariance with distinct entries: entry `(i, j)` is
`10 * min i j + max i j`. -/
def demoCovariance : Matrix6 :=
  Matrix.of (fun i j => ((10 * min i.val j.val + max i.val j.val : Nat) : ℚ))

/-- A state whose only queued inertial sample is stamped before the odometry
time. -/
def demoAllQueued : Graph :=
  { demoInit with imuMeasurements := [(1, 0)], timeOdometry := 2 }

/-! ## Batch smoothing (`_smoothPoses`) -/

/-- The method `Pose3::transformTo`. -/
def Pose3.transformTo (a : Pose3) (p : Vector3) : Vector3 := a.R.transpose.mulVec (p - a.t)

/-- The method `Pose3::range`: the distance of a point from the pose. -/
def Pose3.range (ext : Ext) (a : Pose3) (p : Vector3) : ℚ := ext.sqrt (normSq3 (a.transformTo p))

/-- The method `Pose3::bearing`: the direction of a point in the frame of the
pose, scaled to length 1. -/
def Pose3.bearing (ext : Ext) (a : Pose3) (p : Vector3) : Vector3 :=
  (Pose3.range ext a p)⁻¹ • a.transformTo p

/-- The locals `graph` and `initial` of `_smoothPoses` together with the
member `mapKeys`. -/
structure SmoothBatch where
  graph : List Factor
  initial : Values
  mapKeys : List (Key × Nat)

/-- The loop of lines 365 to 368: `framePoses.push_back(at<Pose3>(X(i)))` for
the given indices; `none` is the exception of `at`. -/
def readFramePoses (isamCurrentEstimate : Values) : List Nat → Option (List Pose3)
  | [] => some []
  | i :: rest => do
    let pose ← Values.atPose isamCurrentEstimate (Key.X i)
    let poses ← readFramePoses isamCurrentEstimate rest
    pure (pose :: poses)

/-- The local `startIdx` of `_smoothPoses` when it is not negative. -/
def Graph.startIdx (g : Graph) : Nat := g.cloudKeyFrames.length - g.cloudsInQueue

/-- The vector `framePoses` built by lines 362 to 368. With more keyframes
queued than stored `startIdx` is negative and the first `at` finds no such
key. -/
def Graph.framePoses (g : Graph) : Option (List Pose3) :=
  if g.cloudKeyFrames.length < g.cloudsInQueue then none
  else readFramePoses g.isamCurrentEstimate (List.range' g.startIdx g.cloudsInQueue)

/-- Body of the loop over the correspondences of one keyframe (lines 397 to
418). The two `at` reads are outside the `try` block: `none` is their
exception. An `insert` that throws is caught, and the loop goes on with the
next correspondence, the key not being added to `mapKeys`. -/
def smoothCorrespondence (ext : Ext) (g : Graph) (cloudInWorld : Cloud) (pose : Pose3)
    (cloudnr : Nat) (st : SmoothBatch) (c : Correspondence) : Option SmoothBatch := do
  let pointIdx := c.index_match
  let _pclPoint ← g.cloudMapFull[pointIdx]?
  let pclPointFrame ← cloudInWorld[c.index_query]?
  let pointMeasured := pclPointFrame.toVector3
  let factor := Factor.bearingRange (Key.X cloudnr) (Key.L pointIdx)
    (Pose3.bearing ext pose pointMeasured) (Pose3.range ext pose pointMeasured)
    Noise.structureNoise
  let graph1 := st.graph ++ [factor]
  if !Values.exists g.isamCurrentEstimate (Key.L pointIdx) then
    match Values.insert st.initial (Key.L pointIdx) (Value.point pointMeasured) with
    | some initial1 =>
      pure { graph := graph1, initial := initial1,
             mapKeys := st.mapKeys ++ [(Key.L pointIdx, pointIdx)] }
    | none => pure { st with graph := graph1 }
  else pure { st with graph := graph1 }

/-- The loop over the correspondences of one keyframe. -/
def smoothCorrespondences (ext : Ext) (g : Graph) (cloudInWorld : Cloud) (pose : Pose3)
    (cloudnr : Nat) : List Correspondence → SmoothBatch → Option SmoothBatch
  | [], st => some st
  | c :: cs, st =>
    (smoothCorrespondence ext g cloudInWorld pose cloudnr st c).bind
      (smoothCorrespondences ext g cloudInWorld pose cloudnr cs)

/-- The read `framePoses[cloudnr]`. -/
def readFramePose (ext : Ext) (framePoses : List Pose3) (cloudnr : Nat) : Option Pose3 :=
  match framePoses[cloudnr]? with
  | some pose => some pose
  | none => ext.readPastEnd framePoses cloudnr

/-- Body of the loop over the pending keyframes (lines 378 to 419). `none`
is the exception of `cloudKeyFrames.at(cloudnr)`, or a read of
`framePoses[cloudnr]` past the end of the vector that stops the program. -/
def smoothKeyframe (ext : Ext) (g : Graph) (framePoses : List Pose3) (st : SmoothBatch)
    (cloudnr : Nat) : Option SmoothBatch := do
  let cloud ← g.cloudKeyFrames[cloudnr]?
  let pose ← readFramePose ext framePoses cloudnr
  let cloudInWorld := transformPointCloud cloud pose
  let allCorrespondences := ext.determineReciprocalCorrespondences cloudInWorld g.cloudMapFull
  let ransacCorrespondences :=
    ext.ransacCorrespondences cloudInWorld g.cloudMapFull allCorrespondences
  if ransacCorrespondences.isEmpty || decide (ransacCorrespondences.length < 10) then pure st
  else smoothCorrespondences ext g cloudInWorld pose cloudnr ransacCorrespondences st

/-- The loop over the pending keyframes. -/
def smoothKeyframes (ext : Ext) (g : Graph) (framePoses : List Pose3) :
    List Nat → SmoothBatch → Option SmoothBatch
  | [], st => some st
  | cloudnr :: rest, st =>
    (smoothKeyframe ext g framePoses st cloudnr).bind (smoothKeyframes ext g framePoses rest)

/-- Lines 362 to 424 of `_smoothPoses`: the factors, the initial guesses and
the landmark keys of one round. -/
def Graph._smoothPosesBatch (ext : Ext) (g : Graph) : Option SmoothBatch := do
  let framePoses ← g.framePoses
  smoothKeyframes ext g framePoses (List.range' g.startIdx g.cloudsInQueue)
    { graph := [], initial := [], mapKeys := g.mapKeys }

/-- The function `_smoothPoses`, taken as one step. -/
def Graph._smoothPoses (ext : Ext) (g : Graph) : Option Graph :=
  if g.cloudsInQueue = 0 then some g
  else do
    let b ← g._smoothPosesBatch ext
    let isam1 ← g.isam.update b.graph b.initial
    let isam2 ← isam1.update [] []
    pure { g with
      mapKeys := b.mapKeys
      cloudsInQueue := 0
      isam := isam2
      isamCurrentEstimate := isam2.calculateEstimate ext }

/-- What can happen to a `Graph` when smoothing is enabled: an event of the
estimation side, or a round of `_smoothPoses`. -/
inductive Activity where
  | event (e : Event)
  | smoothPoses

def Graph.act (ext : Ext) (g : Graph) : Activity → Option Graph
  | .event e => g.step ext e
  | .smoothPoses => g._smoothPoses ext

/-- A run with smoothing rounds between the events. -/
def Graph.runAll (ext : Ext) : Graph → List Activity → Option Graph
  | g, [] => some g
  | g, a :: as => (g.act ext a).bind (fun g1 => Graph.runAll ext g1 as)

/-- What the landmark bookkeeping rests on: the estimate holds a key exactly
when the solver does, no key has two values in the solver or in the pending
initial guesses, and `mapKeys` lists distinct keys, each `L(i)` with its
index `i`, that the solver holds. -/
def Graph.landmarkInvariant (g : Graph) : Prop :=
  (∀ k, Values.exists g.isamCurrentEstimate k = Values.exists g.isam.theta k) ∧
  (g.isam.theta.map Prod.fst).Nodup ∧
  (g.initialEstimate.map Prod.fst).Nodup ∧
  (g.mapKeys.map Prod.fst).Nodup ∧
  (∀ kp ∈ g.mapKeys, kp.1 = Key.L kp.2 ∧ Values.exists g.isam.theta kp.1 = true)

/-- A step from `g` to `g1` that leaves the landmark bookkeeping alone: the
solver, the estimate and `mapKeys` are the same, and pending initial guesses
with distinct keys stay so. -/
def Graph.keepsLandmarks (g g1 : Graph) : Prop :=
  g1.isam = g.isam ∧ g1.isamCurrentEstimate = g.isamCurrentEstimate ∧
  g1.mapKeys = g.mapKeys ∧
  ((g.initialEstimate.map Prod.fst).Nodup → (g1.initialEstimate.map Prod.fst).Nodup)

/-- What a round of `_smoothPoses` keeps true of its locals while it loops,
in the state `g` it started from: the initial guesses have distinct keys the
estimate does not hold, `mapKeys` is extended by exactly these keys, and each
entry of `mapKeys` pairs `L(i)` with `i`. -/
def SmoothBatch.fresh (g : Graph) (st : SmoothBatch) : Prop :=
  (st.initial.map Prod.fst).Nodup ∧
  (∀ kv ∈ st.initial, Values.exists g.isamCurrentEstimate kv.1 = false) ∧
  st.mapKeys.map Prod.fst = g.mapKeys.map Prod.fst ++ st.initial.map Prod.fst ∧
  (∀ kp ∈ st.mapKeys, kp.1 = Key.L kp.2)

/-- One cycle with the given odometry displacement along x and scan. -/
def demoCycle (stamp dx : ℚ) (pts : List (ℚ × ℚ × ℚ)) : List Activity :=
  [Activity.event (Event.odometry (demoOdometry stamp dx)),
   Activity.event (Event.featureCloud (demoCloud stamp pts)),
   Activity.event (Event.groundPlane (demoCloud stamp [])),
   Activity.event Event.runOnce]

/-- A keyframe, a smoothing round, then two more keyframes 0.3 apart, each
scan showing the three points of the map: two keyframes are pending and one
is not. -/
def demoSmoothAfterFirst : List Activity :=
  demoCycle 1 0 (demoScan 0) ++ [Activity.smoothPoses] ++
    demoCycle 2 (3 / 10) (demoScan (3 / 10)) ++ demoCycle 3 (3 / 10) (demoScan (3 / 5))

/-- Ten points on the x axis, two apart, seen from a pose displaced by `dx`
along x. -/
def demoTenPoints (dx : ℚ) : List (ℚ × ℚ × ℚ) :=
  (List.range 10).map (fun k => ((2 * k + 1 : ℚ) - dx, 0, 0))

/-- Two keyframes 0.3 apart whose scans show the same ten points, then a
smoothing round: both pending keyframes match every one of the ten map
points. -/
def demoSharedLandmarks : List Activity :=
  demoCycle 1 0 (demoTenPoints 0) ++ demoCycle 2 (3 / 10) (demoTenPoints (3 / 10)) ++
    [Activity.smoothPoses]

/-- The library functions of `demoExt`, with a read past the end of
`framePoses` that goes on with the identity pose. -/
def demoExtReadsOn : Ext :=
  { demoExt with readPastEnd := fun _ _ => some { R := 1, t := 0 } }

/-- The run `demoSharedLandmarks`, then a third keyframe 0.3 further whose
scan shows the ten points and an eleventh, then a second smoothing round. -/
def demoTwoRounds : List Activity :=
  demoSharedLandmarks ++
    demoCycle 3 (3 / 10) (demoTenPoints (3 / 5) ++ [(21 - 3 / 5, 0, 0)]) ++
    [Activity.smoothPoses]

/-- The rotation by a quarter turn about the z axis. -/
def demoQuarterTurn : Matrix3 := !![0, -1, 0; 1, 0, 0; 0, 0, 1]


/-! ## Properties of the containers -/

theorem ISAM2.update_some {s : ISAM2} {fs : List Factor} {th : Values} {s1 : ISAM2}
    (h : s.update fs th = some s1) :
    s1.factors = s.factors ++ fs ∧ s1.theta = s.theta ++ th := by
  unfold ISAM2.update at h
  split at h
  · simp at h
  · split at h
    · simp at h
    · simp only [Option.some.injEq] at h
      subst h
      exact ⟨rfl, rfl⟩

theorem Values.insert_some {vs : Values} {k : Key} {v : Value} {vs1 : Values}
    (h : Values.insert vs k v = some vs1) : vs1 = vs ++ [(k, v)] := by
  unfold Values.insert at h
  split at h
  · simp at h
  · simpa using h.symm

theorem poseKeys_append (a b : Values) : poseKeys (a ++ b) = poseKeys a ++ poseKeys b := by
  simp [poseKeys]

theorem initializePreintegration_core {g g1 : Graph}
    (h : g._initializePreintegration = some g1) : g1.core = g.core := by
  unfold Graph._initializePreintegration at h
  simp only [Option.bind_eq_bind, Option.bind_eq_some, Option.pure_def, Option.some.injEq] at h
  obtain ⟨e1, h1, e2, h2, rfl⟩ := h
  have := Values.insert_some h1
  have := Values.insert_some h2
  subst_vars
  simp [Graph.core, poseKeys]

theorem preintegrateImuMeasurements_core {ext : Ext} {g g1 : Graph}
    (h : g._preintegrateImuMeasurements ext = some g1) : g1.core = g.core := by
  unfold Graph._preintegrateImuMeasurements at h
  simp only [Option.bind_eq_bind, Option.bind_eq_some, Option.pure_def, Option.some.injEq] at h
  obtain ⟨r, _, rfl⟩ := h
  rfl

theorem processIMU_core {ext : Ext} {g g1 : Graph}
    (h : g._processIMU ext = some g1) : g1.core = g.core := by
  unfold Graph._processIMU at h
  split at h
  · simp only [Option.bind_eq_bind, Option.bind_eq_some, Option.pure_def, Option.some.injEq] at h
    obtain ⟨g2, h2, rfl⟩ := h
    have := initializePreintegration_core h2
    simpa [Graph.core] using this
  · split at h
    · simp only [Option.bind_eq_bind, Option.bind_eq_some, Option.pure_def, Option.some.injEq] at h
      obtain ⟨g2, h2, rfl⟩ := h
      have := preintegrateImuMeasurements_core h2
      simpa [Graph.core] using this
    · simp only [Option.some.injEq] at h
      subst h; rfl

theorem cloud2Map_some {ext : Ext} {g g1 : Graph} (h : g._cloud2Map ext = some g1) :
    ∃ T, g1 = { g with currentPoseInWorld := T } := by
  unfold Graph._cloud2Map at h
  simp only [Option.map_eq_some'] at h
  obtain ⟨r, _, rfl⟩ := h
  exact ⟨_, rfl⟩

theorem transformToGlobalMap_some {ext : Ext} {g g1 : Graph}
    (h : g._transformToGlobalMap ext = some g1) :
    ∃ o m, g1 = { g with octreeMap := o, cloudMapFull := m } := by
  unfold Graph._transformToGlobalMap at h
  simp only [Option.bind_eq_bind, Option.bind_eq_some, Option.pure_def, Option.some.injEq] at h
  obtain ⟨r, _, rfl⟩ := h
  exact ⟨_, _, rfl⟩

theorem cycleRegistration_core {ext : Ext} {g g1 : Graph}
    (h : g.cycleRegistration ext = some g1) : g1.core = g.core := by
  unfold Graph.cycleRegistration at h
  simp only [Option.bind_eq_bind, Option.bind_eq_some] at h
  obtain ⟨g2, h2, h3⟩ := h
  obtain ⟨T, rfl⟩ := cloud2Map_some h3
  have := processIMU_core h2
  simpa [Graph.core, Graph._incrementPosition] using this

theorem cycleFront_core {ext : Ext} {g g1 : Graph}
    (h : g.cycleFront ext = some g1) : g1.core = g.core := by
  unfold Graph.cycleFront at h
  simp only [Option.bind_eq_some] at h
  obtain ⟨g3, h3, h4⟩ := h
  obtain ⟨o, m, rfl⟩ := transformToGlobalMap_some h4
  have := cycleRegistration_core h3
  simpa [Graph.core] using this

theorem performIsamImu_some {g g1 : Graph} {index : Nat}
    (h : g._performIsamImu index = some g1) :
    ∃ st b pre u, g1 = { g with prevImuState := st, prevImuBias := b, preintegrated := pre, updateImu := u } := by
  unfold Graph._performIsamImu at h
  split at h
  · simp only [Option.bind_eq_bind, Option.bind_eq_some, Option.pure_def, Option.some.injEq] at h
    obtain ⟨p, _, v, _, b, _, rfl⟩ := h
    exact ⟨_, _, _, _, rfl⟩
  · simp only [Option.some.injEq] at h
    subst h
    exact ⟨_, _, _, _, rfl⟩

theorem performIsamUpdate_some {ext : Ext} {g g1 : Graph} {index : Nat}
    (h : g._performIsamUpdate ext index = some g1) :
    g1.cloudKeyPositions.length = g.cloudKeyPositions.length + 1 ∧
    g1.cloudKeyPoses.length = g.cloudKeyPoses.length + 1 ∧
    g1.cloudKeyFrames.length = g.cloudKeyFrames.length + 1 ∧
    g1.isam.theta = g.isam.theta ++ g.initialEstimate ∧
    g1.isam.factors = g.isam.factors ++ g._graph ∧
    g1._graph = [] ∧ g1.initialEstimate = [] ∧
    g1.cloudMapFull = g.cloudMapFull := by
  unfold Graph._performIsamUpdate at h
  simp only [Option.bind_eq_bind, Option.bind_eq_some, Option.pure_def] at h
  obtain ⟨isam1, h1, isam2, h2, g2, hg2, pose, hpose, hg1⟩ := h
  simp only [Option.some.injEq] at hg1
  obtain ⟨hf1, ht1⟩ := ISAM2.update_some h1
  obtain ⟨hf2, ht2⟩ := ISAM2.update_some h2
  obtain ⟨st, b, pre, u, rfl⟩ := performIsamImu_some hg2
  subst hg1
  simp [hf1, ht1, hf2, ht2]

theorem performIsamFactors_some {g g1 : Graph} (h : g._performIsamFactors = some g1) :
    g1.cloudKeyPositions = g.cloudKeyPositions ∧ g1.cloudKeyPoses = g.cloudKeyPoses ∧
    g1.cloudKeyFrames = g.cloudKeyFrames ∧ g1.isam = g.isam ∧
    g1.cloudMapFull = g.cloudMapFull ∧
    ∃ vs, g1.initialEstimate = g.initialEstimate ++ vs ∧
      poseKeys vs = [Key.X g.cloudKeyPositions.length] := by
  unfold Graph._performIsamFactors at h
  split at h
  · simp only [Option.bind_eq_bind, Option.bind_eq_some, Option.pure_def, Option.some.injEq] at h
    obtain ⟨e1, h1, rfl⟩ := h
    have := Values.insert_some h1
    subst this
    exact ⟨rfl, rfl, rfl, rfl, rfl, _, rfl, by simp [poseKeys]⟩
  · simp only [Option.bind_eq_bind, Option.bind_eq_some, Option.pure_def] at h
    obtain ⟨e1, h1, h⟩ := h
    have := Values.insert_some h1
    subst this
    split at h
    · simp only [Option.bind_eq_bind, Option.bind_eq_some, Option.pure_def, Option.some.injEq] at h
      obtain ⟨e2, h2, e3, h3, rfl⟩ := h
      have := Values.insert_some h2
      subst this
      have := Values.insert_some h3
      subst this
      refine ⟨rfl, rfl, rfl, rfl, rfl,
        [(Key.X g.cloudKeyPositions.length, Value.pose g.currentPoseInWorld),
         (Key.V g.cloudKeyPositions.length, Value.velocity g.predImuState.v),
         (Key.B g.cloudKeyPositions.length, Value.bias g.prevImuBias)], ?_, ?_⟩
      · simp
      · simp [poseKeys]
    · simp only [Option.some.injEq] at h
      subst h
      exact ⟨rfl, rfl, rfl, rfl, rfl, _, rfl, by simp [poseKeys]⟩

theorem Values.exists_iff_mem_poseKeys (vs : Values) (i : Nat) :
    Values.exists vs (Key.X i) = true ↔ Key.X i ∈ poseKeys vs := by
  simp only [Values.exists, poseKeys, List.any_eq_true, decide_eq_true_eq, List.mem_filter,
    List.mem_map]
  constructor
  · rintro ⟨kv, hkv, hk⟩
    exact ⟨⟨kv, hkv, hk⟩, trivial⟩
  · rintro ⟨⟨kv, hkv, hk⟩, _⟩
    exact ⟨kv, hkv, hk⟩

theorem atPose_calculateEstimate (ext : Ext) (s : ISAM2) (th rest : Values) (k : Key) (p : Pose3)
    (h : Values.exists th k = false) :
    Values.atPose ((th ++ (k, Value.pose p) :: rest).map (ISAM2.estimateOf ext s)) k
      = some (ext.estPose s k p) := by
  induction th with
  | nil => simp [Values.atPose, ISAM2.estimateOf]
  | cons a th ih =>
    simp only [Values.exists, List.any_cons, Bool.or_eq_false_iff, decide_eq_false_iff_not] at h
    have ih1 := ih (by simpa [Values.exists] using h.2)
    simp only [Values.atPose, List.cons_append, List.map_cons, List.find?_cons] at ih1 ⊢
    simp only [ISAM2.estimateOf, h.1, decide_False] at ih1 ⊢
    exact ih1

theorem ISAM2.update_eq_some (s : ISAM2) (fs : List Factor) (th : Values)
    (h1 : ∀ kv ∈ th, Values.exists s.theta kv.1 = false)
    (h2 : ∀ f ∈ fs, ∀ k ∈ f.keys, Values.exists (s.theta ++ th) k = true) :
    s.update fs th = some { factors := s.factors ++ fs, theta := s.theta ++ th } := by
  unfold ISAM2.update
  rw [if_neg, if_neg]
  · simp only [List.any_eq_true, Bool.not_eq_true', not_exists, not_and, Bool.not_eq_false]
    intro f hf k hk
    exact h2 f hf k hk
  · simp only [List.any_eq_true, not_exists, not_and, Bool.not_eq_true]
    intro kv hkv
    exact h1 kv hkv

theorem performIsamUpdate_returns (ext : Ext) (g : Graph) (index : Nat) (p : Pose3)
    (himu : g.updateImu = false) (he : g.initialEstimate = [(Key.X index, Value.pose p)])
    (hfresh : Values.exists g.isam.theta (Key.X index) = false)
    (hf : ∀ f ∈ g._graph, ∀ k ∈ f.keys, Values.exists (g.isam.theta ++ g.initialEstimate) k = true) :
    ∃ g1, g._performIsamUpdate ext index = some g1 := by
  have hu := ISAM2.update_eq_some g.isam g._graph g.initialEstimate
    (by intro kv hkv; rw [he] at hkv; simp at hkv; subst hkv; exact hfresh) hf
  rw [he] at hu
  have hu2 := ISAM2.update_eq_some
    { factors := g.isam.factors ++ g._graph,
      theta := g.isam.theta ++ [(Key.X index, Value.pose p)] } [] []
    (by simp) (by simp)
  have hat := atPose_calculateEstimate ext
    { factors := g.isam.factors ++ g._graph, theta := g.isam.theta ++ [(Key.X index, Value.pose p)] }
    g.isam.theta [] (Key.X index) p hfresh
  simp only [List.append_nil] at hu2
  unfold Graph._performIsamUpdate
  simp only [he, hu, hu2, Option.bind_eq_bind, Option.some_bind, Graph._performIsamImu, himu,
    Bool.false_eq_true, if_false, ISAM2.calculateEstimate, Option.pure_def, hat]
  exact ⟨_, rfl⟩


theorem exists_X_range (vs : Values) (n i : Nat)
    (hk : poseKeys vs = (List.range n).map Key.X) :
    Values.exists vs (Key.X i) = true ↔ i < n := by
  rw [Values.exists_iff_mem_poseKeys, hk]
  simp

theorem performIsam_returns (ext : Ext) (g : Graph)
    (hadm : g.cloudKeyPositions = [] ∨ 3 / 10 ≤ ext.sqrt g.squaredDistance)
    (himu : g.updateImu = false) (hg : g._graph = []) (he : g.initialEstimate = [])
    (hk : poseKeys g.isam.theta = (List.range g.cloudKeyPositions.length).map Key.X) :
    ∃ g1, g._performIsam ext = some g1 := by
  have hfresh : Values.exists g.isam.theta (Key.X g.cloudKeyPositions.length) = false := by
    have := exists_X_range g.isam.theta _ g.cloudKeyPositions.length hk
    simpa using this
  have hcond : (g.saveThisKeyFrame ext = false && !g.cloudKeyPositions.isEmpty) = false := by
    rcases hadm with h | h
    · simp [h]
    · simp [Graph.saveThisKeyFrame, not_lt.mpr h]
  unfold Graph._performIsam
  rw [hcond]
  simp only [Bool.false_eq_true, if_false, Option.bind_eq_bind]
  by_cases hemp : g.cloudKeyPositions.isEmpty = true
  · have hf : g._performIsamFactors = some { g with
        previousPosPoint := g.currentPosPoint
        _graph := [Factor.priorPose (Key.X g.cloudKeyPositions.length) g.currentPoseInWorld
          Noise.priorNoise]
        initialEstimate := [(Key.X g.cloudKeyPositions.length, Value.pose g.currentPoseInWorld)]
        lastPoseInWorld := g.currentPoseInWorld } := by
      simp [Graph._performIsamFactors, hemp, hg, he, Values.insert, Values.exists]
    rw [hf, Option.some_bind]
    refine performIsamUpdate_returns ext _ _ g.currentPoseInWorld ?_ ?_ ?_ ?_
    · exact himu
    · rfl
    · exact hfresh
    intro f hf k hk
    simp only [List.mem_singleton] at hf
    subst hf
    simp only [Factor.keys, List.mem_singleton] at hk
    subst hk
    simp [Values.exists]
  · have hf : g._performIsamFactors = some { g with
        previousPosPoint := g.currentPosPoint
        _graph := [Factor.between (Key.X (g.cloudKeyPositions.length - 1))
          (Key.X g.cloudKeyPositions.length) (g.lastPoseInWorld.between g.currentPoseInWorld)
          Noise.odometryNoise]
        initialEstimate := [(Key.X g.cloudKeyPositions.length, Value.pose g.currentPoseInWorld)] } := by
      simp [Graph._performIsamFactors, hemp, hg, he, Values.insert, Values.exists, himu]
    rw [hf, Option.some_bind]
    refine performIsamUpdate_returns ext _ _ g.currentPoseInWorld ?_ ?_ ?_ ?_
    · exact himu
    · rfl
    · exact hfresh
    intro f hf k hk
    simp only [List.mem_singleton] at hf
    subst hf
    have hpos : 0 < g.cloudKeyPositions.length := by
      cases hl : g.cloudKeyPositions with
      | nil => simp [hl] at hemp
      | cons a l => simp
    simp only [Factor.keys, List.mem_cons, List.mem_singleton, List.not_mem_nil, or_false] at hk
    rcases hk with hk | hk
    · subst hk
      have := (exists_X_range g.isam.theta _ (g.cloudKeyPositions.length - 1) hk).mpr (by omega)
      simp only [Values.exists, List.any_append, Bool.or_eq_true] at this ⊢
      exact Or.inl this
    · subst hk
      simp [Values.exists]


/-- C1: for every state, `_performIsam` leaves the state as it is when the
keyframe history is not empty and the distance between `currentPosPoint` and
`previousPosPoint` is below 0.3; a call that returns has appended one
keyframe and given the solver the pose node `X(index)` exactly when the
history was empty or the distance was at least 0.3, so a distance of exactly
0.3 admits; and without pending inertial update the admitting call returns. -/
theorem performIsam_admission (ext : Ext) (g : Graph) :
    (¬ (g.cloudKeyPositions = [] ∨ 3 / 10 ≤ ext.sqrt g.squaredDistance) →
        g._performIsam ext = some g) ∧
    (∀ g1, g._performIsam ext = some g1 →
      ((g1.cloudKeyPositions.length = g.cloudKeyPositions.length + 1 ∧
        Values.exists g1.isam.theta (Key.X g.cloudKeyPositions.length) = true) ↔
       (g.cloudKeyPositions = [] ∨ 3 / 10 ≤ ext.sqrt g.squaredDistance))) ∧
    (∀ g1, ext.sqrt g.squaredDistance = 3 / 10 → g._performIsam ext = some g1 →
        g1.cloudKeyPositions.length = g.cloudKeyPositions.length + 1) ∧
    ((g.cloudKeyPositions = [] ∨ 3 / 10 ≤ ext.sqrt g.squaredDistance) →
      g.updateImu = false → g._graph = [] → g.initialEstimate = [] →
      poseKeys g.isam.theta = (List.range g.cloudKeyPositions.length).map Key.X →
      ∃ g1, g._performIsam ext = some g1) := by
  have hrej : ¬ (g.cloudKeyPositions = [] ∨ 3 / 10 ≤ ext.sqrt g.squaredDistance) →
      g._performIsam ext = some g := by
    intro h
    simp only [not_or, not_le] at h
    simp [Graph._performIsam, Graph.saveThisKeyFrame, h.1, h.2]
  have hadm : (g.cloudKeyPositions = [] ∨ 3 / 10 ≤ ext.sqrt g.squaredDistance) →
      ∀ g1, g._performIsam ext = some g1 →
      g1.cloudKeyPositions.length = g.cloudKeyPositions.length + 1 ∧
        Values.exists g1.isam.theta (Key.X g.cloudKeyPositions.length) = true := by
    intro h g1 hg1
    have hcond : (g.saveThisKeyFrame ext = false && !g.cloudKeyPositions.isEmpty) = false := by
      rcases h with h | h
      · simp [h]
      · simp [Graph.saveThisKeyFrame, not_lt.mpr h]
    unfold Graph._performIsam at hg1
    rw [hcond] at hg1
    simp only [Bool.false_eq_true, if_false, Option.bind_eq_bind, Option.bind_eq_some] at hg1
    obtain ⟨gf, hgf, hgu⟩ := hg1
    obtain ⟨hp, _, _, hi, _, vs, hvs, hkeys⟩ := performIsamFactors_some hgf
    obtain ⟨hl, _, _, hth, _⟩ := performIsamUpdate_some hgu
    refine ⟨by rw [hl, hp], ?_⟩
    rw [Values.exists_iff_mem_poseKeys, hth, hvs, hi, poseKeys_append, poseKeys_append, hkeys]
    simp
  refine ⟨hrej, ?_, ?_, ?_⟩
  · intro g1 hg1
    constructor
    · intro hlen
      by_contra hno
      have := hrej hno
      rw [this] at hg1
      simp only [Option.some.injEq] at hg1
      subst hg1
      omega
    · intro h
      exact hadm h g1 hg1
  · intro g1 hs hg1
    exact (hadm (Or.inr (le_of_eq hs.symm)) g1 hg1).1
  · intro h himu hg he hk
    exact performIsam_returns ext g h himu hg he hk

/-- Witness for C1: after keyframe 0 at the origin, a displacement of exactly
0.3 along x admits keyframe 1. -/
theorem performIsam_admission_witness :
    ∃ g g1, demoAtThreshold = some g ∧ g._performIsam demoExt = some g1 ∧
      g.cloudKeyPositions.length = 1 ∧ demoExt.sqrt g.squaredDistance = 3 / 10 ∧
      g1.cloudKeyPositions.length = g.cloudKeyPositions.length + 1 := by
  have h : (demoAtThreshold.bind (fun g => (g._performIsam demoExt).map (fun _ =>
      decide (g.cloudKeyPositions.length = 1 ∧ demoExt.sqrt g.squaredDistance = 3 / 10))))
      = some true := by
    decide!
  simp only [Option.bind_eq_some, Option.map_eq_some', decide_eq_true_eq] at h
  obtain ⟨g, hg, g1, hg1, hlen, hs⟩ := h
  exact ⟨g, g1, hg, hg1, hlen, hs, (performIsam_admission demoExt g).2.2.1 g1 hs hg1⟩

theorem keyframeInvariant_of_core {g g1 : Graph} (h : g1.core = g.core)
    (hi : g.keyframeInvariant) : g1.keyframeInvariant := by
  simp only [Graph.core, Prod.mk.injEq] at h
  obtain ⟨h1, h2, h3, h4, h5⟩ := h
  unfold Graph.keyframeInvariant at hi ⊢
  rw [h1, h2, h3, h4, h5]
  exact hi

theorem performIsam_keyframeInvariant {ext : Ext} {g g1 : Graph}
    (h : g._performIsam ext = some g1) (hi : g.keyframeInvariant) : g1.keyframeInvariant := by
  unfold Graph._performIsam at h
  split at h
  · simp only [Option.some.injEq] at h
    subst h
    exact hi
  · simp only [Option.bind_eq_bind, Option.bind_eq_some] at h
    obtain ⟨gf, hgf, hgu⟩ := h
    obtain ⟨hp, hq, hr, hs, _, vs, hvs, hkeys⟩ := performIsamFactors_some hgf
    obtain ⟨hl1, hl2, hl3, hth, _, _, hie, _⟩ := performIsamUpdate_some hgu
    obtain ⟨i1, i2, i3, i4⟩ := hi
    refine ⟨?_, ?_, ?_, ?_⟩
    · rw [hth, hvs, hs, poseKeys_append, poseKeys_append, i1, i2, hkeys, hl1, hp,
        List.range_succ]
      simp
    · rw [hie]; rfl
    · rw [hl2, hl1, hq, hp, i3]
    · rw [hl3, hl1, hr, hp, i4]

theorem runOnce_keyframeInvariant {ext : Ext} {g g1 : Graph}
    (h : g.runOnce ext = some g1) (hi : g.keyframeInvariant) : g1.keyframeInvariant := by
  unfold Graph.runOnce at h
  split at h
  · simp only [Option.bind_eq_some] at h
    obtain ⟨g4, h4, h5⟩ := h
    exact performIsam_keyframeInvariant h5 (keyframeInvariant_of_core (cycleFront_core h4) hi)
  · simp only [Option.some.injEq] at h
    subst h
    exact hi

theorem step_keyframeInvariant {ext : Ext} {g g1 : Graph} {e : Event}
    (h : g.step ext e = some g1) (hi : g.keyframeInvariant) : g1.keyframeInvariant := by
  cases e with
  | odometry m =>
    simp only [Graph.step, Option.some.injEq] at h
    subst h
    exact hi
  | featureCloud m =>
    simp only [Graph.step, Option.some.injEq] at h
    subst h
    exact hi
  | groundPlane m =>
    simp only [Graph.step, Option.some.injEq] at h
    subst h
    exact hi
  | imu m =>
    simp only [Graph.step, Option.some.injEq] at h
    subst h
    exact hi
  | runOnce => exact runOnce_keyframeInvariant h hi

theorem run_keyframeInvariant {ext : Ext} (evs : List Event) :
    ∀ {g g1 : Graph}, Graph.run ext g evs = some g1 → g.keyframeInvariant →
      g1.keyframeInvariant := by
  induction evs with
  | nil =>
    intro g g1 h hi
    simp only [Graph.run, Option.some.injEq] at h
    subst h
    exact hi
  | cons e es ih =>
    intro g g1 h hi
    simp only [Graph.run, Option.bind_eq_some] at h
    obtain ⟨g2, h2, h3⟩ := h
    exact ih h3 (step_keyframeInvariant h2 hi)

theorem constructed_keyframeInvariant {g : Graph} (h : g.constructed) :
    g.keyframeInvariant := by
  obtain ⟨h1, h2, h3, _, _, _, _, _, h9, h10, _, _⟩ := h
  simp [Graph.keyframeInvariant, h1, h2, h3, h9, h10, poseKeys]

/-- C2: after any sequence of handler calls and estimation cycles from the
constructed state, the pose nodes the solver holds are `X(0)`, `X(1)`, ...,
`X(n-1)` in the order of their creation, where `n` is the length of
`cloudKeyPositions`, and `cloudKeyPoses` and `cloudKeyFrames` have the same
length `n`: the k-th admitted keyframe has pose-node index k. -/
theorem keyframe_indices_consecutive (ext : Ext) (g0 g : Graph) (evs : List Event)
    (h0 : g0.constructed) (hrun : Graph.run ext g0 evs = some g) :
    poseKeys g.isam.theta = (List.range g.cloudKeyPositions.length).map Key.X ∧
    g.cloudKeyPoses.length = g.cloudKeyPositions.length ∧
    g.cloudKeyFrames.length = g.cloudKeyPositions.length := by
  obtain ⟨h1, _, h3, h4⟩ := run_keyframeInvariant evs hrun (constructed_keyframeInvariant h0)
  exact ⟨h1, h3, h4⟩

theorem demoInit_constructed : demoInit.constructed :=
  ⟨rfl, rfl, rfl, rfl, rfl, rfl, rfl, rfl, rfl, rfl, rfl, rfl⟩

/-- Witness for C2: two admitting cycles give the pose nodes `X(0)`, `X(1)`
and three containers of length 2. -/
theorem keyframe_indices_consecutive_witness :
    ∃ g, Graph.run demoExt demoInit demoTwoKeyframes = some g ∧
      g.cloudKeyPositions.length = 2 ∧
      poseKeys g.isam.theta = (List.range g.cloudKeyPositions.length).map Key.X ∧
      g.cloudKeyPoses.length = g.cloudKeyPositions.length ∧
      g.cloudKeyFrames.length = g.cloudKeyPositions.length := by
  have h : (Graph.run demoExt demoInit demoTwoKeyframes).map
      (fun g => decide (g.cloudKeyPositions.length = 2)) = some true := by
    decide!
  simp only [Option.map_eq_some', decide_eq_true_eq] at h
  obtain ⟨g, hg, hlen⟩ := h
  exact ⟨g, hg, hlen,
    keyframe_indices_consecutive demoExt demoInit g demoTwoKeyframes demoInit_constructed hg⟩

/-! ## Registration loop -/

theorem residualCost_nil (ext : Ext) (T : Pose3) : residualCost ext T [] = 0 := rfl

/-- What one pass of the registration loop leaves, in terms of the pose and
damping factor it was entered with. -/
theorem cloud2MapIteration_some {ext : Ext} {g : Graph} {fw fp : Cloud}
    {cs : List Correspondence} {pose : Pose3} {lam : ℚ} {it : Iteration}
    (h : cloud2MapIteration ext g fw fp cs pose lam = some it) :
    it.keyPoseBefore = pose ∧ it.lambdaBefore = lam ∧
    (∃ blocks, buildBlocks ext pose.R fw fp g.cloudMapFull cs = some blocks ∧
      (∀ i, it.xi i = ext.solve
        (matAtA (matARows blocks g.updateImu) + lam • Matrix.diagonal
          (fun k => matAtA (matARows blocks g.updateImu) k k))
        (matAtB (matARows blocks g.updateImu) (matBRows ext blocks g pose)) i) ∧
      it.fxBefore = residualCost ext pose blocks ∧
      it.fxAfter = residualCost ext it.keyPoseAfter blocks) ∧
    it.keyPoseAfter = pose.compose (ext.Expmap it.xi) ∧
    (it.fxAfter < it.fxBefore →
      it.currentPoseInWorld = it.keyPoseAfter ∧ it.lambda = lam / 10 ∧
        it.fxResult = it.fxAfter) ∧
    (¬ it.fxAfter < it.fxBefore →
      it.currentPoseInWorld = pose ∧ it.lambda = lam * 10 ∧ it.fxResult = it.fxBefore) := by
  unfold cloud2MapIteration at h
  simp only [Option.bind_eq_bind, Option.bind_eq_some, Option.pure_def] at h
  obtain ⟨blocks, hb, h⟩ := h
  have hxi : ∀ (m : Vector6) (i : Fin 6), (![m 0, m 1, m 2, m 3, m 4, m 5] : Vector6) i = m i := by
    intro m i
    fin_cases i <;> rfl
  by_cases hempty : (matARows blocks g.updateImu).isEmpty = true
  · rw [if_pos hempty] at h
    exact Option.noConfusion h
  rw [if_neg hempty] at h
  split at h
  · next hlt =>
    simp only [Option.some.injEq] at h
    subst h
    refine ⟨rfl, rfl, ⟨blocks, hb, fun i => hxi _ i, rfl, rfl⟩, rfl, ?_, ?_⟩
    · intro _
      exact ⟨rfl, rfl, rfl⟩
    · intro hn
      exact absurd hlt hn
  · next hlt =>
    simp only [Option.some.injEq] at h
    subst h
    refine ⟨rfl, rfl, ⟨blocks, hb, fun i => hxi _ i, rfl, rfl⟩, rfl, ?_, ?_⟩
    · intro hn
      exact absurd hn hlt
    · intro _
      exact ⟨rfl, rfl, rfl⟩

theorem cloud2MapLoop_law (ext : Ext) (g : Graph) (fw fp : Cloud) (cs : List Correspondence)
    (P : Iteration → Prop)
    (hP : ∀ pose lam it, 0 < lam → cloud2MapIteration ext g fw fp cs pose lam = some it →
      P it ∧ 0 < it.lambda) :
    ∀ (n : Nat) (pose : Pose3) (lam : ℚ) (r : Pose3 × List Iteration), 0 < lam →
      cloud2MapLoop ext g fw fp cs n pose lam = some r →
      (∀ it ∈ r.2, P it) ∧ Iteration.consecutive pose lam r.2 r.1 := by
  intro n
  induction n with
  | zero =>
    intro pose lam r _ h
    simp only [cloud2MapLoop, Option.some.injEq] at h
    subst h
    exact ⟨by simp, rfl⟩
  | succ n ih =>
    intro pose lam r hlam h
    simp only [cloud2MapLoop, Option.bind_eq_bind, Option.bind_eq_some, Option.pure_def] at h
    obtain ⟨it, hit, h⟩ := h
    obtain ⟨hPit, hpos⟩ := hP pose lam it hlam hit
    obtain ⟨hkb, hlb, _⟩ := cloud2MapIteration_some hit
    split at h
    · simp only [Option.some.injEq] at h
      subst h
      refine ⟨by simpa using hPit, hkb, hlb, rfl⟩
    · simp only [Option.bind_eq_bind, Option.bind_eq_some, Option.some.injEq] at h
      obtain ⟨r1, hr1, rfl⟩ := h
      obtain ⟨hall, hcons⟩ := ih _ _ r1 hpos hr1
      refine ⟨?_, hkb, hlb, hcons⟩
      intro it1 hmem
      simp only [List.mem_cons] at hmem
      rcases hmem with rfl | hmem
      · exact hPit
      · exact hall it1 hmem

/-- C3: in every pass of the registration loop of `_cloud2Map`, the damping
factor starting at 1e-4, the costs `fxBefore` and `fxAfter` are the total
squared residuals at the pose held before the step and at that pose composed
with `Expmap` of the solved 6-vector; when `fxAfter < fxBefore` the pose
becomes the composed pose, the cost after is at most the cost before and
lambda is divided by 10; otherwise the pose is the one held before the step
and lambda is multiplied by 10 and strictly larger; lambda is positive on
entry to and at the end of every pass. -/
theorem registration_step_accept_reject (ext : Ext) (g : Graph) (final : Pose3)
    (passes : List Iteration) (h : g._cloud2MapTrace ext = some (final, passes)) :
    Iteration.consecutive g.currentPoseInWorld lambdaInit passes final ∧
    ∀ it ∈ passes,
      0 < it.lambdaBefore ∧ 0 < it.lambda ∧
      (∃ blocks, buildBlocks ext it.keyPoseBefore.R g.frameInWorld g.currentFeatureCloud
          g.cloudMapFull (g.overlapCorrespondences ext) = some blocks ∧
        (∀ i, it.xi i = ext.solve
          (matAtA (matARows blocks g.updateImu) + it.lambdaBefore • Matrix.diagonal
            (fun k => matAtA (matARows blocks g.updateImu) k k))
          (matAtB (matARows blocks g.updateImu) (matBRows ext blocks g it.keyPoseBefore)) i) ∧
        it.fxBefore = residualCost ext it.keyPoseBefore blocks ∧
        it.fxAfter = residualCost ext (it.keyPoseBefore.compose (ext.Expmap it.xi)) blocks) ∧
      (it.fxAfter < it.fxBefore →
        it.currentPoseInWorld = it.keyPoseBefore.compose (ext.Expmap it.xi) ∧
        it.fxAfter ≤ it.fxBefore ∧ it.lambda = it.lambdaBefore / 10) ∧
      (¬ it.fxAfter < it.fxBefore →
        it.currentPoseInWorld = it.keyPoseBefore ∧ it.lambda = it.lambdaBefore * 10 ∧
        it.lambdaBefore < it.lambda) := by
  unfold Graph._cloud2MapTrace at h
  split at h
  · simp only [Option.some.injEq, Prod.mk.injEq] at h
    obtain ⟨rfl, rfl⟩ := h
    exact ⟨rfl, by simp⟩
  · have hinit : (0 : ℚ) < lambdaInit := by norm_num [lambdaInit]
    have key := cloud2MapLoop_law ext g g.frameInWorld g.currentFeatureCloud
      (g.overlapCorrespondences ext)
      (fun it =>
        0 < it.lambdaBefore ∧ 0 < it.lambda ∧
        (∃ blocks, buildBlocks ext it.keyPoseBefore.R g.frameInWorld g.currentFeatureCloud
            g.cloudMapFull (g.overlapCorrespondences ext) = some blocks ∧
          (∀ i, it.xi i = ext.solve
            (matAtA (matARows blocks g.updateImu) + it.lambdaBefore • Matrix.diagonal
              (fun k => matAtA (matARows blocks g.updateImu) k k))
            (matAtB (matARows blocks g.updateImu) (matBRows ext blocks g it.keyPoseBefore)) i) ∧
          it.fxBefore = residualCost ext it.keyPoseBefore blocks ∧
          it.fxAfter = residualCost ext (it.keyPoseBefore.compose (ext.Expmap it.xi)) blocks) ∧
        (it.fxAfter < it.fxBefore →
          it.currentPoseInWorld = it.keyPoseBefore.compose (ext.Expmap it.xi) ∧
          it.fxAfter ≤ it.fxBefore ∧ it.lambda = it.lambdaBefore / 10) ∧
        (¬ it.fxAfter < it.fxBefore →
          it.currentPoseInWorld = it.keyPoseBefore ∧ it.lambda = it.lambdaBefore * 10 ∧
          it.lambdaBefore < it.lambda))
      (by
        intro pose lam it hlam hit
        obtain ⟨hkb, hlb, ⟨blocks, hb, hxi, hfb, hfa⟩, hka, hacc, hrej⟩ :=
          cloud2MapIteration_some hit
        have hpos : 0 < it.lambda := by
          by_cases hlt : it.fxAfter < it.fxBefore
          · rw [(hacc hlt).2.1]; positivity
          · rw [(hrej hlt).2.1]; positivity
        refine ⟨⟨by rw [hlb]; exact hlam, hpos, ⟨blocks, ?_, ?_, ?_, ?_⟩, ?_, ?_⟩, hpos⟩
        · rw [hkb]; exact hb
        · rw [hkb, hlb]; exact hxi
        · rw [hkb]; exact hfb
        · rw [hkb, ← hka]; exact hfa
        · intro hlt
          obtain ⟨h1, h2, _⟩ := hacc hlt
          exact ⟨by rw [h1, hka, hkb], le_of_lt hlt, by rw [h2, hlb]⟩
        · intro hlt
          obtain ⟨h1, h2, _⟩ := hrej hlt
          refine ⟨by rw [h1, hkb], by rw [h2, hlb], ?_⟩
          rw [h2, hlb]
          linarith)
      g.maxIterSmoothing g.currentPoseInWorld lambdaInit (final, passes) hinit h
    exact ⟨key.2, key.1⟩

/-- Witness for C3: on the five-point state the loop makes one pass, which is
accepted. -/
theorem registration_step_accept_reject_witness :
    ∃ final it, demoFivePoints._cloud2MapTrace demoExt = some (final, [it]) ∧
      it.lambdaBefore = lambdaInit ∧ it.fxAfter < it.fxBefore ∧
      it.currentPoseInWorld = it.keyPoseBefore.compose (demoExt.Expmap it.xi) ∧
      it.lambda = it.lambdaBefore / 10 := by
  have h : (demoFivePoints._cloud2MapTrace demoExt).bind (fun r =>
      match r.2 with
      | [it] => some (decide (it.fxAfter < it.fxBefore))
      | _ => none) = some true := by
    decide!
  simp only [Option.bind_eq_some] at h
  obtain ⟨⟨final, passes⟩, hr, hm⟩ := h
  match passes, hm with
  | [it], hm =>
    simp only [Option.some.injEq, decide_eq_true_eq] at hm
    obtain ⟨hcons, hall⟩ := registration_step_accept_reject demoExt demoFivePoints final [it] hr
    obtain ⟨_, _, _, hacc, _⟩ := hall it (by simp)
    exact ⟨final, it, hr, hcons.2.1, hm, (hacc hm).1, (hacc hm).2.2⟩

/-! ## Registration without correspondences -/

/-- With an inertial prior and no correspondence every pass is rejected: the
loop returns the pose it was entered with. -/
theorem cloud2MapLoop_nil_prior (ext : Ext) (g : Graph) (fw fp : Cloud)
    (hu : g.updateImu = true) :
    ∀ (n : Nat) (pose : Pose3) (lam : ℚ),
      ∃ passes, cloud2MapLoop ext g fw fp [] n pose lam = some (pose, passes) := by
  have hne : (matARows [] g.updateImu).isEmpty = false := by
    rw [hu]
    rfl
  intro n
  induction n with
  | zero =>
    intro pose lam
    exact ⟨[], rfl⟩
  | succ n ih =>
    intro pose lam
    obtain ⟨passes, hp⟩ := ih pose (lam * 10)
    simp only [cloud2MapLoop, cloud2MapIteration, buildBlocks, Option.bind_eq_bind,
      Option.some_bind, hne, Bool.false_eq_true, if_false, residualCost_nil,
      lt_self_iff_false, Option.pure_def]
    split
    · exact ⟨_, rfl⟩
    · rw [hp]
      exact ⟨_, rfl⟩

/-- Without an inertial prior and without correspondences the first pass of
the loop stops the program. -/
theorem cloud2MapLoop_nil_no_prior (ext : Ext) (g : Graph) (fw fp : Cloud)
    (hu : g.updateImu = false) (n : Nat) (pose : Pose3) (lam : ℚ) :
    cloud2MapLoop ext g fw fp [] (n + 1) pose lam = none := by
  have he : (matARows [] g.updateImu).isEmpty = true := by
    rw [hu]
    rfl
  simp only [cloud2MapLoop, cloud2MapIteration, buildBlocks, Option.bind_eq_bind,
    Option.some_bind, he, if_true, Option.none_bind]

/-- C4 (code evaluated at the failing input): with an empty trimmed
correspondence set and an inertial prior, `_cloud2Map` returns the state, and
so the pose, as it was, whatever the linear solve returns. Without a prior,
in a state with a keyframe and at least one pass allowed, `matA` has no row
and the first pass stops the program at the product of empty matrices:
`_cloud2Map` does not return, so there is no pose after it. So it is for the
one-point state, whose single reciprocal match is trimmed away. -/
theorem cloud2Map_no_correspondences_stops_without_prior :
    (∀ (ext : Ext) (g : Graph), g.overlapCorrespondences ext = [] → g.updateImu = true →
      g._cloud2Map ext = some g) ∧
    (∀ (ext : Ext) (g : Graph), g.overlapCorrespondences ext = [] → g.updateImu = false →
      1 ≤ g.cloudKeyFrames.length → 1 ≤ g.maxIterSmoothing → g._cloud2Map ext = none) ∧
    (demoOnePoint.overlapCorrespondences demoExt = [] ∧ demoOnePoint.updateImu = false ∧
      demoOnePoint.cloudKeyFrames.length = 1 ∧ demoOnePoint.maxIterSmoothing = 5 ∧
      demoOnePoint._cloud2Map demoExt = none) ∧
    ¬ ∀ (ext : Ext) (g : Graph), g.overlapCorrespondences ext = [] →
        ∃ g1, g._cloud2Map ext = some g1 ∧ g1.currentPoseInWorld = g.currentPoseInWorld := by
  have hstop : ∀ (ext : Ext) (g : Graph), g.overlapCorrespondences ext = [] →
      g.updateImu = false → 1 ≤ g.cloudKeyFrames.length → 1 ≤ g.maxIterSmoothing →
      g._cloud2Map ext = none := by
    intro ext g h hu hk hn
    unfold Graph._cloud2Map Graph._cloud2MapTrace
    rw [if_neg (by omega), h]
    obtain ⟨n, hn1⟩ : ∃ n, g.maxIterSmoothing = n + 1 := ⟨g.maxIterSmoothing - 1, by omega⟩
    rw [hn1, cloud2MapLoop_nil_no_prior ext g _ _ hu]
    rfl
  have hdemo : demoOnePoint.overlapCorrespondences demoExt = [] := by
    with_unfolding_all decide
  have hnone : demoOnePoint._cloud2Map demoExt = none :=
    hstop demoExt demoOnePoint hdemo rfl (by decide) (by decide)
  refine ⟨?_, hstop, ⟨hdemo, rfl, rfl, rfl, hnone⟩, ?_⟩
  · intro ext g h hu
    unfold Graph._cloud2Map Graph._cloud2MapTrace
    split
    · rfl
    · rw [h]
      obtain ⟨passes, hp⟩ := cloud2MapLoop_nil_prior ext g g.frameInWorld g.currentFeatureCloud
        hu g.maxIterSmoothing g.currentPoseInWorld lambdaInit
      rw [hp]
      rfl
  · intro hall
    obtain ⟨g1, hg1, _⟩ := hall demoExt demoOnePoint hdemo
    rw [hnone] at hg1
    exact Option.noConfusion hg1

/-- C5 (code evaluated at the failing input): with four correspondences left
after trimming, fewer than 10, `_cloud2Map` still builds and solves the
system and moves the pose: the claim that the pose is unchanged whenever fewer
than 10 correspondences survive does not hold of the code. -/
theorem cloud2Map_few_correspondences_moves_pose :
    ¬ ∀ (ext : Ext) (g g1 : Graph), (g.overlapCorrespondences ext).length < 10 →
        g._cloud2Map ext = some g1 → g1.currentPoseInWorld = g.currentPoseInWorld := by
  intro hall
  have h : (demoFivePoints._cloud2Map demoExt).map
      (fun g1 => decide (g1.currentPoseInWorld.t 0 = 10000 / 10001)) = some true := by
    decide!
  simp only [Option.map_eq_some', decide_eq_true_eq] at h
  obtain ⟨g1, hg1, ht⟩ := h
  have hlen : (demoFivePoints.overlapCorrespondences demoExt).length < 10 := by
    with_unfolding_all decide
  have := hall demoExt demoFivePoints g1 hlen hg1
  rw [this] at ht
  have h0 : demoFivePoints.currentPoseInWorld.t 0 = 0 := rfl
  rw [h0] at ht
  norm_num at ht

/-! ## Freshness of the inputs -/

theorem processIMU_flags {ext : Ext} {g g1 : Graph} (h : g._processIMU ext = some g1) :
    g1.newLaserOdometry = g.newLaserOdometry ∧ g1.newMap = g.newMap ∧
    g1.newGroundPlane = g.newGroundPlane := by
  unfold Graph._processIMU at h
  split at h
  · simp only [Option.bind_eq_bind, Option.bind_eq_some, Option.pure_def, Option.some.injEq] at h
    obtain ⟨g2, h2, rfl⟩ := h
    unfold Graph._initializePreintegration at h2
    simp only [Option.bind_eq_bind, Option.bind_eq_some, Option.pure_def, Option.some.injEq] at h2
    obtain ⟨e1, _, e2, _, rfl⟩ := h2
    exact ⟨rfl, rfl, rfl⟩
  · split at h
    · simp only [Option.bind_eq_bind, Option.bind_eq_some, Option.pure_def, Option.some.injEq] at h
      obtain ⟨g2, h2, rfl⟩ := h
      unfold Graph._preintegrateImuMeasurements at h2
      simp only [Option.bind_eq_bind, Option.bind_eq_some, Option.pure_def,
        Option.some.injEq] at h2
      obtain ⟨r, _, rfl⟩ := h2
      exact ⟨rfl, rfl, rfl⟩
    · simp only [Option.some.injEq] at h
      subst h
      exact ⟨rfl, rfl, rfl⟩

theorem cycleFront_flags {ext : Ext} {g g1 : Graph} (h : g.cycleFront ext = some g1) :
    g1.newLaserOdometry = g.newLaserOdometry ∧ g1.newMap = g.newMap ∧
    g1.newGroundPlane = false := by
  unfold Graph.cycleFront Graph.cycleRegistration at h
  simp only [Option.bind_eq_bind, Option.bind_eq_some] at h
  obtain ⟨g3, ⟨g2, h2, h3⟩, h4⟩ := h
  obtain ⟨T, rfl⟩ := cloud2Map_some h3
  obtain ⟨o, m, rfl⟩ := transformToGlobalMap_some h4
  obtain ⟨f1, f2, f3⟩ := processIMU_flags h2
  exact ⟨f1, f2, f3⟩

theorem performIsam_flags {ext : Ext} {g g1 : Graph} (h : g._performIsam ext = some g1) :
    g1.newLaserOdometry = g.newLaserOdometry ∧ g1.newMap = g.newMap ∧
    g1.newGroundPlane = g.newGroundPlane := by
  unfold Graph._performIsam at h
  split at h
  · simp only [Option.some.injEq] at h
    subst h
    exact ⟨rfl, rfl, rfl⟩
  · simp only [Option.bind_eq_bind, Option.bind_eq_some] at h
    obtain ⟨gf, hgf, hgu⟩ := h
    have hf : gf.newLaserOdometry = g.newLaserOdometry ∧ gf.newMap = g.newMap ∧
        gf.newGroundPlane = g.newGroundPlane := by
      unfold Graph._performIsamFactors at hgf
      split at hgf
      · simp only [Option.bind_eq_bind, Option.bind_eq_some, Option.pure_def,
          Option.some.injEq] at hgf
        obtain ⟨e1, _, rfl⟩ := hgf
        exact ⟨rfl, rfl, rfl⟩
      · simp only [Option.bind_eq_bind, Option.bind_eq_some, Option.pure_def] at hgf
        obtain ⟨e1, _, hgf⟩ := hgf
        split at hgf
        · simp only [Option.bind_eq_bind, Option.bind_eq_some, Option.pure_def,
            Option.some.injEq] at hgf
          obtain ⟨e2, _, e3, _, rfl⟩ := hgf
          exact ⟨rfl, rfl, rfl⟩
        · simp only [Option.some.injEq] at hgf
          subst hgf
          exact ⟨rfl, rfl, rfl⟩
    unfold Graph._performIsamUpdate at hgu
    simp only [Option.bind_eq_bind, Option.bind_eq_some, Option.pure_def] at hgu
    obtain ⟨isam1, _, isam2, _, g2, hg2, pose, _, hg1⟩ := hgu
    simp only [Option.some.injEq] at hg1
    obtain ⟨st, b, pre, u, rfl⟩ := performIsamImu_some hg2
    subst hg1
    exact hf

/-- C6 (code evaluated at the failing input): an executed cycle that returns
clears `newGroundPlane` only; `newLaserOdometry` and `newMap` are still up,
so any ground-plane cloud alone makes the guard of `runOnce` true again.
After one odometry message carrying a displacement of 0.3, one feature cloud
and one ground-plane cloud a first cycle runs; after a second ground-plane
cloud alone the guard holds, `runOnce` executes a cycle, and the first step
of that cycle applies the old displacement a second time, from 0.3 to 0.6
along x. -/
theorem runOnce_runs_on_stale_odometry_and_scan :
    (∀ (ext : Ext) (g g1 : Graph), g.cycleRuns = true → g.runOnce ext = some g1 →
      g1.newLaserOdometry = true ∧ g1.newMap = true ∧ g1.newGroundPlane = false) ∧
    (∀ (ext : Ext) (g g1 : Graph) (pointCloud2Msg : PointCloud2), g.cycleRuns = true →
      g.runOnce ext = some g1 → (g1.groundPlaneHandler pointCloud2Msg).cycleRuns = true) ∧
    ∃ g, Graph.run demoExt demoInit demoStaleOdometry = some g ∧
      g.cycleRuns = true ∧
      g.runOnce demoExt = (g.cycleFront demoExt).bind (fun g4 => g4._performIsam demoExt) ∧
      g.cloudKeyPositions.length = 1 ∧
      g.currentPoseInWorld.t 0 = 3 / 10 ∧
      (g._incrementPosition demoExt).currentPoseInWorld.t 0 = 3 / 5 := by
  have hflags : ∀ (ext : Ext) (g g1 : Graph), g.cycleRuns = true → g.runOnce ext = some g1 →
      g1.newLaserOdometry = true ∧ g1.newMap = true ∧ g1.newGroundPlane = false := by
    intro ext g g1 hc h
    have hg : g.newLaserOdometry = true ∧ g.newMap = true := by
      simp only [Graph.cycleRuns, Bool.and_eq_true] at hc
      exact ⟨hc.1.1, hc.1.2⟩
    unfold Graph.runOnce at h
    rw [if_pos hc] at h
    simp only [Option.bind_eq_some] at h
    obtain ⟨g4, h4, h5⟩ := h
    obtain ⟨a1, a2, a3⟩ := cycleFront_flags h4
    obtain ⟨b1, b2, b3⟩ := performIsam_flags h5
    exact ⟨by rw [b1, a1, hg.1], by rw [b2, a2, hg.2], by rw [b3, a3]⟩
  refine ⟨hflags, ?_, ?_⟩
  · intro ext g g1 m hc h
    obtain ⟨h1, h2, _⟩ := hflags ext g g1 hc h
    simp [Graph.cycleRuns, Graph.groundPlaneHandler, h1, h2]
  · have h : (Graph.run demoExt demoInit demoStaleOdometry).map (fun g =>
        decide (g.cycleRuns = true ∧ g.cloudKeyPositions.length = 1 ∧
          g.currentPoseInWorld.t 0 = 3 / 10 ∧
          (g._incrementPosition demoExt).currentPoseInWorld.t 0 = 3 / 5)) = some true := by
      decide!
    simp only [Option.map_eq_some', decide_eq_true_eq] at h
    obtain ⟨g, hg, h1, h2, h3, h4⟩ := h
    refine ⟨g, hg, h1, ?_, h2, h3, h4⟩
    unfold Graph.runOnce
    rw [if_pos h1]

/-! ## Map consolidation within the cycle -/

theorem initializePreintegration_mapInputs {g g1 : Graph}
    (h : g._initializePreintegration = some g1) :
    g1.mapInputs = g.mapInputs ∧ g1.currentPoseInWorld = g.currentPoseInWorld := by
  unfold Graph._initializePreintegration at h
  simp only [Option.bind_eq_bind, Option.bind_eq_some, Option.pure_def, Option.some.injEq] at h
  obtain ⟨e1, _, e2, _, rfl⟩ := h
  exact ⟨rfl, rfl⟩

theorem preintegrateImuMeasurements_mapInputs {ext : Ext} {g g1 : Graph}
    (h : g._preintegrateImuMeasurements ext = some g1) :
    g1.mapInputs = g.mapInputs ∧ g1.currentPoseInWorld = g.currentPoseInWorld := by
  unfold Graph._preintegrateImuMeasurements at h
  simp only [Option.bind_eq_bind, Option.bind_eq_some, Option.pure_def, Option.some.injEq] at h
  obtain ⟨r, _, rfl⟩ := h
  exact ⟨rfl, rfl⟩

theorem processIMU_mapInputs {ext : Ext} {g g1 : Graph}
    (h : g._processIMU ext = some g1) :
    g1.mapInputs = g.mapInputs ∧ g1.currentPoseInWorld = g.currentPoseInWorld := by
  unfold Graph._processIMU at h
  split at h
  · simp only [Option.bind_eq_bind, Option.bind_eq_some, Option.pure_def, Option.some.injEq] at h
    obtain ⟨g2, h2, rfl⟩ := h
    have := initializePreintegration_mapInputs h2
    simpa [Graph.mapInputs] using this
  · split at h
    · simp only [Option.bind_eq_bind, Option.bind_eq_some, Option.pure_def, Option.some.injEq] at h
      obtain ⟨g2, h2, rfl⟩ := h
      have := preintegrateImuMeasurements_mapInputs h2
      simpa [Graph.mapInputs] using this
    · simp only [Option.some.injEq] at h
      subst h
      exact ⟨rfl, rfl⟩

theorem cycleRegistration_mapInputs {ext : Ext} {g g1 : Graph}
    (h : g.cycleRegistration ext = some g1) : g1.mapInputs = g.mapInputs := by
  unfold Graph.cycleRegistration at h
  simp only [Option.bind_eq_bind, Option.bind_eq_some] at h
  obtain ⟨g2, h2, h3⟩ := h
  obtain ⟨T, rfl⟩ := cloud2Map_some h3
  have := (processIMU_mapInputs h2).1
  simpa [Graph.mapInputs, Graph._incrementPosition] using this

theorem addPointsToCloud_some (cloud : Cloud) :
    ∀ (idxs : List Nat) (st r : Cloud × Cloud), addPointsToCloud cloud idxs st = some r →
      ∃ added, r = (st.1 ++ added, st.2 ++ added) ∧
        idxs.map (fun i => cloud[i]?) = added.map some := by
  intro idxs
  induction idxs with
  | nil =>
    intro st r h
    simp only [addPointsToCloud, Option.some.injEq] at h
    subst h
    exact ⟨[], by simp, rfl⟩
  | cons i rest ih =>
    intro st r h
    unfold addPointsToCloud at h
    split at h
    · simp at h
    · next p hp =>
      obtain ⟨added, hr, hmap⟩ := ih _ r h
      refine ⟨p :: added, ?_, ?_⟩
      · rw [hr]
        simp
      · simp [hp, hmap]

theorem transformToGlobalMap_added {ext : Ext} {g g1 : Graph}
    (h : g._transformToGlobalMap ext = some g1) :
    ∃ added, g1 = { g with octreeMap := g.octreeMap ++ added,
                           cloudMapFull := g.cloudMapFull ++ added } ∧
      (getPointIndicesFromNewVoxels ext g.voxelRes g.cloudMapFull
          (transformPointCloud g.currentFeatureCloud g.currentPoseInWorld)).map
        (fun i => (transformPointCloud g.currentFeatureCloud g.currentPoseInWorld)[i]?)
        = added.map some := by
  unfold Graph._transformToGlobalMap at h
  simp only [Option.bind_eq_bind, Option.bind_eq_some, Option.pure_def, Option.some.injEq] at h
  obtain ⟨r, hr, rfl⟩ := h
  obtain ⟨added, hadd, hmap⟩ := addPointsToCloud_some _ _ _ _ hr
  refine ⟨added, ?_, hmap⟩
  rw [hadd]

theorem performIsam_cloudMapFull {ext : Ext} {g g1 : Graph}
    (h : g._performIsam ext = some g1) : g1.cloudMapFull = g.cloudMapFull := by
  unfold Graph._performIsam at h
  split at h
  · simp only [Option.some.injEq] at h
    subst h
    rfl
  · simp only [Option.bind_eq_bind, Option.bind_eq_some] at h
    obtain ⟨gf, hgf, hgu⟩ := h
    obtain ⟨_, _, _, _, hm, _⟩ := performIsamFactors_some hgf
    obtain ⟨_, _, _, _, _, _, _, hm1⟩ := performIsamUpdate_some hgu
    rw [hm1, hm]

/-- C7 (counterexample): a cycle at rest admits no keyframe, yet the point of
its scan, lying in a voxel the map does not occupy, is appended to
`cloudMapFull`. -/
theorem map_grows_without_keyframe :
    ¬ ∀ (ext : Ext) (g g1 : Graph), g.cycleRuns = true → g.runOnce ext = some g1 →
        g1.cloudKeyPositions.length = g.cloudKeyPositions.length →
        g1.cloudMapFull = g.cloudMapFull := by
  intro hall
  have h : (Graph.run demoExt demoInit demoSecondScan).bind (fun g =>
      (g.runOnce demoExt).map (fun g1 =>
        decide (g.cycleRuns = true ∧
          g1.cloudKeyPositions.length = g.cloudKeyPositions.length ∧
          g.cloudMapFull.length = 3 ∧ g1.cloudMapFull.length = 4))) = some true := by
    decide!
  simp only [Option.bind_eq_some, Option.map_eq_some', decide_eq_true_eq] at h
  obtain ⟨g, _, g1, hg1, hc, hlen, hm, hm1⟩ := h
  have := hall demoExt g g1 hc hg1 hlen
  rw [this] at hm1
  omega

/-- C7 (amended): in every executed cycle that returns, whether or not it
admits a keyframe, the points appended to `cloudMapFull` are the points of
the current scan, transformed by `currentPoseInWorld` as `_cloud2Map` leaves
it, that change detection lists as lying in new voxels; the points the map
held are kept in place. The pose used is the one held before `_performIsam`
and the solver update. -/
theorem runOnce_consolidates_before_isam (ext : Ext) (g g1 : Graph)
    (hc : g.cycleRuns = true) (h : g.runOnce ext = some g1) :
    ∃ g3 added, g.cycleRegistration ext = some g3 ∧
      g1.cloudMapFull = g.cloudMapFull ++ added ∧
      (getPointIndicesFromNewVoxels ext g.voxelRes g.cloudMapFull
          (transformPointCloud g.currentFeatureCloud g3.currentPoseInWorld)).map
        (fun i => (transformPointCloud g.currentFeatureCloud g3.currentPoseInWorld)[i]?)
        = added.map some ∧
      ∀ p ∈ added, p ∈ transformPointCloud g.currentFeatureCloud g3.currentPoseInWorld := by
  unfold Graph.runOnce at h
  rw [if_pos hc] at h
  simp only [Graph.cycleFront, Option.bind_eq_some] at h
  obtain ⟨g4, ⟨g3, h3, h4⟩, h5⟩ := h
  obtain ⟨added, hg4, hmap⟩ := transformToGlobalMap_added h4
  have hin := cycleRegistration_mapInputs h3
  simp only [Graph.mapInputs, Prod.mk.injEq] at hin
  obtain ⟨hf, hm, _, hv⟩ := hin
  rw [hf, hm, hv] at hmap
  refine ⟨g3, added, h3, ?_, hmap, ?_⟩
  · rw [performIsam_cloudMapFull h5, hg4, ← hm]
  · intro p hp
    have hmem : some p ∈ added.map some := List.mem_map_of_mem some hp
    rw [← hmap] at hmem
    simp only [List.mem_map] at hmem
    obtain ⟨i, _, hi⟩ := hmem
    exact List.getElem?_mem hi

/-- Witness for C7 (amended): the cycle at rest appends the transformed scan
point although it admits no keyframe. -/
theorem runOnce_consolidates_before_isam_witness :
    ∃ g g1 g3 added, Graph.run demoExt demoInit demoSecondScan = some g ∧
      g.cycleRuns = true ∧ g.runOnce demoExt = some g1 ∧
      g.cycleRegistration demoExt = some g3 ∧
      g1.cloudKeyPositions.length = g.cloudKeyPositions.length ∧
      added.length = 1 ∧ g1.cloudMapFull = g.cloudMapFull ++ added ∧
      ∀ p ∈ added, p ∈ transformPointCloud g.currentFeatureCloud g3.currentPoseInWorld := by
  have h : (Graph.run demoExt demoInit demoSecondScan).bind (fun g =>
      (g.runOnce demoExt).map (fun g1 =>
        decide (g.cycleRuns = true ∧
          g1.cloudKeyPositions.length = g.cloudKeyPositions.length ∧
          g.cloudMapFull.length = 3 ∧ g1.cloudMapFull.length = 4))) = some true := by
    decide!
  simp only [Option.bind_eq_some, Option.map_eq_some', decide_eq_true_eq] at h
  obtain ⟨g, hg, g1, hg1, hc, hlen, hm, hm1⟩ := h
  obtain ⟨g3, added, h3, hmap, _, hmem⟩ := runOnce_consolidates_before_isam demoExt g g1 hc hg1
  refine ⟨g, g1, g3, added, hg, hc, hg1, h3, hlen, ?_, hmap, hmem⟩
  rw [hmap, List.length_append] at hm1
  omega

/-! ## Scans falling in new voxels -/

theorem transformPoint_finite (T : Pose3) (p : PointNormal) :
    (transformPoint T p).finite = p.finite := by
  unfold transformPoint
  split
  · next h => simp [h]
  · rfl

theorem filter_range_getElem? {α : Type} (p : α → Bool) (cloud : List α) :
    ((List.range cloud.length).filter (fun i => (cloud[i]?).elim false p)).map
      (fun i => cloud[i]?) = (cloud.filter p).map some := by
  induction cloud using List.reverseRecOn with
  | nil => rfl
  | append_singleton l a ih =>
    rw [List.length_append, List.length_singleton, List.range_succ, List.filter_append,
      List.map_append, List.filter_append, List.map_append]
    congr 1
    · rw [← ih]
      have hf : (List.range l.length).filter (fun i => ((l ++ [a])[i]?).elim false p)
          = (List.range l.length).filter (fun i => (l[i]?).elim false p) := by
        apply List.filter_congr
        intro i hi
        rw [List.mem_range] at hi
        rw [List.getElem?_append_left hi]
      rw [hf]
      apply List.map_congr_left
      intro i hi
      have hi1 := (List.mem_filter.mp hi).1
      rw [List.mem_range] at hi1
      rw [List.getElem?_append_left hi1]
    · by_cases hpa : p a = true <;> simp [hpa]

theorem addPointsToCloud_returns (cloud : Cloud) :
    ∀ (idxs : List Nat) (st : Cloud × Cloud), (∀ i ∈ idxs, i < cloud.length) →
      ∃ r, addPointsToCloud cloud idxs st = some r := by
  intro idxs
  induction idxs with
  | nil =>
    intro st _
    exact ⟨st, rfl⟩
  | cons i rest ih =>
    intro st h
    have hi : i < cloud.length := h i (by simp)
    unfold addPointsToCloud
    rw [List.getElem?_eq_getElem hi]
    exact ih _ (fun j hj => h j (by simp [hj]))

/-- C8: when every finite point of the transformed scan lies in a voxel that
holds no finite map point, `_transformToGlobalMap` returns, keeps the points
of `cloudMapFull` in place and appends after them the finite points of the
transformed scan, each once and in the order of the octree leaves, so that the
point count grows by the number of finite scan points, also when several of
them share a voxel. -/
theorem transformToGlobalMap_new_voxels (ext : Ext) (g : Graph)
    (hperm : ∀ l, (ext.leafOrder l).Perm l)
    (hnew : ∀ p ∈ transformPointCloud g.currentFeatureCloud g.currentPoseInWorld,
      p.finite = true → ∀ m ∈ g.cloudMapFull, m.finite = true →
        ext.voxel g.voxelRes m ≠ ext.voxel g.voxelRes p) :
    ∃ added, g._transformToGlobalMap ext = some { g with
        octreeMap := g.octreeMap ++ added, cloudMapFull := g.cloudMapFull ++ added } ∧
      added.Perm ((transformPointCloud g.currentFeatureCloud g.currentPoseInWorld).filter
        (fun p => p.finite)) ∧
      added.length = (g.currentFeatureCloud.filter (fun p => p.finite)).length ∧
      (g.cloudMapFull ++ added).length
        = g.cloudMapFull.length + (g.currentFeatureCloud.filter (fun p => p.finite)).length := by
  have hidx : getPointIndicesFromNewVoxels ext g.voxelRes g.cloudMapFull
        (transformPointCloud g.currentFeatureCloud g.currentPoseInWorld)
      = ext.leafOrder ((List.range
          (transformPointCloud g.currentFeatureCloud g.currentPoseInWorld).length).filter
          (fun i =>
            ((transformPointCloud g.currentFeatureCloud g.currentPoseInWorld)[i]?).elim false
              (fun p => p.finite))) := by
    unfold getPointIndicesFromNewVoxels
    congr 1
    apply List.filter_congr
    intro i _
    cases hc : (transformPointCloud g.currentFeatureCloud g.currentPoseInWorld)[i]? with
    | none => rfl
    | some p =>
      have hmem := List.getElem?_mem hc
      by_cases hfin : p.finite = true
      · have hany : g.cloudMapFull.any (fun m => m.finite &&
            decide (ext.voxel g.voxelRes m = ext.voxel g.voxelRes p)) = false := by
          rw [List.any_eq_false]
          intro m hm
          by_cases hmf : m.finite = true
          · simp [hmf, hnew p hmem hfin m hm hmf]
          · simp [hmf]
        simp [hfin, hany]
      · simp [hfin]
  have hbound : ∀ i ∈ getPointIndicesFromNewVoxels ext g.voxelRes g.cloudMapFull
        (transformPointCloud g.currentFeatureCloud g.currentPoseInWorld),
      i < (transformPointCloud g.currentFeatureCloud g.currentPoseInWorld).length := by
    intro i hi
    rw [hidx] at hi
    have := (hperm _).mem_iff.mp hi
    exact List.mem_range.mp (List.mem_filter.mp this).1
  obtain ⟨r, hr⟩ := addPointsToCloud_returns _ _ (g.octreeMap, g.cloudMapFull) hbound
  obtain ⟨added, hadd, hmap⟩ := addPointsToCloud_some _ _ _ _ hr
  have hp : added.Perm ((transformPointCloud g.currentFeatureCloud g.currentPoseInWorld).filter
      (fun p => p.finite)) := by
    have h1 : (added.map some).Perm
        (((transformPointCloud g.currentFeatureCloud g.currentPoseInWorld).filter
          (fun p => p.finite)).map some) := by
      rw [← hmap, hidx, ← filter_range_getElem?]
      apply List.Perm.map
      exact hperm _
    have h2 := h1.filterMap id
    simpa [List.filterMap_map] using h2
  have hlen : added.length = (g.currentFeatureCloud.filter (fun p => p.finite)).length := by
    rw [hp.length_eq, transformPointCloud, List.filter_map, List.length_map]
    congr 1
    apply List.filter_congr
    intro p _
    exact transformPoint_finite _ p
  refine ⟨added, ?_, hp, hlen, ?_⟩
  · unfold Graph._transformToGlobalMap
    simp only [Option.bind_eq_bind, hr, Option.some_bind, Option.pure_def, hadd]
  · rw [List.length_append, hlen]

/-- Witness for C8: two finite scan points of one new voxel and a non-finite
point; the map grows from one point to three. -/
theorem transformToGlobalMap_new_voxels_witness :
    ∃ added, demoNewVoxel._transformToGlobalMap demoExt = some { demoNewVoxel with
        octreeMap := demoNewVoxel.octreeMap ++ added,
        cloudMapFull := demoNewVoxel.cloudMapFull ++ added } ∧
      (demoNewVoxel.cloudMapFull ++ added).length = 3 := by
  obtain ⟨added, h1, _, _, h4⟩ := transformToGlobalMap_new_voxels demoExt demoNewVoxel
    (fun l => List.Perm.refl l) (by decide!)
  refine ⟨added, h1, ?_⟩
  rw [h4]
  decide

/-! ## Inertial preintegration -/

theorem preintegrateLoop_run (measurements : Int) (timeOdometry : ℚ) (hm : 0 < measurements)
    (next : ℚ × Vector6) (rest : List (ℚ × Vector6)) (hnext : timeOdometry < next.1) :
    ∀ (run : List (ℚ × Vector6)) (t : ℚ) (pre : PreintegratedCombinedMeasurements),
      (∀ m ∈ run, m.1 ≤ timeOdometry) →
      List.Chain (fun a b => a < b) t (run.map Prod.fst) →
      preintegrateLoop measurements timeOdometry 0 (run ++ next :: rest) t pre
        = some (next :: rest, lastStamp t run,
            { pre with integrated := pre.integrated ++ integratedRun t run }) := by
  intro run
  induction run with
  | nil =>
    intro t pre _ _
    simp [preintegrateLoop, hm, not_le.mpr hnext, integratedRun, lastStamp]
  | cons a run ih =>
    intro t pre hrun hchain
    have ha : a.1 ≤ timeOdometry := hrun a (by simp)
    have hrest : ∀ m ∈ run, m.1 ≤ timeOdometry := fun m hmem => hrun m (by simp [hmem])
    simp only [List.map_cons, List.chain_cons] at hchain
    obtain ⟨hlt, hchain⟩ := hchain
    have hdt : ¬ (a.1 - t ≤ 0) := by linarith
    simp only [List.cons_append, preintegrateLoop, hm, if_true, le_refl, Int.toNat_zero,
      List.getElem?_cons_zero, ha, Int.zero_sub, Int.reduceNeg, Int.reduceAdd,
      PreintegratedCombinedMeasurements.integrateMeasurement, hdt, if_false]
    rw [List.append_eq, ih _ _ hrest hchain]
    simp [integratedRun, lastStamp]

/-- A sample of the leading run whose stamp is not after the stamp integrated
before it stops the loop with the exception of `integrateMeasurement`. -/
theorem preintegrateLoop_nonpositive (measurements : Int) (timeOdometry : ℚ)
    (hm : 0 < measurements) (bad : ℚ × Vector6) (rest : List (ℚ × Vector6))
    (hbad : bad.1 ≤ timeOdometry) :
    ∀ (run : List (ℚ × Vector6)) (t : ℚ) (pre : PreintegratedCombinedMeasurements),
      (∀ m ∈ run, m.1 ≤ timeOdometry) →
      List.Chain (fun a b => a < b) t (run.map Prod.fst) →
      bad.1 ≤ lastStamp t run →
      preintegrateLoop measurements timeOdometry 0 (run ++ bad :: rest) t pre = none := by
  intro run
  induction run with
  | nil =>
    intro t pre _ _ hle
    have hdt : bad.1 - t ≤ 0 := by
      simp only [lastStamp] at hle
      linarith
    simp [preintegrateLoop, hm, hbad, PreintegratedCombinedMeasurements.integrateMeasurement,
      hdt]
  | cons a run ih =>
    intro t pre hrun hchain hle
    have ha : a.1 ≤ timeOdometry := hrun a (by simp)
    have hrest : ∀ m ∈ run, m.1 ≤ timeOdometry := fun m hmem => hrun m (by simp [hmem])
    simp only [List.map_cons, List.chain_cons] at hchain
    obtain ⟨hlt, hchain⟩ := hchain
    have hdt : ¬ (a.1 - t ≤ 0) := by linarith
    simp only [List.cons_append, preintegrateLoop, hm, if_true, le_refl, Int.toNat_zero,
      List.getElem?_cons_zero, ha, Int.zero_sub, Int.reduceNeg, Int.reduceAdd,
      PreintegratedCombinedMeasurements.integrateMeasurement, hdt, if_false]
    rw [List.append_eq]
    exact ih _ _ hrest hchain hle

/-- C9 (code evaluated at the failing input): `_preintegrateImuMeasurements`
has no test on `dt`. A queued sample stamped at or before `timeOdometry` is
handed to `integrateMeasurement` with `dt` equal to its stamp minus the stamp
handed over before it (`timePrevPreintegratedImu` for the first). When the
samples of the leading run are stamped in increasing order after
`timePrevPreintegratedImu` and a later sample follows, the function returns
with the whole run integrated. A sample of the run stamped at or before its
predecessor is not dropped: `integrateMeasurement` is called with `dt <= 0`
and throws, and the function does not return. So it is for stamps 2, 1, 5
with previous stamp 0 and odometry time 3, where dropping the second sample
would leave the queue `[5]` and one integrated sample. -/
theorem preintegrate_stops_on_nonpositive_dt :
    (∀ (ext : Ext) (g : Graph) (run : List (ℚ × Vector6)) (next : ℚ × Vector6)
        (rest : List (ℚ × Vector6)),
      g.imuMeasurements = run ++ next :: rest →
      (∀ m ∈ run, m.1 ≤ g.timeOdometry) → g.timeOdometry < next.1 →
      List.Chain (fun a b => a < b) g.timePrevPreintegratedImu (run.map Prod.fst) →
      ∃ g1, g._preintegrateImuMeasurements ext = some g1 ∧
        g1.imuMeasurements = next :: rest ∧
        g1.timePrevPreintegratedImu = lastStamp g.timePrevPreintegratedImu run ∧
        g1.preintegrated.integrated
          = g.preintegrated.integrated ++ integratedRun g.timePrevPreintegratedImu run) ∧
    (∀ (ext : Ext) (g : Graph) (run : List (ℚ × Vector6)) (bad : ℚ × Vector6)
        (rest : List (ℚ × Vector6)),
      g.imuMeasurements = run ++ bad :: rest →
      (∀ m ∈ run, m.1 ≤ g.timeOdometry) → bad.1 ≤ g.timeOdometry →
      List.Chain (fun a b => a < b) g.timePrevPreintegratedImu (run.map Prod.fst) →
      bad.1 ≤ lastStamp g.timePrevPreintegratedImu run →
      g._preintegrateImuMeasurements ext = none) ∧
    (demoOutOfOrder.imuMeasurements = [(2, 0), (1, 0), (5, 0)] ∧
      demoOutOfOrder.timePrevPreintegratedImu = 0 ∧ demoOutOfOrder.timeOdometry = 3 ∧
      demoOutOfOrder._preintegrateImuMeasurements demoExt = none) ∧
    ¬ ∀ (ext : Ext) (g : Graph) (run : List (ℚ × Vector6)) (next : ℚ × Vector6)
        (rest : List (ℚ × Vector6)),
      g.imuMeasurements = run ++ next :: rest →
      (∀ m ∈ run, m.1 ≤ g.timeOdometry) → g.timeOdometry < next.1 →
      ∃ g1, g._preintegrateImuMeasurements ext = some g1 ∧
        g1.imuMeasurements = next :: rest ∧
        ∀ s ∈ g1.preintegrated.integrated, s ∈ g.preintegrated.integrated ∨ 0 < s.2.2 := by
  have hpos : ∀ (g : Graph) (l : List (ℚ × Vector6)) (x : ℚ × Vector6)
      (rest : List (ℚ × Vector6)), g.imuMeasurements = l ++ x :: rest →
      (0 : Int) < (g.imuMeasurements.length : Int) := by
    intro g l x rest hq
    rw [hq]
    simp
    omega
  have hbadgen : ∀ (ext : Ext) (g : Graph) (run : List (ℚ × Vector6)) (bad : ℚ × Vector6)
      (rest : List (ℚ × Vector6)),
      g.imuMeasurements = run ++ bad :: rest →
      (∀ m ∈ run, m.1 ≤ g.timeOdometry) → bad.1 ≤ g.timeOdometry →
      List.Chain (fun a b => a < b) g.timePrevPreintegratedImu (run.map Prod.fst) →
      bad.1 ≤ lastStamp g.timePrevPreintegratedImu run →
      g._preintegrateImuMeasurements ext = none := by
    intro ext g run bad rest hq hrun hbad hchain hle
    have hloop := preintegrateLoop_nonpositive (g.imuMeasurements.length : Int) g.timeOdometry
      (hpos g run bad rest hq) bad rest hbad run g.timePrevPreintegratedImu g.preintegrated
      hrun hchain hle
    rw [← hq] at hloop
    unfold Graph._preintegrateImuMeasurements
    simp only [Option.bind_eq_bind, hloop, Option.none_bind]
  have hnone : demoOutOfOrder._preintegrateImuMeasurements demoExt = none :=
    hbadgen demoExt demoOutOfOrder [(2, 0)] (1, 0) [(5, 0)] rfl (by decide!) (by decide!)
      (List.Chain.cons (by decide!) List.Chain.nil) (by decide!)
  refine ⟨?_, hbadgen, ⟨rfl, rfl, rfl, hnone⟩, ?_⟩
  · intro ext g run next rest hq hrun hnext hchain
    have hloop := preintegrateLoop_run (g.imuMeasurements.length : Int) g.timeOdometry
      (hpos g run next rest hq) next rest hnext run g.timePrevPreintegratedImu g.preintegrated
      hrun hchain
    rw [← hq] at hloop
    unfold Graph._preintegrateImuMeasurements
    simp only [Option.bind_eq_bind, hloop, Option.some_bind, Option.pure_def]
    exact ⟨_, rfl, rfl, rfl, rfl⟩
  · intro hall
    obtain ⟨g1, hg1, _⟩ := hall demoExt demoOutOfOrder [(2, 0), (1, 0)] (5, 0) [] rfl
      (by decide!) (by decide!)
    rw [hnone] at hg1
    exact Option.noConfusion hg1

/-! ## Velocity and bias nodes -/

/-- C10 (code evaluated at the failing input): keyframe 0 is admitted in a
cycle without inertial data; two inertial samples then arrive and the next
cycle admits keyframe 1. Its pending factors hold a combined inertial factor
over `X(0), V(0), X(1), V(1), B(0), B(1)` while neither the solver nor the
pending initial guesses have a value for `V(0)` or `B(0)`, and the solver
update of `_performIsam` fails. -/
theorem combined_factor_on_missing_velocity_and_bias :
    ∃ g4 g5, (Graph.run demoExt demoInit demoLateImu).bind (Graph.cycleFront demoExt) = some g4 ∧
      g4._performIsamFactors = some g5 ∧
      g5._graph.any (fun f => decide (f.keys =
        [Key.X 0, Key.V 0, Key.X 1, Key.V 1, Key.B 0, Key.B 1])) = true ∧
      Values.exists (g5.isam.theta ++ g5.initialEstimate) (Key.V 0) = false ∧
      Values.exists (g5.isam.theta ++ g5.initialEstimate) (Key.B 0) = false ∧
      Values.exists (g5.isam.theta ++ g5.initialEstimate) (Key.V 1) = true ∧
      Values.exists (g5.isam.theta ++ g5.initialEstimate) (Key.B 1) = true ∧
      g4._performIsam demoExt = none := by
  have h : ((Graph.run demoExt demoInit demoLateImu).bind (Graph.cycleFront demoExt)).bind
      (fun g4 => g4._performIsamFactors.map (fun g5 =>
        decide (g5._graph.any (fun f => decide (f.keys =
            [Key.X 0, Key.V 0, Key.X 1, Key.V 1, Key.B 0, Key.B 1])) = true ∧
          Values.exists (g5.isam.theta ++ g5.initialEstimate) (Key.V 0) = false ∧
          Values.exists (g5.isam.theta ++ g5.initialEstimate) (Key.B 0) = false ∧
          Values.exists (g5.isam.theta ++ g5.initialEstimate) (Key.V 1) = true ∧
          Values.exists (g5.isam.theta ++ g5.initialEstimate) (Key.B 1) = true ∧
          (g4._performIsam demoExt).isNone = true))) = some true := by
    decide!
  simp only [Option.bind_eq_some, Option.map_eq_some', decide_eq_true_eq] at h
  obtain ⟨g4, hg4, g5, hg5, h1, h2, h3, h4, h5, h6⟩ := h
  refine ⟨g4, g5, ?_, hg5, h1, h2, h3, h4, h5, Option.isNone_iff_eq_none.mp h6⟩
  simpa [Option.bind_eq_some] using hg4

/-! ## Factors of an admitted keyframe -/

theorem performIsamFactors_graph {g gf : Graph} (h : g._performIsamFactors = some gf) :
    gf._graph = g._graph ++ g.keyframeFactors ∧ gf.isam = g.isam := by
  unfold Graph._performIsamFactors at h
  unfold Graph.keyframeFactors
  split at h
  · next hemp =>
    simp only [Option.bind_eq_bind, Option.bind_eq_some, Option.pure_def, Option.some.injEq] at h
    obtain ⟨e1, _, rfl⟩ := h
    have hl : g.cloudKeyPositions.length = 0 := by
      simpa [List.isEmpty_iff] using hemp
    simp [hemp, hl]
  · next hemp =>
    simp only [Option.bind_eq_bind, Option.bind_eq_some, Option.pure_def] at h
    obtain ⟨e1, _, h⟩ := h
    split at h
    · next himu =>
      simp only [Option.bind_eq_bind, Option.bind_eq_some, Option.pure_def,
        Option.some.injEq] at h
      obtain ⟨e2, _, e3, _, rfl⟩ := h
      simp [hemp, himu, Pose3.between]
    · next himu =>
      simp only [Option.some.injEq] at h
      subst h
      simp [hemp, himu, Pose3.between]

/-- C11: an admitting call of `_performIsam` that returns hands the solver,
after the factors already pending, a prior on `X(0)` and no Between factor
when the history is empty, and otherwise exactly one Between factor, over
`X(index-1)` and `X(index)` with measurement `lastPoseInWorld⁻¹ *
currentPoseInWorld`, followed only by the combined inertial factor when
`updateImu` holds. -/
theorem performIsam_between_consecutive (ext : Ext) (g g1 : Graph)
    (hadm : g.cloudKeyPositions = [] ∨ 3 / 10 ≤ ext.sqrt g.squaredDistance)
    (h : g._performIsam ext = some g1) :
    (g.cloudKeyPositions = [] →
      g1.isam.factors = g.isam.factors ++ (g._graph ++
        [Factor.priorPose (Key.X 0) g.currentPoseInWorld Noise.priorNoise])) ∧
    (g.cloudKeyPositions ≠ [] →
      g1.isam.factors = g.isam.factors ++ (g._graph ++
        Factor.between (Key.X (g.cloudKeyPositions.length - 1)) (Key.X g.cloudKeyPositions.length)
            (g.lastPoseInWorld.inverse.compose g.currentPoseInWorld) Noise.odometryNoise ::
          (if g.updateImu then
            [Factor.combinedImu (Key.X (g.cloudKeyPositions.length - 1))
              (Key.V (g.cloudKeyPositions.length - 1)) (Key.X g.cloudKeyPositions.length)
              (Key.V g.cloudKeyPositions.length) (Key.B (g.cloudKeyPositions.length - 1))
              (Key.B g.cloudKeyPositions.length) g.preintegrated]
          else []))) := by
  have hcond : (g.saveThisKeyFrame ext = false && !g.cloudKeyPositions.isEmpty) = false := by
    rcases hadm with h1 | h1
    · simp [h1]
    · simp [Graph.saveThisKeyFrame, not_lt.mpr h1]
  unfold Graph._performIsam at h
  rw [hcond] at h
  simp only [Bool.false_eq_true, if_false, Option.bind_eq_bind, Option.bind_eq_some] at h
  obtain ⟨gf, hgf, hgu⟩ := h
  obtain ⟨hgr, hi⟩ := performIsamFactors_graph hgf
  obtain ⟨_, _, _, _, hfac, _⟩ := performIsamUpdate_some hgu
  rw [hfac, hgr, hi]
  constructor
  · intro hemp
    simp [Graph.keyframeFactors, hemp]
  · intro hne
    have : g.cloudKeyPositions.isEmpty = false := by
      simpa [List.isEmpty_iff] using hne
    simp [Graph.keyframeFactors, this]

/-- Witness for C11: keyframe 1, admitted after keyframe 0, adds the single
factor `Between(X(0), X(1))`. -/
theorem performIsam_between_consecutive_witness :
    ∃ g g1 rel, demoAtThreshold = some g ∧ g._performIsam demoExt = some g1 ∧
      g.cloudKeyPositions.length = 1 ∧
      g1.isam.factors = g.isam.factors ++
        [Factor.between (Key.X 0) (Key.X 1) rel Noise.odometryNoise] := by
  have h : (demoAtThreshold.bind (fun g => (g._performIsam demoExt).map (fun _ =>
      decide (g.cloudKeyPositions.length = 1 ∧ 3 / 10 ≤ demoExt.sqrt g.squaredDistance ∧
        g._graph.length = 0 ∧ g.updateImu = false)))) = some true := by
    decide!
  simp only [Option.bind_eq_some, Option.map_eq_some', decide_eq_true_eq] at h
  obtain ⟨g, hg, g1, hg1, hlen, hs, hgr, himu⟩ := h
  have hne : g.cloudKeyPositions ≠ [] := by
    intro hnil
    rw [hnil] at hlen
    simp at hlen
  have := (performIsam_between_consecutive demoExt g g1 (Or.inr hs) hg1).2 hne
  rw [List.length_eq_zero.mp hgr, hlen, himu] at this
  exact ⟨g, g1, _, hg, hg1, hlen, by simpa using this⟩

/-- C12: when the history is not empty and the distance between
`currentPosPoint` and `previousPosPoint` is below 0.3, `_performIsam` returns
the state it was given: the pending factors and initial guesses, the solver
and its estimate, the three keyframe containers, `cloudsInQueue`,
`lastPoseInWorld` and `previousPosPoint` are all as before. -/
theorem performIsam_not_admitted_unchanged (ext : Ext) (g : Graph)
    (hne : g.cloudKeyPositions ≠ []) (hd : ext.sqrt g.squaredDistance < 3 / 10) :
    g._performIsam ext = some g ∧
    ∀ g1, g._performIsam ext = some g1 →
      g1._graph = g._graph ∧ g1.initialEstimate = g.initialEstimate ∧ g1.isam = g.isam ∧
      g1.isamCurrentEstimate = g.isamCurrentEstimate ∧
      g1.cloudKeyPositions = g.cloudKeyPositions ∧ g1.cloudKeyPoses = g.cloudKeyPoses ∧
      g1.cloudKeyFrames = g.cloudKeyFrames ∧ g1.cloudsInQueue = g.cloudsInQueue ∧
      g1.lastPoseInWorld = g.lastPoseInWorld ∧ g1.previousPosPoint = g.previousPosPoint := by
  have hret : g._performIsam ext = some g := by
    have : g.cloudKeyPositions.isEmpty = false := by
      simpa [List.isEmpty_iff] using hne
    simp [Graph._performIsam, Graph.saveThisKeyFrame, hd, this]
  refine ⟨hret, ?_⟩
  intro g1 hg1
  rw [hret] at hg1
  simp only [Option.some.injEq] at hg1
  subst hg1
  exact ⟨rfl, rfl, rfl, rfl, rfl, rfl, rfl, rfl, rfl, rfl⟩

/-- Witness for C12: the second cycle at rest reaches `_performIsam` with one
keyframe and distance 0, and `_performIsam` returns the state unchanged. -/
theorem performIsam_not_admitted_unchanged_witness :
    ∃ g, demoAtRest = some g ∧ g.cloudKeyPositions.length = 1 ∧
      demoExt.sqrt g.squaredDistance < 3 / 10 ∧ g._performIsam demoExt = some g := by
  have h : demoAtRest.map (fun g =>
      decide (g.cloudKeyPositions.length = 1 ∧ demoExt.sqrt g.squaredDistance < 3 / 10))
      = some true := by
    decide!
  simp only [Option.map_eq_some', decide_eq_true_eq] at h
  obtain ⟨g, hg, hlen, hd⟩ := h
  have hne : g.cloudKeyPositions ≠ [] := by
    intro hnil
    rw [hnil] at hlen
    simp at hlen
  exact ⟨g, hg, hlen, hd, (performIsam_not_admitted_unchanged demoExt g hne hd).1⟩

/-! ## The linear system of the registration -/

theorem buildBlocks_some {ext : Ext} {R : Matrix3} {fw fp map : Cloud} :
    ∀ {cs : List Correspondence} {blocks : List Block},
      buildBlocks ext R fw fp map cs = some blocks →
      blocks.length = cs.length ∧
      ∀ (j : Nat) (cj : Correspondence), cs[j]? = some cj →
        ∃ pw pl qm, fw[cj.index_query]? = some pw ∧ fp[cj.index_query]? = some pl ∧
          map[cj.index_match]? = some qm ∧
          blocks[j]? = some (correspondenceBlock ext R pw pl qm) := by
  intro cs
  induction cs with
  | nil =>
    intro blocks h
    simp only [buildBlocks, Option.some.injEq] at h
    subst h
    exact ⟨rfl, by simp⟩
  | cons c cs ih =>
    intro blocks h
    simp only [buildBlocks, Option.bind_eq_bind, Option.bind_eq_some, Option.pure_def,
      Option.some.injEq] at h
    obtain ⟨pw, hpw, pl, hpl, qm, hqm, rest, hrest, rfl⟩ := h
    obtain ⟨hlen, hall⟩ := ih hrest
    refine ⟨by simp [hlen], ?_⟩
    intro j cj hj
    cases j with
    | zero =>
      simp only [List.getElem?_cons_zero, Option.some.injEq] at hj
      subst hj
      exact ⟨pw, pl, qm, hpw, hpl, hqm, by simp⟩
    | succ j =>
      simp only [List.getElem?_cons_succ] at hj ⊢
      exact hall j cj hj

theorem flatMap_rows_getElem? {α : Type} (f : Block → Fin 3 → α) :
    ∀ (blocks : List Block) (j : Nat) (b : Block) (r : Fin 3), blocks[j]? = some b →
      (blocks.flatMap (fun b => [f b 0, f b 1, f b 2]))[3 * j + r.val]? = some (f b r) := by
  intro blocks
  induction blocks with
  | nil =>
    intro j b r h
    simp at h
  | cons a rest ih =>
    intro j b r h
    cases j with
    | zero =>
      simp only [List.getElem?_cons_zero, Option.some.injEq] at h
      subst h
      fin_cases r <;> simp
    | succ j =>
      simp only [List.getElem?_cons_succ] at h
      have := ih j b r h
      have hidx : 3 * (j + 1) + r.val = (3 * j + r.val) + 3 := by ring
      rw [hidx]
      simpa [List.flatMap_cons] using this

theorem flatMap_rows_length {α : Type} (f : Block → Fin 3 → α) (blocks : List Block) :
    (blocks.flatMap (fun b => [f b 0, f b 1, f b 2])).length = 3 * blocks.length := by
  induction blocks with
  | nil => rfl
  | cons a rest ih =>
    simp only [List.flatMap_cons, List.length_append, ih, List.length_cons, List.length_nil]
    ring

/-- C17: the Jacobian block `J_hij_TwLi` of a correspondence with local point
`p` under rotation `R` has columns 0..2 equal to `-(R * skew(p))` and columns
3..5 equal to `R`; the block built for correspondence `j`, whitened, fills
rows `3j..3j+2` of `matA`, whose rows have 6 entries and number `3n`, plus 6
exactly when `updateImu` holds. -/
theorem jacobian_block_layout (ext : Ext) (g : Graph) (R : Matrix3) (fw fp : Cloud)
    (cs : List Correspondence) (blocks : List Block) (j : Nat) (cj : Correspondence)
    (hb : buildBlocks ext R fw fp g.cloudMapFull cs = some blocks) (hj : cs[j]? = some cj) :
    (∀ (p : Vector3) (r c : Fin 3),
      J_hij_TwLi R p r ⟨c.val, by omega⟩ = (-(R * skewSymmetric (p 0) (p 1) (p 2))) r c ∧
      J_hij_TwLi R p r ⟨c.val + 3, by omega⟩ = R r c) ∧
    (matARows blocks g.updateImu).length
      = 3 * cs.length + (if g.updateImu = true then 6 else 0) ∧
    ∃ pl b, fp[cj.index_query]? = some pl ∧ blocks[j]? = some b ∧
      b.p_Lij = pl.toVector3 ∧
      b.Ai = matrix_square_root ext (ext.invert
          (J_hij_TwLi R pl.toVector3 * odometryNoiseCovariance *
            (J_hij_TwLi R pl.toVector3).transpose)) * J_hij_TwLi R pl.toVector3 ∧
      ∀ r : Fin 3, (matARows blocks g.updateImu)[3 * j + r.val]? = some (b.Ai r) := by
  obtain ⟨hlen, hall⟩ := buildBlocks_some hb
  obtain ⟨pw, pl, qm, _, hpl, _, hbj⟩ := hall j cj hj
  refine ⟨?_, ?_, pl, _, hpl, hbj, rfl, rfl, ?_⟩
  · intro p r c
    constructor
    · simp [J_hij_TwLi]
    · simp [J_hij_TwLi]
  · unfold matARows
    rw [List.length_append, flatMap_rows_length (fun b => b.Ai), hlen]
    split <;> simp
  · intro r
    unfold matARows
    have hrow := flatMap_rows_getElem? (fun b => b.Ai) blocks j _ r hbj
    have hlt : 3 * j + r.val < (blocks.flatMap (fun b => [b.Ai 0, b.Ai 1, b.Ai 2])).length := by
      rw [flatMap_rows_length (fun b => b.Ai)]
      have : j < blocks.length := by
        rcases List.getElem?_eq_some_iff.mp hbj with ⟨h, _⟩
        exact h
      have := r.isLt
      omega
    rw [List.getElem?_append_left hlt]
    exact hrow

/-- Witness for C17: the first of the four blocks of the five-point state. -/
theorem jacobian_block_layout_witness :
    ∃ blocks b, buildBlocks demoExt 1 demoFivePoints.frameInWorld
        demoFivePoints.currentFeatureCloud demoFivePoints.cloudMapFull
        (demoFivePoints.overlapCorrespondences demoExt) = some blocks ∧
      (matARows blocks demoFivePoints.updateImu).length = 12 ∧
      blocks[0]? = some b ∧
      ∀ r : Fin 3, (matARows blocks demoFivePoints.updateImu)[3 * 0 + r.val]? = some (b.Ai r) := by
  have h : (buildBlocks demoExt 1 demoFivePoints.frameInWorld
      demoFivePoints.currentFeatureCloud demoFivePoints.cloudMapFull
      (demoFivePoints.overlapCorrespondences demoExt)).isSome = true ∧
      (demoFivePoints.overlapCorrespondences demoExt).length = 4 ∧
      ((demoFivePoints.overlapCorrespondences demoExt)[0]?).isSome = true := by
    decide!
  obtain ⟨h1, h2, h3⟩ := h
  obtain ⟨blocks, hb⟩ := Option.isSome_iff_exists.mp h1
  obtain ⟨c0, hc0⟩ := Option.isSome_iff_exists.mp h3
  obtain ⟨_, hlen, pl, b, _, hb0, _, _, hrows⟩ :=
    jacobian_block_layout demoExt demoFivePoints 1 _ _ _ blocks 0 c0 hb hc0
  refine ⟨blocks, b, hb, ?_, hb0, hrows⟩
  rw [hlen, h2]
  rfl

/-! ## Whitening -/

/-- C13 (code evaluated at the failing input): a correspondence block has its
Jacobian rows and its residual rows multiplied by the same matrix, the square
root of the inverse of the block covariance; the six prior rows of `matA`,
however, are the rows of the identity whatever the whitener of the prior is,
while the prior rows of `matB` are multiplied by that whitener. With a
preintegration covariance of `1/4` the whitener is 2 on the diagonal and the
prior rows of `matA` are not the rows of the whitener. -/
theorem prior_jacobian_rows_not_whitened :
    (∀ (ext : Ext) (R : Matrix3) (pw pl qm : PointNormal),
      (correspondenceBlock ext R pw pl qm).Ai
        = matrix_square_root ext (ext.invert
            (J_hij_TwLi R pl.toVector3 * odometryNoiseCovariance *
              (J_hij_TwLi R pl.toVector3).transpose)) * J_hij_TwLi R pl.toVector3 ∧
      (correspondenceBlock ext R pw pl qm).bi
        = (matrix_square_root ext (ext.invert
            (J_hij_TwLi R pl.toVector3 * odometryNoiseCovariance *
              (J_hij_TwLi R pl.toVector3).transpose))).mulVec
            (correspondenceBlock ext R pw pl qm).b_ij) ∧
    (∀ (ext : Ext) (g : Graph) (pose : Pose3), g.updateImu = true →
      matARows [] g.updateImu = (List.finRange 6).map (fun i => (1 : Matrix6) i) ∧
      matBRows ext [] g pose = (List.finRange 6).map
        ((ext.inverse_square_root (ext.preintMeasCov g.preintegrated)).mulVec
          (-(ext.Logmap (g.predImuState.pose.inverse.compose pose))))) ∧
    ¬ ∀ (ext : Ext) (g : Graph), g.updateImu = true →
      matARows [] g.updateImu = (List.finRange 6).map
        (fun i => (ext.inverse_square_root (ext.preintMeasCov g.preintegrated) * (1 : Matrix6)) i) := by
  refine ⟨fun ext R pw pl qm => ⟨rfl, rfl⟩, ?_, ?_⟩
  · intro ext g pose h
    simp [matARows, matBRows, h]
  · intro hall
    have h1 := hall demoExtQuarter demoWithPrior rfl
    have h2 : ¬ (matARows [] demoWithPrior.updateImu = (List.finRange 6).map
        (fun i => (demoExtQuarter.inverse_square_root
          (demoExtQuarter.preintMeasCov demoWithPrior.preintegrated) * (1 : Matrix6)) i)) := by
      decide!
    exact h2 h1

/-- C14 (counterexample): for the diagonal matrix with entries -1, 4, 4, which
has a negative eigenvalue, `matrix_square_root` does not return the identity:
it returns the diagonal matrix of the square roots the library gives. -/
theorem matrix_square_root_not_identity_fallback :
    ¬ ∀ (ext : Ext) (A : Matrix3), (∃ i, (ext.eigen A).1 i < 0) →
        matrix_square_root ext A = 1 := by
  intro hall
  have h1 := hall demoExt (Matrix.diagonal ![-1, 4, 4]) ⟨0, by decide!⟩
  have h2 : ¬ (matrix_square_root demoExt (Matrix.diagonal ![-1, 4, 4]) = 1) := by
    decide!
  exact h2 h1

/-- C14 (amended): the whitening has no fallback. For every matrix,
`matrix_square_root` returns `Uᵀ * diag(sqrt E) * U` for the eigenvalues `E`
and the matrix `U` of eigenvectors the library returns, the square root being
taken of every eigenvalue whatever its sign; and whenever the prior is used
its residual is multiplied by `inverse_square_root` of the preintegration
covariance whatever that covariance is. -/
theorem whitening_without_fallback (ext : Ext) (A : Matrix3) (g : Graph) (pose : Pose3)
    (blocks : List Block) (h : g.updateImu = true) :
    matrix_square_root ext A
      = (ext.eigen A).2.transpose * Matrix.diagonal (fun i => ext.sqrt ((ext.eigen A).1 i))
          * (ext.eigen A).2 ∧
    (∀ b ∈ blocks, ∀ pw pl qm, b = correspondenceBlock ext (pose.R) pw pl qm →
      b.bi = (matrix_square_root ext (ext.invert
            (J_hij_TwLi pose.R pl.toVector3 * odometryNoiseCovariance *
              (J_hij_TwLi pose.R pl.toVector3).transpose))).mulVec b.b_ij) ∧
    (matBRows ext blocks g pose).drop (3 * blocks.length) = (List.finRange 6).map
      ((ext.inverse_square_root (ext.preintMeasCov g.preintegrated)).mulVec
        (-(ext.Logmap (g.predImuState.pose.inverse.compose pose)))) := by
  refine ⟨?_, ?_, ?_⟩
  · simp [matrix_square_root, Matrix.transpose_transpose]
  · intro b _ pw pl qm hb
    rw [hb]
    rfl
  · unfold matBRows
    have hlen := flatMap_rows_length (fun b => b.bi) blocks
    rw [List.drop_append_of_le_length (le_of_eq hlen.symm), ← hlen, List.drop_length]
    simp [h]

/-- Witness for C14 (amended): the square root computed for the diagonal
matrix with entries -1, 4, 4 and the prior rows of a state with pending
inertial update. -/
theorem whitening_without_fallback_witness :
    demoWithPrior.updateImu = true ∧
    matrix_square_root demoExt (Matrix.diagonal ![-1, 4, 4])
      = Matrix.diagonal ![demoExt.sqrt (-1), 2, 2] ∧
    (matBRows demoExt [] demoWithPrior demoWithPrior.currentPoseInWorld).length = 6 := by
  have h := whitening_without_fallback demoExt (Matrix.diagonal ![-1, 4, 4]) demoWithPrior
    demoWithPrior.currentPoseInWorld [] rfl
  refine ⟨rfl, ?_, ?_⟩
  · rw [h.1]
    decide!
  · have h3 := h.2.2
    simp only [List.length_nil, Nat.mul_zero, List.drop_zero] at h3
    rw [h3]
    simp

/-! ## The residual of a correspondence -/

/-- C20 (code evaluated at the failing input): `b_ij` is computed from the
scan as transformed once before the loop. On the five-point state the first
pass is accepted and moves the pose; in the second pass `b_ij` is still the
residual at the pose held before the first pass and differs from
`q_j - T * p_j` for the pose `T` the second pass starts with. -/
theorem residual_block_uses_stale_transform :
    (∀ (ext : Ext) (R : Matrix3) (pw pl qm : PointNormal),
      (correspondenceBlock ext R pw pl qm).b_ij = qm.toVector3 - pw.toVector3) ∧
    ¬ ∀ (ext : Ext) (g : Graph) (final : Pose3) (passes : List Iteration),
      g._cloud2MapTrace ext = some (final, passes) →
      ∀ it ∈ passes, ∀ blocks,
        buildBlocks ext it.keyPoseBefore.R g.frameInWorld g.currentFeatureCloud
          g.cloudMapFull (g.overlapCorrespondences ext) = some blocks →
        ∀ b ∈ blocks, b.b_ij = b.q_wj - it.keyPoseBefore.transformFrom b.p_Lij := by
  constructor
  · intro ext R pw pl qm
    funext i
    fin_cases i <;> simp [correspondenceBlock]
  · intro hall
    have h : (demoFivePointsTwoPasses._cloud2MapTrace demoExt).bind (fun r =>
        match r.2 with
        | [_, it2] =>
          (buildBlocks demoExt it2.keyPoseBefore.R demoFivePointsTwoPasses.frameInWorld
            demoFivePointsTwoPasses.currentFeatureCloud demoFivePointsTwoPasses.cloudMapFull
            (demoFivePointsTwoPasses.overlapCorrespondences demoExt)).map (fun blocks =>
              decide (∃ b ∈ blocks,
                b.b_ij ≠ b.q_wj - it2.keyPoseBefore.transformFrom b.p_Lij))
        | _ => none) = some true := by
      decide!
    simp only [Option.bind_eq_some] at h
    obtain ⟨⟨final, passes⟩, hr, hm⟩ := h
    match passes, hm with
    | [it1, it2], hm =>
      simp only [Option.map_eq_some', decide_eq_true_eq] at hm
      obtain ⟨blocks, hb, b, hbmem, hne⟩ := hm
      exact hne (hall demoExt demoFivePointsTwoPasses final [it1, it2] hr it2 (by simp)
        blocks hb b hbmem)

/-! ## Published covariance -/

/-- C15: the 36 entries written into the published covariance are, for row
`r` and column `c`, entry `6 r + c` equal to `cov (s r) (s c)` with
`s k = (k + 3) mod 6`; the top-left 3x3 block is the bottom-right block of
the solver's covariance, and a symmetric covariance is published as a
symmetric one. -/
theorem published_covariance_reordered (cov : Matrix6) :
    (_publishTransformedCovariance cov).length = 36 ∧
    (∀ r c : Fin 6, (_publishTransformedCovariance cov)[6 * r.val + c.val]?
      = some (cov ⟨(r.val + 3) % 6, Nat.mod_lt _ (by decide)⟩
               ⟨(c.val + 3) % 6, Nat.mod_lt _ (by decide)⟩)) ∧
    (∀ r c : Fin 3, (_publishTransformedCovariance cov)[6 * r.val + c.val]?
      = some (cov ⟨r.val + 3, by omega⟩ ⟨c.val + 3, by omega⟩)) ∧
    (cov.IsSymm → ∀ r c : Fin 6, (_publishTransformedCovariance cov)[6 * r.val + c.val]?
      = (_publishTransformedCovariance cov)[6 * c.val + r.val]?) := by
  have h2 : ∀ r c : Fin 6, (_publishTransformedCovariance cov)[6 * r.val + c.val]?
      = some (cov ⟨(r.val + 3) % 6, Nat.mod_lt _ (by decide)⟩
               ⟨(c.val + 3) % 6, Nat.mod_lt _ (by decide)⟩) := by
    intro r c
    fin_cases r <;> fin_cases c <;> rfl
  refine ⟨by simp [_publishTransformedCovariance], h2, ?_, ?_⟩
  · intro r c
    fin_cases r <;> fin_cases c <;> rfl
  · intro hs r c
    rw [h2 r c, h2 c r, hs.apply]

/-- Witness for C15: a symmetric covariance with distinct entries is
published symmetrically, entry 1 being `cov 3 4`. -/
theorem published_covariance_reordered_witness :
    demoCovariance.IsSymm ∧
    (_publishTransformedCovariance demoCovariance)[1]? = some 34 ∧
    (_publishTransformedCovariance demoCovariance)[6 * 0 + 1]?
      = (_publishTransformedCovariance demoCovariance)[6 * 1 + 0]? := by
  have hs : demoCovariance.IsSymm := by
    apply Matrix.IsSymm.ext
    intro i j
    simp [demoCovariance, min_comm, max_comm]
  refine ⟨hs, by decide!, ?_⟩
  exact (published_covariance_reordered demoCovariance).2.2.2 hs 0 1

/-! ## Reading the inertial queue -/

theorem preintegrateLoop_all_queued (measurements : Int) (timeOdometry : ℚ)
    (hm : 0 < measurements) :
    ∀ (queue : List (ℚ × Vector6)) (t : ℚ) (pre : PreintegratedCombinedMeasurements),
      (∀ m ∈ queue, m.1 ≤ timeOdometry) →
      preintegrateLoop measurements timeOdometry 0 queue t pre = none := by
  intro queue
  induction queue with
  | nil =>
    intro t pre _
    simp [preintegrateLoop, hm]
  | cons a rest ih =>
    intro t pre h
    have ha : a.1 ≤ timeOdometry := h a (by simp)
    simp only [preintegrateLoop, hm, if_true, le_refl, Int.toNat_zero, List.getElem?_cons_zero,
      ha, Int.zero_sub, Int.reduceNeg, Int.reduceAdd]
    cases hint : pre.integrateMeasurement (head3 a.2) (tail3 a.2) (a.1 - t) with
    | none => rfl
    | some pre1 => exact ih _ _ (fun m hmem => h m (by simp [hmem]))

/-- C18 (code evaluated at the failing input): the loop test compares the
loop variable, which is 0 at every test, with the queue size read before the
loop. When every queued sample is stamped at or before `timeOdometry`, the
loop pops them all and then reads `imuMeasurements[0]` from the empty queue;
so it is for a queue holding one sample stamped 1 and odometry time 2. -/
theorem preintegrate_reads_empty_queue :
    (∀ (ext : Ext) (g : Graph), g.imuMeasurements ≠ [] →
      (∀ m ∈ g.imuMeasurements, m.1 ≤ g.timeOdometry) →
      g._preintegrateImuMeasurements ext = none) ∧
    demoAllQueued.imuMeasurements = [(1, 0)] ∧ demoAllQueued.timeOdometry = 2 ∧
    demoAllQueued._preintegrateImuMeasurements demoExt = none := by
  have hgen : ∀ (ext : Ext) (g : Graph), g.imuMeasurements ≠ [] →
      (∀ m ∈ g.imuMeasurements, m.1 ≤ g.timeOdometry) →
      g._preintegrateImuMeasurements ext = none := by
    intro ext g hne hall
    have hm : (0 : Int) < (g.imuMeasurements.length : Int) := by
      have := List.length_pos.mpr hne
      omega
    have hloop := preintegrateLoop_all_queued _ g.timeOdometry hm g.imuMeasurements
      g.timePrevPreintegratedImu g.preintegrated hall
    simp [Graph._preintegrateImuMeasurements, hloop]
  refine ⟨hgen, rfl, rfl, ?_⟩
  apply hgen
  · simp [demoAllQueued]
  · intro m hmem
    simp only [demoAllQueued, List.mem_singleton] at hmem
    subst hmem
    show (1 : ℚ) ≤ 2
    norm_num

/-! ## Landmarks of the smoothing rounds -/

theorem Values.exists_eq_true_iff (vs : Values) (k : Key) :
    Values.exists vs k = true ↔ k ∈ vs.map Prod.fst := by
  simp only [Values.exists, List.any_eq_true, decide_eq_true_eq, List.mem_map]

theorem Values.exists_eq_false_iff (vs : Values) (k : Key) :
    Values.exists vs k = false ↔ k ∉ vs.map Prod.fst := by
  rw [← Values.exists_eq_true_iff]
  simp

theorem Values.insert_fresh {vs vs1 : Values} {k : Key} {v : Value}
    (h : Values.insert vs k v = some vs1) : Values.exists vs k = false := by
  cases hx : Values.exists vs k with
  | false => rfl
  | true => simp [Values.insert, hx] at h

theorem Values.insert_nodup {vs vs1 : Values} {k : Key} {v : Value}
    (h : Values.insert vs k v = some vs1) (hn : (vs.map Prod.fst).Nodup) :
    (vs1.map Prod.fst).Nodup := by
  have hf := (Values.exists_eq_false_iff vs k).mp (Values.insert_fresh h)
  rw [Values.insert_some h, List.map_append, List.nodup_append]
  refine ⟨hn, by simp, ?_⟩
  intro a ha hb
  simp only [List.map_cons, List.map_nil, List.mem_singleton] at hb
  subst hb
  exact hf ha

theorem ISAM2.update_fresh {s s1 : ISAM2} {fs : List Factor} {th : Values}
    (h : s.update fs th = some s1) : ∀ kv ∈ th, Values.exists s.theta kv.1 = false := by
  unfold ISAM2.update at h
  split at h
  · simp at h
  · rename_i hn
    intro kv hkv
    cases hx : Values.exists s.theta kv.1 with
    | false => rfl
    | true => exact absurd (List.any_eq_true.mpr ⟨kv, hkv, hx⟩) hn

theorem exists_calculateEstimate (ext : Ext) (s : ISAM2) (k : Key) :
    Values.exists (s.calculateEstimate ext) k = Values.exists s.theta k := by
  simp only [Values.exists, ISAM2.calculateEstimate, List.any_map]
  rfl

/-- The solver after `update(fs, th)` and `update()`, with the estimate
recomputed: the invariant is kept when the new values have distinct keys. -/
theorem landmarkInvariant_update {ext : Ext} {g g1 : Graph} {isam1 isam2 : ISAM2}
    {fs : List Factor} {th new : Values} (hi : g.landmarkInvariant)
    (h1 : g.isam.update fs th = some isam1) (h2 : isam1.update [] [] = some isam2)
    (hn : (th.map Prod.fst).Nodup)
    (hisam : g1.isam = isam2) (hest : g1.isamCurrentEstimate = isam2.calculateEstimate ext)
    (hpend : (g1.initialEstimate.map Prod.fst).Nodup)
    (hsub : new.Sublist th)
    (hkeys : g1.mapKeys.map Prod.fst = g.mapKeys.map Prod.fst ++ new.map Prod.fst)
    (hL : ∀ kp ∈ g1.mapKeys, kp.1 = Key.L kp.2) :
    g1.landmarkInvariant := by
  obtain ⟨_, i2, _, i4, i5⟩ := hi
  obtain ⟨_, ht1⟩ := ISAM2.update_some h1
  obtain ⟨_, ht2⟩ := ISAM2.update_some h2
  have hfresh := ISAM2.update_fresh h1
  have htheta : g1.isam.theta = g.isam.theta ++ th := by
    rw [hisam, ht2, ht1, List.append_nil]
  have hdisj : ∀ k, k ∈ g.isam.theta.map Prod.fst → k ∈ th.map Prod.fst → False := by
    intro k hk hk2
    obtain ⟨kv, hkv, rfl⟩ := List.mem_map.mp hk2
    have := hfresh kv hkv
    rw [Values.exists_eq_false_iff] at this
    exact this hk
  refine ⟨?_, ?_, ?_, ?_, ?_⟩
  · intro k
    rw [hest, hisam]
    exact exists_calculateEstimate ext isam2 k
  · rw [htheta, List.map_append, List.nodup_append]
    exact ⟨i2, hn, fun k hk hk2 => hdisj k hk hk2⟩
  · exact hpend
  · rw [hkeys, List.nodup_append]
    refine ⟨i4, (hn.sublist (hsub.map _)), ?_⟩
    intro k hk hk2
    obtain ⟨kp, hkp, rfl⟩ := List.mem_map.mp hk
    have hex := (i5 kp hkp).2
    rw [Values.exists_eq_true_iff] at hex
    obtain ⟨kv, hkv, hkveq⟩ := List.mem_map.mp hk2
    exact hdisj kp.1 hex (List.mem_map.mpr ⟨kv, hsub.subset hkv, hkveq⟩)
  · intro kp hkp
    refine ⟨hL kp hkp, ?_⟩
    rw [Values.exists_eq_true_iff, htheta, List.map_append, List.mem_append]
    have : kp.1 ∈ g1.mapKeys.map Prod.fst := List.mem_map.mpr ⟨kp, hkp, rfl⟩
    rw [hkeys, List.mem_append] at this
    rcases this with h | h
    · left
      obtain ⟨kq, hkq, hq⟩ := List.mem_map.mp h
      have hex := (i5 kq hkq).2
      rw [Values.exists_eq_true_iff, hq] at hex
      exact hex
    · right
      obtain ⟨kv, hkv, hkveq⟩ := List.mem_map.mp h
      exact List.mem_map.mpr ⟨kv, hsub.subset hkv, hkveq⟩

theorem keepsLandmarks_refl (g : Graph) : g.keepsLandmarks g := ⟨rfl, rfl, rfl, id⟩

theorem keepsLandmarks_trans {g g1 g2 : Graph} (h1 : g.keepsLandmarks g1)
    (h2 : g1.keepsLandmarks g2) : g.keepsLandmarks g2 :=
  ⟨h2.1.trans h1.1, h2.2.1.trans h1.2.1, h2.2.2.1.trans h1.2.2.1,
   fun h => h2.2.2.2 (h1.2.2.2 h)⟩

theorem landmarkInvariant_of_keeps {g g1 : Graph} (h : g.keepsLandmarks g1)
    (hi : g.landmarkInvariant) : g1.landmarkInvariant := by
  obtain ⟨h1, h2, h3, h4⟩ := h
  obtain ⟨i1, i2, i3, i4, i5⟩ := hi
  unfold Graph.landmarkInvariant
  rw [h1, h2, h3]
  exact ⟨i1, i2, h4 i3, i4, i5⟩

theorem initializePreintegration_keeps {g g1 : Graph}
    (h : g._initializePreintegration = some g1) : g.keepsLandmarks g1 := by
  unfold Graph._initializePreintegration at h
  simp only [Option.bind_eq_bind, Option.bind_eq_some, Option.pure_def, Option.some.injEq] at h
  obtain ⟨e1, h1, e2, h2, rfl⟩ := h
  exact ⟨rfl, rfl, rfl, fun hn => Values.insert_nodup h2 (Values.insert_nodup h1 hn)⟩

theorem preintegrateImuMeasurements_keeps {ext : Ext} {g g1 : Graph}
    (h : g._preintegrateImuMeasurements ext = some g1) : g.keepsLandmarks g1 := by
  unfold Graph._preintegrateImuMeasurements at h
  simp only [Option.bind_eq_bind, Option.bind_eq_some, Option.pure_def, Option.some.injEq] at h
  obtain ⟨r, _, rfl⟩ := h
  exact ⟨rfl, rfl, rfl, id⟩

theorem processIMU_keeps {ext : Ext} {g g1 : Graph}
    (h : g._processIMU ext = some g1) : g.keepsLandmarks g1 := by
  unfold Graph._processIMU at h
  split at h
  · simp only [Option.bind_eq_bind, Option.bind_eq_some, Option.pure_def, Option.some.injEq] at h
    obtain ⟨g2, h2, rfl⟩ := h
    exact keepsLandmarks_trans (initializePreintegration_keeps h2) ⟨rfl, rfl, rfl, id⟩
  · split at h
    · simp only [Option.bind_eq_bind, Option.bind_eq_some, Option.pure_def, Option.some.injEq] at h
      obtain ⟨g2, h2, rfl⟩ := h
      exact keepsLandmarks_trans (preintegrateImuMeasurements_keeps h2) ⟨rfl, rfl, rfl, id⟩
    · simp only [Option.some.injEq] at h
      subst h
      exact keepsLandmarks_refl g

theorem cycleFront_keeps {ext : Ext} {g g1 : Graph}
    (h : g.cycleFront ext = some g1) : g.keepsLandmarks g1 := by
  unfold Graph.cycleFront Graph.cycleRegistration at h
  simp only [Option.bind_eq_bind, Option.bind_eq_some] at h
  obtain ⟨g3, ⟨g2, h2, h3⟩, h4⟩ := h
  obtain ⟨T, rfl⟩ := cloud2Map_some h3
  obtain ⟨o, m, rfl⟩ := transformToGlobalMap_some h4
  have hk := processIMU_keeps h2
  exact keepsLandmarks_trans (keepsLandmarks_trans ⟨rfl, rfl, rfl, id⟩ hk) ⟨rfl, rfl, rfl, id⟩

theorem performIsamFactors_keeps {g g1 : Graph} (h : g._performIsamFactors = some g1) :
    g.keepsLandmarks g1 := by
  unfold Graph._performIsamFactors at h
  split at h
  · simp only [Option.bind_eq_bind, Option.bind_eq_some, Option.pure_def, Option.some.injEq] at h
    obtain ⟨e1, h1, rfl⟩ := h
    exact ⟨rfl, rfl, rfl, fun hn => Values.insert_nodup h1 hn⟩
  · simp only [Option.bind_eq_bind, Option.bind_eq_some, Option.pure_def] at h
    obtain ⟨e1, h1, h⟩ := h
    split at h
    · simp only [Option.bind_eq_bind, Option.bind_eq_some, Option.pure_def, Option.some.injEq] at h
      obtain ⟨e2, h2, e3, h3, rfl⟩ := h
      exact ⟨rfl, rfl, rfl, fun hn =>
        Values.insert_nodup h3 (Values.insert_nodup h2 (Values.insert_nodup h1 hn))⟩
    · simp only [Option.some.injEq] at h
      subst h
      exact ⟨rfl, rfl, rfl, fun hn => Values.insert_nodup h1 hn⟩

theorem performIsam_landmarkInvariant {ext : Ext} {g g1 : Graph}
    (h : g._performIsam ext = some g1) (hi : g.landmarkInvariant) : g1.landmarkInvariant := by
  unfold Graph._performIsam at h
  split at h
  · simp only [Option.some.injEq] at h
    subst h
    exact hi
  · simp only [Option.bind_eq_bind, Option.bind_eq_some] at h
    obtain ⟨gf, hgf, hgu⟩ := h
    have hif := landmarkInvariant_of_keeps (performIsamFactors_keeps hgf) hi
    unfold Graph._performIsamUpdate at hgu
    simp only [Option.bind_eq_bind, Option.bind_eq_some, Option.pure_def] at hgu
    obtain ⟨isam1, h1, isam2, h2, g2, hg2, pose, hpose, hg1⟩ := hgu
    simp only [Option.some.injEq] at hg1
    obtain ⟨st, b, pre, u, rfl⟩ := performIsamImu_some hg2
    subst hg1
    exact landmarkInvariant_update hif h1 h2 hif.2.2.1 rfl rfl List.nodup_nil (List.nil_sublist _)
      (by simp) (fun kp hkp => (hif.2.2.2.2 kp hkp).1)

theorem runOnce_landmarkInvariant {ext : Ext} {g g1 : Graph}
    (h : g.runOnce ext = some g1) (hi : g.landmarkInvariant) : g1.landmarkInvariant := by
  unfold Graph.runOnce at h
  split at h
  · simp only [Option.bind_eq_some] at h
    obtain ⟨g4, h4, h5⟩ := h
    exact performIsam_landmarkInvariant h5 (landmarkInvariant_of_keeps (cycleFront_keeps h4) hi)
  · simp only [Option.some.injEq] at h
    subst h
    exact hi

theorem step_landmarkInvariant {ext : Ext} {g g1 : Graph} {e : Event}
    (h : g.step ext e = some g1) (hi : g.landmarkInvariant) : g1.landmarkInvariant := by
  cases e with
  | odometry m =>
    simp only [Graph.step, Option.some.injEq] at h
    subst h
    exact hi
  | featureCloud m =>
    simp only [Graph.step, Option.some.injEq] at h
    subst h
    exact hi
  | groundPlane m =>
    simp only [Graph.step, Option.some.injEq] at h
    subst h
    exact hi
  | imu m =>
    simp only [Graph.step, Option.some.injEq] at h
    subst h
    exact hi
  | runOnce => exact runOnce_landmarkInvariant h hi

theorem smoothCorrespondence_fresh {ext : Ext} {g : Graph} {cloudInWorld : Cloud} {pose : Pose3}
    {cloudnr : Nat} {st st1 : SmoothBatch} {cr : Correspondence}
    (h : smoothCorrespondence ext g cloudInWorld pose cloudnr st cr = some st1)
    (hf : st.fresh g) : st1.fresh g := by
  unfold smoothCorrespondence at h
  simp only [Option.bind_eq_bind, Option.bind_eq_some, Option.pure_def] at h
  obtain ⟨p, _, q, _, h⟩ := h
  obtain ⟨f1, f2, f3, f4⟩ := hf
  split at h
  · rename_i hnew
    split at h
    · rename_i initial1 hins
      simp only [Option.some.injEq] at h
      subst h
      have hi1 := Values.insert_some hins
      refine ⟨Values.insert_nodup hins f1, ?_, ?_, ?_⟩
      · intro kv hkv
        simp only [hi1, List.mem_append, List.mem_singleton] at hkv
        rcases hkv with hkv | rfl
        · exact f2 kv hkv
        · simpa using hnew
      · simp [hi1, f3]
      · intro kp hkp
        simp only [List.mem_append, List.mem_singleton] at hkp
        rcases hkp with hkp | rfl
        · exact f4 kp hkp
        · rfl
    · simp only [Option.some.injEq] at h
      subst h
      exact ⟨f1, f2, f3, f4⟩
  · simp only [Option.some.injEq] at h
    subst h
    exact ⟨f1, f2, f3, f4⟩

theorem smoothCorrespondences_fresh {ext : Ext} {g : Graph} {cloudInWorld : Cloud} {pose : Pose3}
    {cloudnr : Nat} (cs : List Correspondence) :
    ∀ {st st1 : SmoothBatch},
      smoothCorrespondences ext g cloudInWorld pose cloudnr cs st = some st1 →
      st.fresh g → st1.fresh g := by
  induction cs with
  | nil =>
    intro st st1 h hf
    simp only [smoothCorrespondences, Option.some.injEq] at h
    subst h
    exact hf
  | cons cr rest ih =>
    intro st st1 h hf
    simp only [smoothCorrespondences, Option.bind_eq_some] at h
    obtain ⟨st2, h2, h3⟩ := h
    exact ih h3 (smoothCorrespondence_fresh h2 hf)

theorem smoothKeyframe_fresh {ext : Ext} {g : Graph} {framePoses : List Pose3}
    {st st1 : SmoothBatch} {cloudnr : Nat}
    (h : smoothKeyframe ext g framePoses st cloudnr = some st1) (hf : st.fresh g) :
    st1.fresh g := by
  unfold smoothKeyframe at h
  simp only [Option.bind_eq_bind, Option.bind_eq_some, Option.pure_def] at h
  obtain ⟨cloud, _, pose, _, h⟩ := h
  split at h
  · simp only [Option.some.injEq] at h
    subst h
    exact hf
  · exact smoothCorrespondences_fresh _ h hf

theorem smoothKeyframes_fresh {ext : Ext} {g : Graph} {framePoses : List Pose3}
    (idxs : List Nat) :
    ∀ {st st1 : SmoothBatch}, smoothKeyframes ext g framePoses idxs st = some st1 →
      st.fresh g → st1.fresh g := by
  induction idxs with
  | nil =>
    intro st st1 h hf
    simp only [smoothKeyframes, Option.some.injEq] at h
    subst h
    exact hf
  | cons i rest ih =>
    intro st st1 h hf
    simp only [smoothKeyframes, Option.bind_eq_some] at h
    obtain ⟨st2, h2, h3⟩ := h
    exact ih h3 (smoothKeyframe_fresh h2 hf)

theorem smoothPosesBatch_fresh {ext : Ext} {g : Graph} {b : SmoothBatch}
    (h : g._smoothPosesBatch ext = some b) (hi : g.landmarkInvariant) : b.fresh g := by
  unfold Graph._smoothPosesBatch at h
  simp only [Option.bind_eq_bind, Option.bind_eq_some] at h
  obtain ⟨fp, _, h⟩ := h
  refine smoothKeyframes_fresh _ h ⟨List.nodup_nil, ?_, ?_, ?_⟩
  · intro kv hkv
    simp at hkv
  · simp
  · intro kp hkp
    exact (hi.2.2.2.2 kp hkp).1

theorem smoothPoses_landmarkInvariant {ext : Ext} {g g1 : Graph}
    (h : g._smoothPoses ext = some g1) (hi : g.landmarkInvariant) : g1.landmarkInvariant := by
  unfold Graph._smoothPoses at h
  split at h
  · simp only [Option.some.injEq] at h
    subst h
    exact hi
  · simp only [Option.bind_eq_bind, Option.bind_eq_some, Option.pure_def, Option.some.injEq] at h
    obtain ⟨b, hb, isam1, h1, isam2, h2, rfl⟩ := h
    obtain ⟨f1, _, f3, f4⟩ := smoothPosesBatch_fresh hb hi
    exact landmarkInvariant_update hi h1 h2 f1 rfl rfl hi.2.2.1
      (List.Sublist.refl _) f3 f4

theorem runAll_landmarkInvariant {ext : Ext} (acts : List Activity) :
    ∀ {g g1 : Graph}, Graph.runAll ext g acts = some g1 → g.landmarkInvariant →
      g1.landmarkInvariant := by
  induction acts with
  | nil =>
    intro g g1 h hi
    simp only [Graph.runAll, Option.some.injEq] at h
    subst h
    exact hi
  | cons a rest ih =>
    intro g g1 h hi
    simp only [Graph.runAll, Option.bind_eq_some] at h
    obtain ⟨g2, h2, h3⟩ := h
    refine ih h3 ?_
    cases a with
    | event e => exact step_landmarkInvariant h2 hi
    | smoothPoses => exact smoothPoses_landmarkInvariant h2 hi

theorem constructed_landmarkInvariant {g : Graph} (h : g.constructed) (hk : g.mapKeys = []) :
    g.landmarkInvariant := by
  obtain ⟨_, _, _, _, _, _, _, _, h9, h10, h11, _⟩ := h
  simp [Graph.landmarkInvariant, h9, h10, h11, hk, Values.exists]

/-- C16: after any sequence of handler calls, estimation cycles and rounds of
`_smoothPoses` from the constructed state with `mapKeys` empty, the solver
holds no key twice (so no landmark key `L(pointIdx)` was handed to it as an
initial guess twice), `mapKeys` lists no key twice, and each of its entries is
a pair `(L(i), i)` whose key the solver holds. The round that would run next
keeps this: the initial guesses it collects have distinct keys, none of which
the solver holds, also when several pending keyframes match the same map
point, and it extends `mapKeys` by exactly these keys. -/
theorem landmarks_created_once (ext : Ext) (g0 g : Graph) (acts : List Activity)
    (h0 : g0.constructed) (hk : g0.mapKeys = [])
    (hrun : Graph.runAll ext g0 acts = some g) :
    (g.isam.theta.map Prod.fst).Nodup ∧
    (g.mapKeys.map Prod.fst).Nodup ∧
    (∀ kp ∈ g.mapKeys, kp.1 = Key.L kp.2 ∧ Values.exists g.isam.theta kp.1 = true) ∧
    ∀ b, g._smoothPosesBatch ext = some b →
      (b.initial.map Prod.fst).Nodup ∧
      (∀ kv ∈ b.initial, Values.exists g.isam.theta kv.1 = false) ∧
      b.mapKeys.map Prod.fst = g.mapKeys.map Prod.fst ++ b.initial.map Prod.fst ∧
      (b.mapKeys.map Prod.fst).Nodup ∧
      (∀ kp ∈ b.mapKeys, kp.1 = Key.L kp.2) := by
  have hi := runAll_landmarkInvariant acts hrun (constructed_landmarkInvariant h0 hk)
  have i1 := hi.1
  have i2 := hi.2.1
  have i4 := hi.2.2.2.1
  have i5 := hi.2.2.2.2
  refine ⟨i2, i4, i5, ?_⟩
  intro b hb
  obtain ⟨f1, f2, f3, f4⟩ := smoothPosesBatch_fresh hb hi
  have hfresh : ∀ kv ∈ b.initial, Values.exists g.isam.theta kv.1 = false := by
    intro kv hkv
    rw [← i1]
    exact f2 kv hkv
  refine ⟨f1, hfresh, f3, ?_, f4⟩
  rw [f3, List.nodup_append]
  refine ⟨i4, f1, ?_⟩
  intro k hk1 hk2
  obtain ⟨kp, hkp, rfl⟩ := List.mem_map.mp hk1
  obtain ⟨kv, hkv, hkveq⟩ := List.mem_map.mp hk2
  have h1 := (i5 kp hkp).2
  have h2 := hfresh kv hkv
  rw [hkveq, h1] at h2
  exact Bool.noConfusion h2

theorem landmarks_created_once_witness :
    ∃ g, Graph.runAll demoExtReadsOn demoInit demoTwoRounds = some g ∧
      g.mapKeys.map Prod.snd = [0, 1, 2, 3, 4, 5, 6, 7, 8, 9, 10] ∧
      g.isam.factors.length = 34 ∧
      (g.isam.theta.map Prod.fst).Nodup ∧
      (g.mapKeys.map Prod.fst).Nodup ∧
      (∀ kp ∈ g.mapKeys, kp.1 = Key.L kp.2 ∧ Values.exists g.isam.theta kp.1 = true) ∧
      ∀ b, g._smoothPosesBatch demoExtReadsOn = some b →
        (b.initial.map Prod.fst).Nodup ∧
        (∀ kv ∈ b.initial, Values.exists g.isam.theta kv.1 = false) ∧
        b.mapKeys.map Prod.fst = g.mapKeys.map Prod.fst ++ b.initial.map Prod.fst ∧
        (b.mapKeys.map Prod.fst).Nodup ∧
        (∀ kp ∈ b.mapKeys, kp.1 = Key.L kp.2) := by
  have h : (Graph.runAll demoExtReadsOn demoInit demoTwoRounds).map (fun g =>
      decide (g.mapKeys.map Prod.snd = [0, 1, 2, 3, 4, 5, 6, 7, 8, 9, 10] ∧
        g.isam.factors.length = 34)) = some true := by decide!
  simp only [Option.map_eq_some', decide_eq_true_eq] at h
  obtain ⟨g, hg, hkeys, hfac⟩ := h
  exact ⟨g, hg, hkeys, hfac,
    landmarks_created_once demoExtReadsOn demoInit g demoTwoRounds demoInit_constructed rfl hg⟩

/-! ## The poses a smoothing round reads -/

theorem readFramePoses_some (est : Values) :
    ∀ (idxs : List Nat) (fp : List Pose3), readFramePoses est idxs = some fp →
      fp.length = idxs.length ∧
      ∀ (j i : Nat), idxs[j]? = some i → fp[j]? = Values.atPose est (Key.X i) := by
  intro idxs
  induction idxs with
  | nil =>
    intro fp h
    simp only [readFramePoses, Option.some.injEq] at h
    subst h
    exact ⟨rfl, fun j i hj => by simp at hj⟩
  | cons i0 rest ih =>
    intro fp h
    simp only [readFramePoses, Option.bind_eq_bind, Option.bind_eq_some, Option.pure_def,
      Option.some.injEq] at h
    obtain ⟨p, hp, ps, hps, rfl⟩ := h
    obtain ⟨hl, hget⟩ := ih ps hps
    refine ⟨by simp [hl], ?_⟩
    intro j i hj
    cases j with
    | zero =>
      simp only [List.getElem?_cons_zero, Option.some.injEq] at hj
      subst hj
      simpa using hp.symm
    | succ j =>
      simp only [List.getElem?_cons_succ] at hj ⊢
      exact hget j i hj

theorem framePoses_some {g : Graph} {fp : List Pose3} (h : g.framePoses = some fp) :
    fp.length = g.cloudsInQueue ∧
    ∀ j, j < g.cloudsInQueue →
      fp[j]? = Values.atPose g.isamCurrentEstimate (Key.X (g.startIdx + j)) := by
  unfold Graph.framePoses at h
  split at h
  · simp at h
  · obtain ⟨hl, hget⟩ := readFramePoses_some _ _ _ h
    refine ⟨by simpa using hl, ?_⟩
    intro j hj
    exact hget j _ (by simp [List.getElem?_range', hj])

theorem smoothKeyframes_none {ext : Ext} {g : Graph} {framePoses : List Pose3} {i : Nat}
    (hi : ∀ st, smoothKeyframe ext g framePoses st i = none) :
    ∀ (idxs : List Nat) (st : SmoothBatch), i ∈ idxs →
      smoothKeyframes ext g framePoses idxs st = none := by
  intro idxs
  induction idxs with
  | nil =>
    intro st hmem
    simp at hmem
  | cons i0 rest ih =>
    intro st hmem
    simp only [smoothKeyframes]
    cases hs : smoothKeyframe ext g framePoses st i0 with
    | none => rfl
    | some st1 =>
      simp only [Option.some_bind]
      rcases List.mem_cons.mp hmem with rfl | hm
      · rw [hi st] at hs
        exact Option.noConfusion hs
      · exact ih st1 hm

/-- C19: the vector `framePoses` has `cloudsInQueue` elements, and its
element `j` is the estimate of `X(startIdx + j)`; the loop reads it at
`cloudnr`, not at `cloudnr - startIdx`. With `0 < startIdx` and a keyframe
pending, the read for the last pending keyframe is past the end of the
vector, and a round in which such a read stops the program does not return.
After the run `demoSmoothAfterFirst` three keyframes are stored and two are
pending: the read for keyframe 1 gives the estimate of `X(2)`, 0.6 along x
where the estimate of `X(1)` is 0.3, and the read for keyframe 2 is past the
end. -/
theorem framePoses_read_at_absolute_index :
    (∀ (g : Graph) (fp : List Pose3), g.framePoses = some fp →
      fp.length = g.cloudsInQueue ∧
      ∀ j, j < g.cloudsInQueue →
        fp[j]? = Values.atPose g.isamCurrentEstimate (Key.X (g.startIdx + j))) ∧
    (∀ (ext : Ext) (g : Graph), 1 ≤ g.cloudsInQueue →
      g.cloudsInQueue < g.cloudKeyFrames.length →
      (∀ fp i, ext.readPastEnd fp i = none) → g._smoothPoses ext = none) ∧
    (∃ g fp, Graph.runAll demoExt demoInit demoSmoothAfterFirst = some g ∧
      g.cloudKeyFrames.length = 3 ∧ g.cloudsInQueue = 2 ∧ g.startIdx = 1 ∧
      g.framePoses = some fp ∧
      (fp[1]?).map Pose3.x = some (3 / 5) ∧
      (Values.atPose g.isamCurrentEstimate (Key.X 1)).map Pose3.x = some (3 / 10) ∧
      (Values.atPose g.isamCurrentEstimate (Key.X 2)).map Pose3.x = some (3 / 5) ∧
      (fp[2]?).isNone = true ∧
      g._smoothPoses demoExt = none) ∧
    ¬ ∀ (g : Graph) (fp : List Pose3) (cloudnr : Nat), g.framePoses = some fp →
      1 ≤ g.cloudsInQueue → g.cloudsInQueue ≤ g.cloudKeyFrames.length →
      g.startIdx ≤ cloudnr → cloudnr < g.startIdx + g.cloudsInQueue →
      (fp[cloudnr]?).isSome = true ∧
        fp[cloudnr]? = Values.atPose g.isamCurrentEstimate (Key.X cloudnr) := by
  have hdemo : (Graph.runAll demoExt demoInit demoSmoothAfterFirst).bind (fun g =>
      g.framePoses.map (fun fp =>
        decide (g.cloudKeyFrames.length = 3 ∧ g.cloudsInQueue = 2 ∧ g.startIdx = 1 ∧
          (fp[1]?).map Pose3.x = some (3 / 5) ∧
          (Values.atPose g.isamCurrentEstimate (Key.X 1)).map Pose3.x = some (3 / 10) ∧
          (Values.atPose g.isamCurrentEstimate (Key.X 2)).map Pose3.x = some (3 / 5) ∧
          (fp[2]?).isNone = true ∧
          (g._smoothPoses demoExt).isNone = true))) = some true := by decide!
  rw [Option.bind_eq_some] at hdemo
  obtain ⟨g, hg, hdemo⟩ := hdemo
  rw [Option.map_eq_some'] at hdemo
  obtain ⟨fp, hfp, hdemo⟩ := hdemo
  obtain ⟨hlen, hq, hstart, h1, hx1, hx2, h2, hnone⟩ := of_decide_eq_true hdemo
  refine ⟨fun g fp h => framePoses_some h, ?_, ?_, ?_⟩
  · intro ext g hq1 hlt hstop
    unfold Graph._smoothPoses
    rw [if_neg (by omega)]
    have hb : g._smoothPosesBatch ext = none := by
      unfold Graph._smoothPosesBatch
      cases hfp : g.framePoses with
      | none => rfl
      | some fp =>
        simp only [Option.bind_eq_bind, Option.some_bind]
        obtain ⟨hl, _⟩ := framePoses_some hfp
        refine smoothKeyframes_none (i := g.cloudKeyFrames.length - 1) ?_ _ _ ?_
        · intro st
          unfold smoothKeyframe
          have hc : g.cloudKeyFrames.length - 1 < g.cloudKeyFrames.length := by omega
          have hr : readFramePose ext fp (g.cloudKeyFrames.length - 1) = none := by
            unfold readFramePose
            rw [List.getElem?_eq_none (by omega)]
            exact hstop _ _
          simp [List.getElem?_eq_getElem hc, hr]
        · simp only [List.mem_range', Graph.startIdx]
          exact ⟨g.cloudsInQueue - 1, by omega, by omega⟩
    simp [hb]
  · exact ⟨g, fp, hg, hlen, hq, hstart, hfp, h1, hx1, hx2, h2, Option.isNone_iff_eq_none.mp hnone⟩
  · intro hall
    have := (hall g fp 2 hfp (by omega) (by omega) (by omega) (by omega)).1
    rw [Option.isNone_iff_eq_none] at h2
    rw [h2] at this
    exact Bool.noConfusion this

/-! ## The covariance a correspondence is whitened with -/

/-- A positive definite matrix stays so between `Bᴴ` and `B` when `B` sends
no vector but 0 to 0. -/
theorem posDef_conjTranspose_mul_mul_same {K n m : Type} [Fintype n] [Fintype m]
    [CommRing K] [PartialOrder K] [StarRing K]
    {A : Matrix n n K} (hA : A.PosDef) (B : Matrix n m K)
    (hB : ∀ x, B.mulVec x = 0 → x = 0) : (B.conjTranspose * A * B).PosDef := by
  constructor
  · exact Matrix.isHermitian_conjTranspose_mul_mul B hA.1
  · intro x hx
    have h := hA.2 (B.mulVec x) (fun h0 => hx (hB x h0))
    simpa only [Matrix.star_mulVec, Matrix.dotProduct_mulVec, Matrix.vecMul_vecMul] using h

/-- With positive variances `s`, the matrix `J * diag(s) * Jᵀ` is positive
definite as soon as `Jᵀ` has a left inverse. -/
theorem posDef_mul_diagonal_mul_transpose {K : Type} [CommRing K] [PartialOrder K]
    [StarRing K] [StarOrderedRing K] [NoZeroDivisors K] [TrivialStar K]
    (J L : Matrix (Fin 3) (Fin 6) K) (s : Fin 6 → K) (hs : ∀ i, 0 < s i)
    (hL : L * J.transpose = 1) : (J * Matrix.diagonal s * J.transpose).PosDef := by
  have hD : (Matrix.diagonal s).PosDef := Matrix.PosDef.diagonal hs
  have hinj : ∀ x, J.transpose.mulVec x = 0 → x = 0 := by
    intro x hx
    have h1 : (L * J.transpose).mulVec x = x := by rw [hL, Matrix.one_mulVec]
    rw [← h1, ← Matrix.mulVec_mulVec, hx, Matrix.mulVec_zero]
  have h := posDef_conjTranspose_mul_mul_same hD J.transpose hinj
  rwa [Matrix.conjTranspose_eq_transpose_of_trivial, Matrix.transpose_transpose] at h

/-- The rotation is the Jacobian block restricted to its last three
columns. -/
theorem J_hij_TwLi_translation (R : Matrix3) (p : Vector3) :
    J_hij_TwLi R p *
        Matrix.of (fun (i : Fin 6) (j : Fin 3) => if i.val = j.val + 3 then (1 : ℚ) else 0)
      = R := by
  ext i j
  rw [Matrix.mul_apply, Finset.sum_eq_single (⟨j.val + 3, by omega⟩ : Fin 6)]
  · simp [J_hij_TwLi]
  · intro b _ hb
    have : ¬ (b.val = j.val + 3) := fun h => hb (Fin.ext h)
    simp [this]
  · simp

/-- For an orthogonal `R` the transpose of the Jacobian block has a left
inverse. -/
theorem J_hij_TwLi_left_inverse (R : Matrix3) (p : Vector3) (hR : R * R.transpose = 1) :
    ∃ L : Matrix36, L * (J_hij_TwLi R p).transpose = 1 := by
  refine ⟨R * (Matrix.of (fun (i : Fin 6) (j : Fin 3) =>
    if i.val = j.val + 3 then (1 : ℚ) else 0)).transpose, ?_⟩
  rw [Matrix.mul_assoc, ← Matrix.transpose_mul, J_hij_TwLi_translation, hR]

theorem Sigmas_pos : ∀ i, 0 < Sigmas i := by decide!

/-- The covariance `whitener` of a correspondence is positive definite over
the rationals and, entry by entry, over the reals. -/
theorem whitener_posDef (R : Matrix3) (p : Vector3) (hR : R * R.transpose = 1) :
    (J_hij_TwLi R p * odometryNoiseCovariance * (J_hij_TwLi R p).transpose).PosDef ∧
    ((J_hij_TwLi R p * odometryNoiseCovariance * (J_hij_TwLi R p).transpose).map
      (Rat.castHom ℝ)).PosDef := by
  obtain ⟨L, hL⟩ := J_hij_TwLi_left_inverse R p hR
  refine ⟨posDef_mul_diagonal_mul_transpose _ L Sigmas Sigmas_pos hL, ?_⟩
  have hmap : (J_hij_TwLi R p * odometryNoiseCovariance * (J_hij_TwLi R p).transpose).map
      (Rat.castHom ℝ)
      = (J_hij_TwLi R p).map (Rat.castHom ℝ) *
          Matrix.diagonal (fun i => (Rat.castHom ℝ) (Sigmas i)) *
          ((J_hij_TwLi R p).map (Rat.castHom ℝ)).transpose := by
    rw [odometryNoiseCovariance, Matrix.map_mul, Matrix.map_mul, Matrix.transpose_map,
      Matrix.diagonal_map (map_zero _)]
  rw [hmap]
  refine posDef_mul_diagonal_mul_transpose _ (L.map (Rat.castHom ℝ)) _ ?_ ?_
  · intro i
    exact Rat.cast_pos.mpr (Sigmas_pos i)
  · rw [← Matrix.transpose_map, ← Matrix.map_mul, hL, Matrix.map_one _ (map_zero _) (map_one _)]

/-- C21: for an orthogonal matrix `R`, so for every rotation matrix, and every
local point `p`, the covariance `whitener = J * S * Jᵀ` that `_cloud2Map`
inverts for a correspondence, with `J = J_hij_TwLi R p` and `S` the odometry
noise covariance `diag(0.05, 0.05, 0.001, 0.1, 0.1, 0.3)`, is symmetric and
positive definite. Hence its determinant is positive, it has a two-sided
inverse, the inverse is symmetric and positive definite as well and has a
positive definite real square root; and when `cv::invert` returns the inverse
and `cv::eigen` an orthogonal diagonalisation of it, every eigenvalue that
`matrix_square_root` takes the square root of is positive. -/
theorem propagated_covariance_positive_definite (R : Matrix3) (p : Vector3)
    (hR : R * R.transpose = 1) :
    let C : Matrix3 := J_hij_TwLi R p * odometryNoiseCovariance * (J_hij_TwLi R p).transpose
    (∀ (ext : Ext) (pw pl qm : PointNormal), pl.toVector3 = p →
      (correspondenceBlock ext R pw pl qm).Ai
        = matrix_square_root ext (ext.invert C) * J_hij_TwLi R p) ∧
    C.transpose = C ∧
    (∀ x : Vector3, x ≠ 0 → 0 < Matrix.dotProduct x (C.mulVec x)) ∧
    0 < C.det ∧ C * C⁻¹ = 1 ∧ C⁻¹ * C = 1 ∧
    C⁻¹.transpose = C⁻¹ ∧
    (∀ x : Vector3, x ≠ 0 → 0 < Matrix.dotProduct x (C⁻¹.mulVec x)) ∧
    (∃ W : Matrix (Fin 3) (Fin 3) ℝ, W.PosDef ∧ W * W = C⁻¹.map (Rat.cast : ℚ → ℝ)) ∧
    ∀ ext : Ext, C * ext.invert C = 1 →
      (ext.eigen (ext.invert C)).2 * (ext.eigen (ext.invert C)).2.transpose = 1 →
      ext.invert C = (ext.eigen (ext.invert C)).2.transpose *
        Matrix.diagonal (ext.eigen (ext.invert C)).1 * (ext.eigen (ext.invert C)).2 →
      ∀ i, 0 < (ext.eigen (ext.invert C)).1 i := by
  intro C
  obtain ⟨hQ, hRe⟩ := whitener_posDef R p hR
  change C.PosDef at hQ
  change (C.map (Rat.castHom ℝ)).PosDef at hRe
  have hsymm : C.transpose = C := by
    have := hQ.1
    rwa [Matrix.IsHermitian, Matrix.conjTranspose_eq_transpose_of_trivial] at this
  have hdet : 0 < C.det := by
    have h := hRe.det_pos
    have h2 : (C.map (Rat.castHom ℝ)).det = ((C.det : ℚ) : ℝ) :=
      (RingHom.map_det (Rat.castHom ℝ) C).symm
    rw [h2] at h
    exact Rat.cast_pos.mp h
  have hunit : IsUnit C.det := isUnit_iff_ne_zero.mpr hdet.ne'
  have hmi : C * C⁻¹ = 1 := Matrix.mul_nonsing_inv C hunit
  have him : C⁻¹ * C = 1 := Matrix.nonsing_inv_mul C hunit
  have hisymm : C⁻¹.transpose = C⁻¹ := by
    rw [Matrix.transpose_nonsing_inv, hsymm]
  have hiQ : C⁻¹.PosDef := by
    have hinj : ∀ x, C⁻¹.mulVec x = 0 → x = 0 := by
      intro x hx
      have h1 : (C * C⁻¹).mulVec x = x := by rw [hmi, Matrix.one_mulVec]
      rw [← h1, ← Matrix.mulVec_mulVec, hx, Matrix.mulVec_zero]
    have h := posDef_conjTranspose_mul_mul_same hQ C⁻¹ hinj
    rwa [Matrix.conjTranspose_eq_transpose_of_trivial, hisymm, him, Matrix.one_mul] at h
  have hquad : ∀ {M : Matrix3}, M.PosDef → ∀ x : Vector3, x ≠ 0 →
      0 < Matrix.dotProduct x (M.mulVec x) := by
    intro M hM x hx
    have := hM.2 x hx
    rwa [star_trivial] at this
  refine ⟨?_, hsymm, hquad hQ, hdet, hmi, him, hisymm, hquad hiQ, ?_, ?_⟩
  · intro ext pw pl qm hp
    subst hp
    rfl
  · have hinvRe : (C.map (Rat.castHom ℝ))⁻¹ = C⁻¹.map (Rat.castHom ℝ) := by
      apply Matrix.inv_eq_right_inv
      rw [← Matrix.map_mul, hmi, Matrix.map_one _ (map_zero _) (map_one _)]
    have hiRe : (C⁻¹.map (Rat.castHom ℝ)).PosDef := by
      rw [← hinvRe]
      exact hRe.inv
    refine ⟨hiRe.posSemidef.sqrt, ?_, hiRe.posSemidef.sqrt_mul_self⟩
    refine ⟨hiRe.posSemidef.posSemidef_sqrt.1, ?_⟩
    intro x hx
    have hnn := hiRe.posSemidef.posSemidef_sqrt.2 x
    rcases hnn.lt_or_eq with hlt | heq
    · exact hlt
    · exfalso
      have h0 := (hiRe.posSemidef.posSemidef_sqrt.dotProduct_mulVec_zero_iff x).mp heq.symm
      have h1 : (C⁻¹.map (Rat.castHom ℝ)).mulVec x = 0 := by
        rw [← hiRe.posSemidef.sqrt_mul_self, ← Matrix.mulVec_mulVec, h0, Matrix.mulVec_zero]
      have h2 := hiRe.2 x hx
      rw [h1, Matrix.dotProduct_zero] at h2
      exact lt_irrefl _ h2
  · intro ext hinv hU hA i
    have hAeq : ext.invert C = C⁻¹ := (Matrix.inv_eq_right_inv hinv).symm
    have hAQ : (ext.invert C).PosDef := by
      rw [hAeq]
      exact hiQ
    have hinj : ∀ x, (ext.eigen (ext.invert C)).2.transpose.mulVec x = 0 → x = 0 := by
      intro x hx
      have h1 : ((ext.eigen (ext.invert C)).2 * (ext.eigen (ext.invert C)).2.transpose).mulVec x
          = x := by rw [hU, Matrix.one_mulVec]
      rw [← h1, ← Matrix.mulVec_mulVec, hx, Matrix.mulVec_zero]
    have h := posDef_conjTranspose_mul_mul_same hAQ (ext.eigen (ext.invert C)).2.transpose hinj
    rw [Matrix.conjTranspose_eq_transpose_of_trivial, Matrix.transpose_transpose] at h
    have hdiag : (ext.eigen (ext.invert C)).2 * ext.invert C *
        (ext.eigen (ext.invert C)).2.transpose
        = Matrix.diagonal (ext.eigen (ext.invert C)).1 := by
      have h1 : (ext.eigen (ext.invert C)).2 * ext.invert C *
          (ext.eigen (ext.invert C)).2.transpose
          = (ext.eigen (ext.invert C)).2 * ((ext.eigen (ext.invert C)).2.transpose *
              Matrix.diagonal (ext.eigen (ext.invert C)).1 * (ext.eigen (ext.invert C)).2) *
            (ext.eigen (ext.invert C)).2.transpose := by rw [← hA]
      rw [h1, ← Matrix.mul_assoc, ← Matrix.mul_assoc, hU, Matrix.one_mul, Matrix.mul_assoc, hU,
        Matrix.mul_one]
    rw [hdiag] at h
    exact Matrix.posDef_diagonal_iff.mp h i

theorem propagated_covariance_positive_definite_witness :
    demoQuarterTurn * demoQuarterTurn.transpose = 1 ∧
    J_hij_TwLi demoQuarterTurn ![0, 0, 2] * odometryNoiseCovariance *
        (J_hij_TwLi demoQuarterTurn ![0, 0, 2]).transpose
      = Matrix.diagonal ![3 / 10, 3 / 10, 3 / 10] ∧
    0 < (J_hij_TwLi demoQuarterTurn ![0, 0, 2] * odometryNoiseCovariance *
        (J_hij_TwLi demoQuarterTurn ![0, 0, 2]).transpose).det ∧
    ∀ i, 0 < (demoExt.eigen (demoExt.invert
      (J_hij_TwLi demoQuarterTurn ![0, 0, 2] * odometryNoiseCovariance *
        (J_hij_TwLi demoQuarterTurn ![0, 0, 2]).transpose))).1 i := by
  have hR : demoQuarterTurn * demoQuarterTurn.transpose = 1 := by decide!
  have h := propagated_covariance_positive_definite demoQuarterTurn ![0, 0, 2] hR
  exact ⟨hR, by decide!, h.2.2.2.1,
    h.2.2.2.2.2.2.2.2.2 demoExt (by decide!) (by decide!) (by decide!)⟩

end TunnelSlam
